import Mathlib

/-!
Verification of the builder-projects CLI scaffolder.

This file gives a shallow embedding of the scaffolding core of the
repository (`src/bin/utils/project-scaffolding.ts` — staged as
`src/unnamed/part_001` —, `src/bin/utils/skills.ts`,
`src/bin/utils/file-system.ts` and `src/bin/index.ts`) and proves the
frozen claims about it.

Modelling conventions:
* Filesystem paths are lists of components (`Path := List String`);
  `path.join p n` is `p ++ [n]`, `path.dirname` is `List.dropLast`,
  `path.basename` is the last component.
* File contents are Lean `String`s; the textual patches of
  `configureSvelteAliases` and the CSS-import rewrites are implemented
  character-exactly over `List Char`, including the leftmost-match
  semantics of JavaScript `String.replace`.
* External child processes (`execSync`) are oracles: a parameter of the
  embedding says what the process did to the filesystem and whether it
  threw.
-/

namespace Builder

/-- A filesystem path, as its list of components. -/
abbrev Path := List String

/-- `path.basename`: the last component of a path. -/
def basename (p : Path) : Option String :=
  p.getLast?

/-- `path.dirname`: the path without its last component. -/
def dirname (p : Path) : Path :=
  p.dropLast

/-- `path.join` with a single extra component. -/
def joinPath (p : Path) (n : String) : Path :=
  p ++ [n]

/-! ## Project configuration (src/unnamed/part_001 lines 17-24) -/

/-- The `Project` union type of `src/bin/types/projects.ts`. -/
inductive Project where
  | backend
  | frontend
  | fullstack
deriving DecidableEq, Repr

/-- The `Language` union type of `src/bin/types/languages.ts`. -/
inductive Language where
  | typescript
  | javascript
  | python
  | go
deriving DecidableEq, Repr

/-- `ProjectConfig` of src/unnamed/part_001 lines 17-24. -/
structure ProjectConfig where
  projectName : String
  projectType : Project
  language : Language
  framework : String
  architecture : String
  projectPath : Path
deriving Repr

/-- `FRAMEWORK_CLIS` (src/unnamed/part_001 lines 27-34): the frameworks
with an official CLI, as the list of registry keys. -/
def FRAMEWORK_CLIS : List String :=
  ["nestjs", "nextjs", "react", "svelte", "angular", "sveltekit"]

/-- Is `c` in the character class `[a-z0-9-]`? -/
def isKebabChar (c : Char) : Bool :=
  ('a' ≤ c && c ≤ 'z') || ('0' ≤ c && c ≤ '9') || c = '-'

/-- `normalizeProjectName` (src/unnamed/part_001 lines 37-48): for nestjs
and angular, `projectName.toLowerCase().replace(/[^a-z0-9-]/g, "-")`;
identity for every other framework.  JavaScript `toLowerCase` is modelled
by per-character `Char.toLower`, which agrees on the `[A-Za-z0-9_-]+`
names the prompt layer accepts. -/
def normalizeProjectName (framework : String) (projectName : String) : String :=
  match framework with
  | "nestjs" =>
      ⟨(projectName.data.map Char.toLower).map
        (fun c => if isKebabChar c then c else '-')⟩
  | "angular" =>
      ⟨(projectName.data.map Char.toLower).map
        (fun c => if isKebabChar c then c else '-')⟩
  | _ => projectName

/-! ## Skills (src/bin/utils/skills.ts) -/

/-- The `Skill` interface of `src/bin/types/skills.ts` (staged as
src/unnamed/part_002). -/
structure Skill where
  name : String
  path : String
  description : String
  isDefault : Option Bool := none
deriving DecidableEq, Repr

/-- One step of the `reduce` in `combineSkills` (src/bin/utils/skills.ts
lines 71-76): push the skill unless a skill with the same path is
already in the accumulator. -/
def dedupStep (acc : List Skill) (skill : Skill) : List Skill :=
  if acc.any (fun s => s.path = skill.path) then acc else acc ++ [skill]

/-- `combineSkills` (src/bin/utils/skills.ts lines 63-79): concatenate the
three lists, then remove duplicates by path with a left fold that keeps
the first occurrence. -/
def combineSkills (defaultSkills frameworkSkills additionalSkills : List Skill) :
    List Skill :=
  (defaultSkills ++ frameworkSkills ++ additionalSkills).foldl dedupStep []

/-- Reference form of path-deduplication, in the words of the claim: keep
each skill and drop every later skill with the same path. -/
def dedupByPath : List Skill → List Skill
  | [] => []
  | s :: rest => s :: dedupByPath (rest.filter (fun t => t.path ≠ s.path))
termination_by l => l.length
decreasing_by
  simpa using Nat.lt_succ_of_le (rest.length_filter_le _)

/-- Helper: the fold of `combineSkills`, deduplicating against an
explicit set of already-seen paths. -/
def dedupFrom (seen : List String) : List Skill → List Skill
  | [] => []
  | s :: rest =>
      if s.path ∈ seen then dedupFrom seen rest
      else s :: dedupFrom (s.path :: seen) rest

/-! ## Process exit codes (src/bin/index.ts lines 416-431) -/

/-- The distinguished cancellation message thrown by the prompt layer. -/
def cancelMessage : String := "User force closed the prompt"

/-- Outcome of the interactive creation flow inside the `.action` handler. -/
inductive FlowOutcome where
  | success
  | errored (message : String)
deriving DecidableEq, Repr

/-- Exit code of the process as set by the action's `catch` handler
(src/bin/index.ts lines 416-423): `0` after normal completion, `0` for
the distinguished cancellation error, `1` for every other caught error. -/
def mainExitCode : FlowOutcome → Nat
  | .success => 0
  | .errored message => if message = cancelMessage then 0 else 1

/-- Exit code set by the `uncaughtException` handler
(src/bin/index.ts lines 428-431). -/
def uncaughtExceptionExitCode (_message : String) : Nat := 1

/-! ## Skeleton Builder directory tables (src/unnamed/part_001 lines 531-739)

Each `createXStructure` function is a straight-line sequence of
`createDirectory` calls; its embedding is the list of created directory
paths, relative to the project path, in call order. -/

/-- The `srcDir` ternary shared by the backend structure builders
(e.g. src/unnamed/part_001 line 586): python uses the project root
itself, other languages a nested `src`. -/
def srcRoot (language : Language) : Path :=
  if language = Language.python then [] else ["src"]

/-- `createMVCStructure` (src/unnamed/part_001 lines 582-601). -/
def mvcDirs (language : Language) : List Path :=
  let s := srcRoot language
  [s ++ ["models"], s ++ ["views"], s ++ ["controllers"], s ++ ["routes"],
   s ++ ["config"], s ++ ["middlewares"], s ++ ["utils"], ["tests"]]

/-- `createHexagonalStructure` (src/unnamed/part_001 lines 603-618). -/
def hexagonalDirs (language : Language) : List Path :=
  let s := srcRoot language
  [s ++ ["domain", "entities"], s ++ ["domain", "repositories"],
   s ++ ["domain", "services"], s ++ ["application", "use-cases"],
   s ++ ["application", "dto"], s ++ ["infrastructure", "adapters"],
   s ++ ["infrastructure", "persistence"], s ++ ["infrastructure", "http"],
   ["tests"]]

/-- `createLayeredStructure` (src/unnamed/part_001 lines 620-631). -/
def layeredDirs (language : Language) : List Path :=
  let s := srcRoot language
  [s ++ ["presentation"], s ++ ["business"], s ++ ["data"], s ++ ["config"],
   ["tests"]]

/-- `createLayeredScreamingStructure` (src/unnamed/part_001 lines 633-645). -/
def layeredScreamingDirs (language : Language) : List Path :=
  let s := srcRoot language
  [s ++ ["features", "example-feature", "presentation"],
   s ++ ["features", "example-feature", "business"],
   s ++ ["features", "example-feature", "data"],
   s ++ ["shared", "config"], s ++ ["shared", "utils"], ["tests"]]

/-- `createComponentBasedStructure` (src/unnamed/part_001 lines 647-656). -/
def componentBasedDirs : List Path :=
  [["src", "components", "common"], ["src", "components", "layout"],
   ["src", "pages"], ["src", "hooks"], ["src", "utils"], ["src", "styles"],
   ["src", "assets"], ["public"]]

/-- `createFeatureBasedStructure` (src/unnamed/part_001 lines 658-668). -/
def featureBasedDirs : List Path :=
  [["src", "features", "example-feature", "components"],
   ["src", "features", "example-feature", "hooks"],
   ["src", "features", "example-feature", "utils"],
   ["src", "shared", "components"], ["src", "shared", "hooks"],
   ["src", "shared", "utils"], ["src", "styles"], ["src", "assets"],
   ["public"]]

/-- `createGoLayeredStructure` (src/unnamed/part_001 lines 690-700). -/
def goLayeredDirs : List Path :=
  [["cmd", "api"], ["internal", "delivery", "http", "handler"],
   ["internal", "delivery", "http", "middleware"], ["internal", "business"],
   ["internal", "data", "repository"],
   ["internal", "infrastructure", "database"],
   ["internal", "infrastructure", "config"], ["pkg"]]

/-- `createGoMVCStructure` (src/unnamed/part_001 lines 702-713). -/
def goMVCDirs : List Path :=
  [["cmd", "api"], ["internal", "models"], ["internal", "views"],
   ["internal", "controllers"], ["internal", "routes"],
   ["internal", "middleware"], ["internal", "infrastructure", "database"],
   ["internal", "infrastructure", "config"], ["pkg"]]

/-- `createGoHexagonalStructure` (src/unnamed/part_001 lines 715-726). -/
def goHexagonalDirs : List Path :=
  [["cmd", "api"], ["internal", "domain", "entity"],
   ["internal", "domain", "repository"], ["internal", "usecase"],
   ["internal", "delivery", "http", "handler"],
   ["internal", "delivery", "http", "middleware"],
   ["internal", "infrastructure", "database"],
   ["internal", "infrastructure", "config"], ["pkg"]]

/-- `createGoLayeredScreamingStructure` (src/unnamed/part_001 lines 728-739). -/
def goLayeredScreamingDirs : List Path :=
  [["cmd", "api"], ["internal", "features", "example", "handler"],
   ["internal", "features", "example", "business"],
   ["internal", "features", "example", "repository"],
   ["internal", "shared", "middleware"], ["internal", "shared", "utils"],
   ["internal", "infrastructure", "database"],
   ["internal", "infrastructure", "config"], ["pkg"]]

/-- `createGoStructure` (src/unnamed/part_001 lines 671-688): dispatch on
the architecture tag, defaulting to layered. -/
def goStructureDirs (architecture : String) : List Path :=
  match architecture with
  | "mvc" => goMVCDirs
  | "hexagonal" => goHexagonalDirs
  | "layered" => goLayeredDirs
  | "layered-screaming" => goLayeredScreamingDirs
  | _ => goLayeredDirs

/-- `createBackendStructure` (src/unnamed/part_001 lines 531-561): django
skips structure creation, go dispatches to the go builders, otherwise the
architecture switch runs with layered as the default branch. -/
def backendStructureDirs (language : Language) (framework : String)
    (architecture : String) : List Path :=
  if framework = "django" then []
  else if language = Language.go then goStructureDirs architecture
  else
    match architecture with
    | "mvc" => mvcDirs language
    | "hexagonal" => hexagonalDirs language
    | "layered" => layeredDirs language
    | "layered-screaming" => layeredScreamingDirs language
    | _ => layeredDirs language

/-- `createFrontendStructure` (src/unnamed/part_001 lines 563-571). -/
def frontendStructureDirs (architecture : String) : List Path :=
  if architecture = "feature-based" then featureBasedDirs
  else componentBasedDirs

/-- `createFullstackStructure` (src/unnamed/part_001 lines 573-580). -/
def fullstackStructureDirs : List Path :=
  [["src"], ["public"]]

/-! ## The §4.1 mapping table, written from the spec's words.

Directories are listed relative to the source root, exactly as printed in
the table; the mvc row's "(+ tests at project root)" annotation is the
only project-root entry. -/

/-- The §4.1 backend table rows, relative to the source root. -/
def specBackendTable (architecture : String) : List Path :=
  match architecture with
  | "mvc" =>
      [["models"], ["views"], ["controllers"], ["routes"], ["config"],
       ["middlewares"], ["utils"]]
  | "hexagonal" =>
      [["domain", "entities"], ["domain", "repositories"],
       ["domain", "services"], ["application", "use-cases"],
       ["application", "dto"], ["infrastructure", "adapters"],
       ["infrastructure", "persistence"], ["infrastructure", "http"]]
  | "layered" =>
      [["presentation"], ["business"], ["data"], ["config"]]
  | "layered-screaming" =>
      [["features", "example-feature", "presentation"],
       ["features", "example-feature", "business"],
       ["features", "example-feature", "data"],
       ["shared", "config"], ["shared", "utils"]]
  | _ => []

/-- The §4.1 frontend table rows, relative to the source root. -/
def specFrontendTable (architecture : String) : List Path :=
  match architecture with
  | "component-based" =>
      [["components", "common"], ["components", "layout"], ["pages"],
       ["hooks"], ["utils"], ["styles"], ["assets"]]
  | "feature-based" =>
      [["features", "example-feature", "components"],
       ["features", "example-feature", "hooks"],
       ["features", "example-feature", "utils"],
       ["shared", "components"], ["shared", "hooks"], ["shared", "utils"],
       ["styles"], ["assets"]]
  | _ => []

/-- The full directory set the §4.1 table asserts for a backend
combination: the table rows placed under the language's source root, plus
the `tests` project-root directory the mvc row annotates. -/
def specBackendDirs (language : Language) (architecture : String) : List Path :=
  (specBackendTable architecture).map (fun d => srcRoot language ++ d) ++
    (if architecture = "mvc" then [(["tests"] : Path)] else [])

/-- The full directory set the §4.1 table asserts for a frontend
combination: the table rows under `src` (the frontend languages are
typescript and javascript). -/
def specFrontendDirs (architecture : String) : List Path :=
  (specFrontendTable architecture).map (fun d => ["src"] ++ d)

/-- The backend architecture tags offered by the prompt layer
(`BACKEND_ARCHITECTURES` of src/bin/types/architecture.ts). -/
def backendArchitectures : List String :=
  ["mvc", "hexagonal", "layered", "layered-screaming"]

/-- The frontend architecture tags offered by the prompt layer
(`FRONTEND_ARCHITECTURES` of src/bin/types/architecture.ts). -/
def frontendArchitectures : List String :=
  ["component-based", "feature-based"]

/-! ## Character-level string machinery

JavaScript `String.replace` with a non-global regex replaces the leftmost
match; with `/g` it replaces every match, resuming after each match's
end.  `String.includes` is a substring test.  The regexes used by the
source are all deterministic (each quantified class is followed by a
character outside the class), so a maximal-munch matcher implements
them exactly. -/

/-- JavaScript `\s` on the whitespace characters the generator files can
contain (space, tab, newline, carriage return, vertical tab, form
feed). -/
def isWsChar (c : Char) : Bool :=
  c = ' ' || c = '\t' || c = '\n' || c = '\r' || c = '\x0b' || c = '\x0c'

/-- The open-brace character. -/
def openBrace : Char := '\x7b'

/-- The close-brace character. -/
def closeBrace : Char := '\x7d'

/-- Does `l` start with the segment `s`? -/
def startsWithSeg (s l : List Char) : Bool :=
  l.take s.length = s

/-- JavaScript `String.includes`: does `s` occur as a contiguous segment
of `l`? -/
def hasSeg (s l : List Char) : Bool :=
  l.tails.any (fun t => startsWithSeg s t)

/-- `s` occurs as a contiguous segment of `l` (propositional form). -/
def OccursIn (s l : List Char) : Prop :=
  ∃ u v, l = u ++ s ++ v

/-- A regex-piece matcher: on success, the consumed segment and the
rest. -/
abbrev Matcher := List Char → Option (List Char × List Char)

/-- Sequencing of matchers. -/
def seqM (f g : Matcher) : Matcher := fun l =>
  match f l with
  | none => none
  | some (c₁, r₁) =>
      match g r₁ with
      | none => none
      | some (c₂, r₂) => some (c₁ ++ c₂, r₂)

/-- Literal matcher. -/
def litP (lit : List Char) : Matcher := fun l =>
  if l.take lit.length = lit then some (lit, l.drop lit.length) else none

/-- One-or-more characters of a class, maximal munch. -/
def classP (p : Char → Bool) : Matcher := fun l =>
  let w := l.takeWhile p
  if w.isEmpty then none else some (w, l.dropWhile p)

/-- `\s+`, maximal munch. -/
def wsP : Matcher := classP isWsChar

/-- `\s*`, maximal munch (always succeeds). -/
def wsStarP : Matcher := fun l =>
  some (l.takeWhile isWsChar, l.dropWhile isWsChar)

/-- `['"]`: one quote character. -/
def quoteP : Matcher := fun l =>
  match l with
  | [] => none
  | c :: r => if c = '\'' || c = '"' then some ([c], r) else none

/-- Leftmost match of `m` in a list: the part before the match, the
match, and the rest. -/
def findPat (m : Matcher) : List Char → Option (List Char × List Char × List Char)
  | [] =>
      match m [] with
      | some (c, r) => some ([], c, r)
      | none => none
  | x :: xs =>
      match m (x :: xs) with
      | some (c, r) => some ([], c, r)
      | none =>
          match findPat m xs with
          | some (p, c, r) => some (x :: p, c, r)
          | none => none

/-- JavaScript `String.replace` with a non-global regex: replace the
leftmost match of `m` by `repl`, or return the input unchanged when
there is no match. -/
def replaceFirstM (m : Matcher) (repl : List Char) (l : List Char) : List Char :=
  match findPat m l with
  | none => l
  | some (p, _, r) => p ++ repl ++ r

/-- JavaScript `String.replace` with a global regex, fuel-indexed: scan
left to right, replacing each match and resuming after it.  All matchers
used consume at least one character, so `l.length` fuel is enough. -/
def replaceAllFuel (m : Matcher) (repl : List Char) : Nat → List Char → List Char
  | 0, l => l
  | _ + 1, [] => []
  | fuel + 1, c :: rest =>
      match m (c :: rest) with
      | some (_, r) => repl ++ replaceAllFuel m repl fuel r
      | none => c :: replaceAllFuel m repl fuel rest

/-- JavaScript `String.replace` with a global regex. -/
def replaceAllM (m : Matcher) (repl : List Char) (l : List Char) : List Char :=
  replaceAllFuel m repl l.length l

/-! ## configureSvelteAliases (src/unnamed/part_001 lines 214-265) -/

/-- The guard marker of the vite path-import patch. -/
def pathImportMarker : List Char := "import path from".data

/-- The guard marker of the vite resolve-alias patch. -/
def resolveMarker : List Char := "resolve:".data

/-- The guard marker of the tsconfig paths patch. -/
def pathsMarker : List Char := "\"paths\"".data

/-- The literal `import`. -/
def impLit : List Char := "import".data

/-- The literal `from`. -/
def fromLit : List Char := "from".data

/-- The literal `@sveltejs/vite-plugin-svelte`. -/
def svLit : List Char := "@sveltejs/vite-plugin-svelte".data

/-- The literal `plugins:`. -/
def plugLit : List Char := "plugins:".data

/-- The literal `[svelte()],`. -/
def brackLit : List Char := "[svelte()],".data

/-- The literal `"compilerOptions":`. -/
def compLit : List Char := "\"compilerOptions\":".data

/-- The regex `import\s+{[^}]+}\s+from\s+['"]@sveltejs\/vite-plugin-svelte['"]`
(src/unnamed/part_001 line 229). -/
def matchVitePluginImport : Matcher :=
  seqM (litP impLit) (seqM wsP (seqM (litP [openBrace])
    (seqM (classP (fun c => c ≠ closeBrace)) (seqM (litP [closeBrace])
      (seqM wsP (seqM (litP fromLit) (seqM wsP (seqM quoteP
        (seqM (litP svLit) quoteP)))))))))

/-- The regex `plugins:\s*\[svelte\(\)\],` (src/unnamed/part_001 line 237). -/
def matchPluginsArray : Matcher :=
  seqM (litP plugLit) (seqM wsStarP (litP brackLit))

/-- The regex `"compilerOptions":\s*{` (src/unnamed/part_001 line 256). -/
def matchCompilerOptions : Matcher :=
  seqM (litP compLit) (seqM wsStarP (litP [openBrace]))

/-- Replacement text of the vite path-import patch
(src/unnamed/part_001 line 230). -/
def viteImportRepl : List Char :=
  "import \x7b svelte \x7d from \"@sveltejs/vite-plugin-svelte\";\nimport path from \"node:path\"".data

/-- Replacement text of the vite resolve-alias patch
(src/unnamed/part_001 line 238). -/
def viteResolveRepl : List Char :=
  "plugins: [svelte()],\n  resolve: \x7b\n    alias: \x7b\n      $lib: path.resolve(\"src/lib/\"),\n    \x7d,\n  \x7d,".data

/-- Replacement text of the tsconfig paths patch
(src/unnamed/part_001 line 257). -/
def tsconfigPathsRepl : List Char :=
  "\"compilerOptions\": \x7b\n    \"paths\": \x7b\n      \"$lib/*\": [\"src/lib/*\"]\n    \x7d,".data

/-- The path-import patch of `configureSvelteAliases`
(src/unnamed/part_001 lines 227-232), guarded on `import path from`. -/
def vitePatchImport (l : List Char) : List Char :=
  if hasSeg pathImportMarker l then l
  else replaceFirstM matchVitePluginImport viteImportRepl l

/-- The resolve-alias patch of `configureSvelteAliases`
(src/unnamed/part_001 lines 235-240), guarded on `resolve:`. -/
def vitePatchResolve (l : List Char) : List Char :=
  if hasSeg resolveMarker l then l
  else replaceFirstM matchPluginsArray viteResolveRepl l

/-- The vite.config.ts transformation of `configureSvelteAliases`
(src/unnamed/part_001 lines 220-243): the path-import patch, then the
resolve-alias patch, each patching the leftmost regex match. -/
def configureViteConfig (content : String) : String :=
  ⟨vitePatchResolve (vitePatchImport content.data)⟩

/-- The shape of every `matchVitePluginImport` match: the literal pieces
of the regex `import\s+{[^}]+}\s+from\s+['"]@sveltejs\/vite-plugin-svelte['"]`
with its three whitespace runs, brace-free inner part and two quotes. -/
def ShapeVite (c : List Char) : Prop :=
  ∃ w₁ inner w₂ w₃ q₁ q₂,
    (∀ x ∈ w₁, isWsChar x = true) ∧ w₁ ≠ [] ∧
    (∀ x ∈ inner, x ≠ closeBrace) ∧ inner ≠ [] ∧
    (∀ x ∈ w₂, isWsChar x = true) ∧ w₂ ≠ [] ∧
    (∀ x ∈ w₃, isWsChar x = true) ∧ w₃ ≠ [] ∧
    (q₁ = '\'' ∨ q₁ = '"') ∧ (q₂ = '\'' ∨ q₂ = '"') ∧
    c = impLit ++ w₁ ++ [openBrace] ++ inner ++ [closeBrace] ++ w₂ ++
      fromLit ++ w₃ ++ [q₁] ++ svLit ++ [q₂]

/-- The shape of every `matchPluginsArray` match: the regex
`plugins:\s*\[svelte\(\)\],`. -/
def ShapePlugins (c : List Char) : Prop :=
  ∃ w, (∀ x ∈ w, isWsChar x = true) ∧ c = plugLit ++ w ++ brackLit

/-- The tsconfig.app.json transformation of `configureSvelteAliases`
(src/unnamed/part_001 lines 246-262): the paths patch guarded on
`"paths"`. -/
def configureTsconfigApp (content : String) : String :=
  if hasSeg pathsMarker content.data then content
  else ⟨replaceFirstM matchCompilerOptions tsconfigPathsRepl content.data⟩

/-- `configureSvelteAliases` (src/unnamed/part_001 lines 214-265) on the
contents of the two generator-produced config files; `none` models an
absent file (the `pathExists` guards). -/
def configureSvelteAliases (viteConfig tsconfigApp : Option String) :
    Option String × Option String :=
  (viteConfig.map configureViteConfig, tsconfigApp.map configureTsconfigApp)

/-! ## CSS-import rewrites (src/unnamed/part_001 lines 406-528)

The rewrites all use global regexes of the form
`import ['"]<literal>['"]`; `importPat` is that shape with the two quote
characters explicit. -/

/-- The characters a JavaScript `['"]` class accepts. -/
def quoteChars : List Char := ['\'', '"']

/-- The pattern `import ['"]<mid>['"]` with explicit quotes. -/
def importPat (mid : List Char) (q₁ q₂ : Char) : List Char :=
  "import ".data ++ [q₁] ++ mid ++ [q₂]

/-- Does `l` start with a match of `import ['"]<mid>['"]`? -/
def isImportPatAt (mid : List Char) (l : List Char) : Bool :=
  startsWithSeg "import ".data l &&
    (match l.drop 7 with
     | q₁ :: r =>
         (q₁ = '\'' || q₁ = '"') && startsWithSeg mid r &&
           (match r.drop mid.length with
            | q₂ :: _ => q₂ = '\'' || q₂ = '"'
            | [] => false)
     | [] => false)

/-- Global replacement of `import ['"]<mid>['"]` by `repl`, resuming
after each match, exactly as a JavaScript `/g` replace; fuel-indexed for
structural recursion (every match consumes `mid.length + 9 ≥ 1`
characters, so `l.length` fuel is enough). -/
def replaceImportPatFuel (mid repl : List Char) : Nat → List Char → List Char
  | 0, l => l
  | _ + 1, [] => []
  | fuel + 1, c :: rest =>
      if isImportPatAt mid (c :: rest) then
        repl ++ replaceImportPatFuel mid repl fuel ((c :: rest).drop (mid.length + 9))
      else
        c :: replaceImportPatFuel mid repl fuel rest

/-- Global replacement of `import ['"]<mid>['"]` by `repl`. -/
def replaceImportPat (mid repl l : List Char) : List Char :=
  replaceImportPatFuel mid repl l.length l

/-- Does `import ['"]<mid>['"]` match anywhere in `l`? -/
def hasImportPat (mid l : List Char) : Bool :=
  l.tails.any (fun t => isImportPatAt mid t)

/-- The rewrite relation of a global `import ['"]<mid>['"]` replace: the
output is the input with every pattern occurrence replaced by `repl` and
every other character kept in place.  This is the claim's sense of
"occurrences of the exact literal pattern are the only substrings
changed". -/
inductive ImportRewrite (mid repl : List Char) : List Char → List Char → Prop
  | nil : ImportRewrite mid repl [] []
  | keep (c : Char) (rest out : List Char) :
      isImportPatAt mid (c :: rest) = false →
      ImportRewrite mid repl rest out →
      ImportRewrite mid repl (c :: rest) (c :: out)
  | subst (q₁ q₂ : Char) (rest out : List Char) :
      q₁ ∈ quoteChars → q₂ ∈ quoteChars →
      ImportRewrite mid repl rest out →
      ImportRewrite mid repl (importPat mid q₁ q₂ ++ rest) (repl ++ out)

/-- The replacement text `updateMainCssImports` uses
(src/unnamed/part_001 lines 424-434). -/
def mainCssRepl (architecture : String) : List Char :=
  if architecture = "feature-based" then
    "import './shared/styles/index.css'".data
  else
    "import './styles/index.css'".data

/-- The content rewrite of `updateMainCssImports`
(src/unnamed/part_001 lines 421-436): every match of
`import ['"]\.\/index\.css['"]` is replaced. -/
def rewriteMainCss (architecture : String) (content : String) : String :=
  ⟨replaceImportPat "./index.css".data (mainCssRepl architecture) content.data⟩

/-- `updateMainCssImports` (src/unnamed/part_001 lines 407-440): try
main.tsx then main.jsx, rewrite the first that exists and stop (`break`).
The two components are the contents of main.tsx and main.jsx (`none`
models absence). -/
def updateMainCssImports (architecture : String)
    (mainTsx mainJsx : Option String) : Option String × Option String :=
  match mainTsx with
  | some content => (some (rewriteMainCss architecture content), mainJsx)
  | none =>
      match mainJsx with
      | some content => (none, some (rewriteMainCss architecture content))
      | none => (none, none)

/-- The content rewrite of `updateAppCssImports`
(src/unnamed/part_001 lines 458-466): every match of
`import ['"]\.\/App\.css['"]` becomes `import './<cssPath>/App.css'`. -/
def rewriteAppCss (cssPath : String) (content : String) : String :=
  ⟨replaceImportPat "./App.css".data
    ("import './".data ++ cssPath.data ++ "/App.css'".data) content.data⟩

/-- The content rewrite of `updateSvelteCssImport`
(src/unnamed/part_001 lines 515-526). -/
def rewriteSvelteCss (architecture : String) (content : String) : String :=
  let cssPath := if architecture = "feature-based" then
      "$lib/shared/styles/app.css" else "$lib/styles/app.css"
  ⟨replaceImportPat "./app.css".data
    ("import '".data ++ cssPath.data ++ ['\'']) content.data⟩

/-- The regex `import\s+Counter\s+from\s+['"]\.\/lib\/Counter\.svelte['"]`
(src/unnamed/part_001 line 491). -/
def matchCounterRel : Matcher :=
  seqM (litP impLit) (seqM wsP (seqM (litP "Counter".data) (seqM wsP
    (seqM (litP fromLit) (seqM wsP (seqM quoteP
      (seqM (litP "./lib/Counter.svelte".data) quoteP)))))))

/-- The regex `import\s+Counter\s+from\s+['"]\$lib\/Counter\.svelte['"]`
(src/unnamed/part_001 line 497). -/
def matchCounterLib : Matcher :=
  seqM (litP impLit) (seqM wsP (seqM (litP "Counter".data) (seqM wsP
    (seqM (litP fromLit) (seqM wsP (seqM quoteP
      (seqM (litP "$lib/Counter.svelte".data) quoteP)))))))

/-- `counterRelativePath.replace(/^lib\//, '')`
(src/unnamed/part_001 line 487). -/
def stripLibForward (s : String) : String :=
  if s.data.take 4 = "lib/".data then ⟨s.data.drop 4⟩ else s

/-- The content rewrite of `updateSvelteAppImports`
(src/unnamed/part_001 lines 482-499): both Counter-import global
replaces in sequence. -/
def rewriteSvelteAppImports (counterRelativePath : String) (content : String) :
    String :=
  let libPathStr := stripLibForward counterRelativePath
  let repl := "import Counter from '$lib/".data ++ libPathStr.data ++
    "/Counter.svelte'".data
  let l₁ := replaceAllM matchCounterRel repl content.data
  let l₂ := replaceAllM matchCounterLib repl l₁
  ⟨l₂⟩

/-! ## Filesystem model (src/bin/utils/file-system.ts, staged in full as
src/unnamed/part_007)

A filesystem state is the association list of files (path to content)
plus the list of directories.  `createDirectory` uses `recursive: true`;
only the full directory path is recorded, which is all the claims
observe.  Existence checks on files to be read are modelled by content
lookup. -/

/-- A filesystem state. -/
structure FS where
  files : List (Path × String)
  dirs : List Path
deriving Repr

/-- The content of the file at `p`, if any. -/
def fileAt (fs : FS) (p : Path) : Option String :=
  (fs.files.find? (fun e => e.1 = p)).map (fun e => e.2)

/-- `pathExists` (src/unnamed/part_007 lines 93-100). -/
def pathExistsFS (fs : FS) (p : Path) : Bool :=
  fs.files.any (fun e => e.1 = p) || fs.dirs.contains p

/-- `createDirectory` (src/unnamed/part_007 lines 14-21). -/
def createDirectoryFS (fs : FS) (p : Path) : FS :=
  { fs with dirs := if fs.dirs.contains p then fs.dirs else fs.dirs ++ [p] }

/-- A sequence of `createDirectory` calls. -/
def createDirsFS (fs : FS) (ps : List Path) : FS :=
  ps.foldl createDirectoryFS fs

/-- `writeFile` (src/unnamed/part_007 lines 23-35): create the parent
directory, then write (overwriting any previous content). -/
def writeFileFS (fs : FS) (p : Path) (content : String) : FS :=
  let fs₁ := createDirectoryFS fs (dirname p)
  { fs₁ with files := fs₁.files.filter (fun e => e.1 ≠ p) ++ [(p, content)] }

/-- `moveFile` (src/unnamed/part_007 lines 82-91): create the destination
directory and rename; `fs.rename` fails when the source file does not
exist. -/
def moveFileFS (fs : FS) (src dst : Path) : Except String FS :=
  match fs.files.find? (fun e => e.1 = src) with
  | some e =>
      let fs₁ := createDirectoryFS fs (dirname dst)
      .ok { fs₁ with
            files := fs₁.files.filter (fun x => x.1 ≠ src && x.1 ≠ dst) ++
              [(dst, e.2)] }
  | none => .error "rename failed"

/-- `readDirectory` (src/unnamed/part_007 lines 73-80): the names of the
direct children of `p` (files and directories); an unreadable directory
yields `[]`. -/
def childNames (fs : FS) (p : Path) : List String :=
  ((fs.files.map (fun e => e.1) ++ fs.dirs).filterMap
    (fun q => if q.length = p.length + 1 ∧ q.take p.length = p
              then q.getLast? else none)).dedup

/-! ## Structure Reconciler (src/unnamed/part_001 lines 192-528) -/

/-- One iteration of the React move loop (src/unnamed/part_001 lines
286-297 and 311-323): skip missing entries and `assets`, move `App.css`
and `index.css` to their architecture destinations, leave everything
else untouched. -/
def reactMoveStep (srcPath appCssDest indexCssDest : Path) (fs : FS)
    (file : String) : Except String FS :=
  let filePath := srcPath ++ [file]
  if !(pathExistsFS fs filePath) || file = "assets" then .ok fs
  else if file = "App.css" then moveFileFS fs filePath (appCssDest ++ [file])
  else if file = "index.css" then moveFileFS fs filePath (indexCssDest ++ [file])
  else .ok fs

/-- `updateAppCssImports` (src/unnamed/part_001 lines 443-470) as a
filesystem step: rewrite the first of App.tsx, App.jsx, App.svelte that
exists, then stop. -/
def updateAppCssImportsFS (srcPath : Path) (cssPath : String)
    (_architecture : String) (fs : FS) : FS :=
  match fileAt fs (srcPath ++ ["App.tsx"]) with
  | some content =>
      writeFileFS fs (srcPath ++ ["App.tsx"]) (rewriteAppCss cssPath content)
  | none =>
      match fileAt fs (srcPath ++ ["App.jsx"]) with
      | some content =>
          writeFileFS fs (srcPath ++ ["App.jsx"]) (rewriteAppCss cssPath content)
      | none =>
          match fileAt fs (srcPath ++ ["App.svelte"]) with
          | some content =>
              writeFileFS fs (srcPath ++ ["App.svelte"])
                (rewriteAppCss cssPath content)
          | none => fs

/-- `updateMainCssImports` (src/unnamed/part_001 lines 407-440) as a
filesystem step: rewrite the first of main.tsx, main.jsx that exists,
then stop. -/
def updateMainCssImportsFS (srcPath : Path) (architecture : String)
    (fs : FS) : FS :=
  match fileAt fs (srcPath ++ ["main.tsx"]) with
  | some content =>
      writeFileFS fs (srcPath ++ ["main.tsx"]) (rewriteMainCss architecture content)
  | none =>
      match fileAt fs (srcPath ++ ["main.jsx"]) with
      | some content =>
          writeFileFS fs (srcPath ++ ["main.jsx"])
            (rewriteMainCss architecture content)
      | none => fs

/-- `reorganizeReactProject` (src/unnamed/part_001 lines 268-329). -/
def reorganizeReactProjectFS (srcPath : Path) (architecture : String)
    (fs : FS) : Except String FS := do
  let files := childNames fs srcPath
  if architecture = "feature-based" then do
    let fs := createDirsFS fs
      [srcPath ++ ["features", "example", "components"],
       srcPath ++ ["features", "example", "hooks"],
       srcPath ++ ["features", "example", "utils"],
       srcPath ++ ["features", "example", "styles"],
       srcPath ++ ["shared", "components"], srcPath ++ ["shared", "hooks"],
       srcPath ++ ["shared", "utils"], srcPath ++ ["shared", "styles"]]
    let fs ← files.foldlM
      (reactMoveStep srcPath (srcPath ++ ["features", "example", "styles"])
        (srcPath ++ ["shared", "styles"])) fs
    let fs := updateAppCssImportsFS srcPath "features/example/styles"
      architecture fs
    .ok (updateMainCssImportsFS srcPath architecture fs)
  else do
    let fs := createDirsFS fs
      [srcPath ++ ["components", "common"], srcPath ++ ["components", "layout"],
       srcPath ++ ["hooks"], srcPath ++ ["utils"], srcPath ++ ["styles"]]
    let fs ← files.foldlM
      (reactMoveStep srcPath (srcPath ++ ["styles"]) (srcPath ++ ["styles"])) fs
    let fs := updateAppCssImportsFS srcPath "styles" architecture fs
    .ok (updateMainCssImportsFS srcPath architecture fs)

/-- One iteration of the Svelte lib move loop (src/unnamed/part_001
lines 350-359 and 373-382): move `Counter.svelte` to its destination,
skip everything else. -/
def svelteCounterMoveStep (libPath dest : Path) (fs : FS) (file : String) :
    Except String FS :=
  let filePath := libPath ++ [file]
  if !(pathExistsFS fs filePath) then .ok fs
  else if file = "Counter.svelte" then moveFileFS fs filePath (dest ++ [file])
  else .ok fs

/-- `updateSvelteAppImports` (src/unnamed/part_001 lines 473-503) as a
filesystem step. -/
def updateSvelteAppImportsFS (srcPath : Path) (counterRelativePath : String)
    (fs : FS) : FS :=
  match fileAt fs (srcPath ++ ["App.svelte"]) with
  | some content =>
      writeFileFS fs (srcPath ++ ["App.svelte"])
        (rewriteSvelteAppImports counterRelativePath content)
  | none => fs

/-- `updateSvelteCssImport` (src/unnamed/part_001 lines 506-528) as a
filesystem step. -/
def updateSvelteCssImportFS (srcPath : Path) (architecture : String)
    (fs : FS) : FS :=
  match fileAt fs (srcPath ++ ["main.ts"]) with
  | some content =>
      writeFileFS fs (srcPath ++ ["main.ts"]) (rewriteSvelteCss architecture content)
  | none => fs

/-- One iteration of the Svelte root CSS loop (src/unnamed/part_001
lines 389-403): skip `assets`, `lib`, `features` and missing entries;
move `app.css` to `lib/shared/styles` and rewrite the main.ts import. -/
def svelteCssMoveStep (srcPath libPath : Path) (architecture : String)
    (fs : FS) (file : String) : Except String FS :=
  let filePath := srcPath ++ [file]
  if !(pathExistsFS fs filePath) || file = "assets" || file = "lib" ||
      file = "features" then .ok fs
  else if file = "app.css" then do
    let fs ← moveFileFS fs filePath (libPath ++ ["shared", "styles", file])
    .ok (updateSvelteCssImportFS srcPath architecture fs)
  else .ok fs

/-- `reorganizeSvelteProject` (src/unnamed/part_001 lines 332-404). -/
def reorganizeSvelteProjectFS (srcPath : Path) (architecture : String)
    (fs : FS) : Except String FS := do
  let libPath := srcPath ++ ["lib"]
  let libFiles := childNames fs libPath
  let fs ←
    if architecture = "feature-based" then do
      let fs := createDirsFS fs
        [srcPath ++ ["features", "example", "components"],
         srcPath ++ ["features", "example", "stores"],
         srcPath ++ ["features", "example", "utils"],
         libPath ++ ["shared", "components"], libPath ++ ["shared", "stores"],
         libPath ++ ["shared", "utils"], libPath ++ ["shared", "styles"]]
      let fs ← libFiles.foldlM
        (svelteCounterMoveStep libPath (libPath ++ ["shared", "components"])) fs
      .ok (updateSvelteAppImportsFS srcPath "lib/shared/components" fs)
    else do
      let fs := createDirsFS fs
        [libPath ++ ["components", "common"], libPath ++ ["components", "layout"],
         libPath ++ ["stores"], libPath ++ ["utils"], libPath ++ ["styles"]]
      let fs ← libFiles.foldlM
        (svelteCounterMoveStep libPath (libPath ++ ["components", "common"])) fs
      .ok (updateSvelteAppImportsFS srcPath "lib/components/common" fs)
  let srcFiles := childNames fs srcPath
  srcFiles.foldlM (svelteCssMoveStep srcPath libPath architecture) fs

/-- `reorganizeViteProject` (src/unnamed/part_001 lines 193-211). -/
def reorganizeViteProjectFS (projectPath : Path) (architecture framework : String)
    (fs : FS) : Except String FS :=
  let srcPath := projectPath ++ ["src"]
  if framework = "svelte" then reorganizeSvelteProjectFS srcPath architecture fs
  else reorganizeReactProjectFS srcPath architecture fs

/-- `configureSvelteAliases` (src/unnamed/part_001 lines 214-265) as a
filesystem step on the two config files of the project. -/
def configureSvelteAliasesFS (projectPath : Path) (fs : FS) : FS :=
  let vitePath := projectPath ++ ["vite.config.ts"]
  let fs₁ :=
    match fileAt fs vitePath with
    | some c => writeFileFS fs vitePath (configureViteConfig c)
    | none => fs
  let tsPath := projectPath ++ ["tsconfig.app.json"]
  match fileAt fs₁ tsPath with
  | some c => writeFileFS fs₁ tsPath (configureTsconfigApp c)
  | none => fs₁

/-! ## External Generator Adapter and createProjectStructure
(src/unnamed/part_001 lines 50-190) -/

/-- The project path the generator branches return
(src/unnamed/part_001 lines 67-71): the parent of the requested path,
joined with the normalized name. -/
def cliProjectPath (cfg : ProjectConfig) : Path :=
  joinPath (dirname cfg.projectPath) (normalizeProjectName cfg.framework cfg.projectName)

/-- The return value of `createProjectWithCLI` (src/unnamed/part_001
lines 62-152): for a registered framework, the generator branch returns
`actualProjectPath` on success and the `catch` returns `null` when the
spawned generator threw; the `default` branch returns `null`. -/
def createProjectWithCLIResult (cfg : ProjectConfig) (generatorSucceeded : Bool) :
    Option Path :=
  if FRAMEWORK_CLIS.contains cfg.framework then
    if generatorSucceeded then some (cliProjectPath cfg) else none
  else none

/-- `createProjectWithCLI` with its filesystem effect: the spawned
generator is an oracle that transforms the filesystem and reports
whether it threw.  The `catch` branch (src/unnamed/part_001 lines
148-151) logs and returns `null` without undoing the oracle's writes;
the `default` branch spawns nothing. -/
def createProjectWithCLIFS (cfg : ProjectConfig)
    (generatorEffect : FS → FS × Bool) (fs : FS) : FS × Option Path :=
  if FRAMEWORK_CLIS.contains cfg.framework then
    let (fs', threw) := generatorEffect fs
    if threw then (fs', none) else (fs', some (cliProjectPath cfg))
  else (fs, none)

/-- The skeleton directory list `createProjectStructure` creates for a
configuration when no generator applies, relative to the project path. -/
def structureDirsFor (cfg : ProjectConfig) : List Path :=
  match cfg.projectType with
  | .backend => backendStructureDirs cfg.language cfg.framework cfg.architecture
  | .frontend => frontendStructureDirs cfg.architecture
  | .fullstack => fullstackStructureDirs

/-- `createProjectStructure` (src/unnamed/part_001 lines 154-190): try
the framework CLI; on success reorganize (react/svelte) and configure
aliases (svelte) and return the CLI's path; otherwise create the base
directory and the from-scratch skeleton at the requested path. -/
def createProjectStructureFS (cfg : ProjectConfig)
    (generatorEffect : FS → FS × Bool) (fs : FS) : Except String (FS × Path) :=
  let r := createProjectWithCLIFS cfg generatorEffect fs
  match r.2 with
  | some actualPath => do
      let fs₂ ←
        if cfg.framework = "react" ∨ cfg.framework = "svelte" then
          reorganizeViteProjectFS actualPath cfg.architecture cfg.framework r.1
        else .ok r.1
      let fs₃ :=
        if cfg.framework = "svelte" then configureSvelteAliasesFS actualPath fs₂
        else fs₂
      .ok (fs₃, actualPath)
  | none =>
      let fs₂ := createDirectoryFS r.1 cfg.projectPath
      let fs₃ := createDirsFS fs₂
        ((structureDirsFor cfg).map (fun d => cfg.projectPath ++ d))
      .ok (fs₃, cfg.projectPath)

/-! ## Initialization Writer (src/unnamed/part_001 lines 742-1181)

The writer's file contents are language/framework-keyed template
literals; the embedding records which template is written where, as a
content tag carrying the interpolated values. -/

/-- A tag for each starter-file template the Initialization Writer can
write. -/
inductive InitContent where
  | pyproject (name framework : String)
  | pythonMain (framework : String)
  | pythonVersionFile
  | djangoGitignore
  | djangoRequirements
  | djangoReadme (name : String)
  | packageJsonManifest (name : String) (language : Language) (framework : String)
  | tsconfigJson
  | nodeIndexFile (language : Language) (framework : String)
  | goMainFile (moduleName framework : String)
deriving DecidableEq, Repr

/-- An effect of the Initialization Writer. -/
inductive InitAction where
  | write (path : Path) (content : InitContent)
  | mkdir (path : Path)
  | goModInit (moduleName : String) (cwd : Path)
deriving DecidableEq, Repr

/-- `path.basename` with a default for the empty path. -/
def baseNameD (p : Path) : String :=
  (basename p).getD ""

/-- `initializePythonProject` (src/unnamed/part_001 lines 759-805) and
`initializeDjangoProject` (lines 807-947), as the list of writes. -/
def initializePythonActions (projectPath : Path) (framework : String) :
    List InitAction :=
  if framework = "django" then
    [.write (projectPath ++ [".python-version"]) .pythonVersionFile,
     .write (projectPath ++ [".gitignore"]) .djangoGitignore,
     .write (projectPath ++ ["requirements.txt"]) .djangoRequirements,
     .write (projectPath ++ ["README.md"]) (.djangoReadme (baseNameD projectPath))]
  else
    [.write (projectPath ++ ["pyproject.toml"])
       (.pyproject (baseNameD projectPath) framework),
     .write (projectPath ++ ["main.py"]) (.pythonMain framework),
     .write (projectPath ++ [".python-version"]) .pythonVersionFile]

/-- `initializeNodeProject` (src/unnamed/part_001 lines 949-1064). -/
def initializeNodeActions (projectPath : Path) (language : Language)
    (framework : String) : List InitAction :=
  [InitAction.write (projectPath ++ ["package.json"])
     (.packageJsonManifest (baseNameD projectPath) language framework)] ++
  (if language = Language.typescript then
     [InitAction.write (projectPath ++ ["tsconfig.json"]) .tsconfigJson]
   else []) ++
  [InitAction.mkdir (projectPath ++ ["src"]),
   InitAction.write
     (projectPath ++ ["src",
        if language = Language.typescript then "index.ts" else "index.js"])
     (.nodeIndexFile language framework)]

/-- `initializeGoProject` (src/unnamed/part_001 lines 1066-1181). -/
def initializeGoActions (projectPath : Path) (framework : String) :
    List InitAction :=
  [.goModInit (baseNameD projectPath) projectPath,
   .write (projectPath ++ ["cmd", "api", "main.go"])
     (.goMainFile (baseNameD projectPath) framework)]

/-- `initializeProject` (src/unnamed/part_001 lines 742-757): skipped
entirely when the framework is in the CLI registry, otherwise dispatch
on the language. -/
def initializeProject (cfg : ProjectConfig) : List InitAction :=
  if FRAMEWORK_CLIS.contains cfg.framework then []
  else
    match cfg.language with
    | .python => initializePythonActions cfg.projectPath cfg.framework
    | .typescript => initializeNodeActions cfg.projectPath cfg.language cfg.framework
    | .javascript => initializeNodeActions cfg.projectPath cfg.language cfg.framework
    | .go => initializeGoActions cfg.projectPath cfg.framework

/-! ## The main flow after project creation (src/bin/index.ts lines
219-333) -/

/-- The paths and names each post-creation step of the main action uses. -/
structure FlowSteps where
  initializeConfig : ProjectConfig
  dependencyInstallCwd : Path
  skillsInstallPath : Path
  mcpConfigPath : Path
  pythonSetupCwd : Path
  nextStepsCd : String
deriving Repr

/-- The main action after `createProjectStructure` returned
(src/bin/index.ts lines 221-333): `finalProjectPath` is the returned
path when non-null, else the requested `projectPath` built from the
working directory and the entered name; every subsequent step receives
`finalProjectPath` or its basename `finalProjectName`. -/
def mainFlowSteps (cwd : Path) (projectName : String) (projectType : Project)
    (language : Language) (framework architecture : String)
    (structureResult : Option Path) : FlowSteps :=
  let projectPath := joinPath cwd projectName
  let finalProjectPath := structureResult.getD projectPath
  let finalProjectName := baseNameD finalProjectPath
  { initializeConfig :=
      { projectName := finalProjectName, projectType := projectType,
        language := language, framework := framework,
        architecture := architecture, projectPath := finalProjectPath },
    dependencyInstallCwd := finalProjectPath,
    skillsInstallPath := finalProjectPath,
    mcpConfigPath := finalProjectPath,
    pythonSetupCwd := finalProjectPath,
    nextStepsCd := finalProjectName }


/-- The claim's reading of the normalization rule: lower-case the name
and replace every character outside `[a-z0-9-]` with a hyphen. -/
def specNormalize (s : String) : String :=
  ⟨s.data.map (fun c => if isKebabChar c.toLower then c.toLower else '-')⟩

/-! # Theorems -/

theorem basename_joinPath (p : Path) (n : String) :
    basename (joinPath p n) = some n := by
  simp [basename, joinPath]

theorem dirname_joinPath (p : Path) (n : String) :
    dirname (joinPath p n) = p := by
  simp [dirname, joinPath]

theorem dedupFrom_congr (seen₁ seen₂ : List String)
    (h : ∀ x, x ∈ seen₁ ↔ x ∈ seen₂) :
    ∀ l, dedupFrom seen₁ l = dedupFrom seen₂ l := by
  intro l
  induction l generalizing seen₁ seen₂ with
  | nil => rfl
  | cons s rest ih =>
      by_cases hc : s.path ∈ seen₂
      · rw [dedupFrom, if_pos ((h _).2 hc), dedupFrom, if_pos hc, ih _ _ h]
      · rw [dedupFrom, if_neg (fun hx => hc ((h _).1 hx)), dedupFrom, if_neg hc]
        congr 1
        refine ih _ _ (fun x => ?_)
        simp only [List.mem_cons]
        exact or_congr Iff.rfl (h x)

theorem any_path_eq (acc : List Skill) (p : String) :
    (acc.any fun t => t.path = p) = true ↔ p ∈ acc.map Skill.path := by
  simp only [List.any_eq_true, decide_eq_true_eq, List.mem_map]

theorem foldl_dedupStep_eq (l : List Skill) :
    ∀ acc : List Skill,
      l.foldl dedupStep acc = acc ++ dedupFrom (acc.map Skill.path) l := by
  induction l with
  | nil => intro acc; simp [dedupFrom]
  | cons s rest ih =>
      intro acc
      by_cases hc : s.path ∈ acc.map Skill.path
      · have hstep : dedupStep acc s = acc := by
          rw [dedupStep, if_pos ((any_path_eq acc s.path).2 hc)]
        rw [List.foldl_cons, hstep, ih acc, dedupFrom, if_pos hc]
      · have hstep : dedupStep acc s = acc ++ [s] := by
          rw [dedupStep, if_neg (fun hx => hc ((any_path_eq acc s.path).1 hx))]
        rw [List.foldl_cons, hstep, ih (acc ++ [s]), dedupFrom, if_neg hc,
          List.append_assoc, List.singleton_append]
        congr 2
        refine dedupFrom_congr _ _ (fun x => ?_) rest
        simp [or_comm]

theorem dedupFrom_eq_dedupByPath (l : List Skill) (seen : List String) :
    dedupFrom seen l = dedupByPath (l.filter (fun s => s.path ∉ seen)) := by
  suffices h : ∀ n (l : List Skill), l.length ≤ n → ∀ seen : List String,
      dedupFrom seen l = dedupByPath (l.filter (fun s => s.path ∉ seen)) from
    h l.length l le_rfl seen
  intro n
  induction n with
  | zero =>
      intro l hl seen
      have hnil : l = [] := by
        cases l with
        | nil => rfl
        | cons a t => simp at hl
      subst hnil
      simp [dedupFrom, dedupByPath]
  | succ n ih =>
      intro l hl seen
      match l with
      | [] => simp [dedupFrom, dedupByPath]
      | s :: rest =>
          have hrest : rest.length ≤ n := Nat.succ_le_succ_iff.1 hl
          by_cases hc : s.path ∈ seen
          · rw [dedupFrom, if_pos hc, List.filter_cons, if_neg (by simp [hc])]
            exact ih rest hrest seen
          · rw [dedupFrom, if_neg hc, List.filter_cons, if_pos (by simp [hc]),
              dedupByPath]
            congr 1
            rw [ih rest hrest (s.path :: seen), List.filter_filter]
            have harg : (fun t : Skill => decide (t.path ∉ s.path :: seen)) =
                (fun t : Skill => decide (t.path ≠ s.path) && decide (t.path ∉ seen)) := by
              funext t
              by_cases ht : t.path = s.path <;> by_cases hts : t.path ∈ seen <;>
                simp [ht, hts]
            rw [harg]

/-- `combineSkills` equals the claim's reference deduplication of the
plain concatenation. -/
theorem combineSkills_eq_dedupByPath (d f a : List Skill) :
    combineSkills d f a = dedupByPath (d ++ f ++ a) := by
  rw [combineSkills, foldl_dedupStep_eq]
  simp only [List.map_nil, List.nil_append]
  rw [dedupFrom_eq_dedupByPath]
  simp

theorem dedupByPath_sublist (l : List Skill) : (dedupByPath l).Sublist l := by
  suffices h : ∀ n (l : List Skill), l.length ≤ n → (dedupByPath l).Sublist l from
    h l.length l le_rfl
  intro n
  induction n with
  | zero =>
      intro l hl
      have hnil : l = [] := by
        cases l with
        | nil => rfl
        | cons a t => simp at hl
      subst hnil
      simp [dedupByPath]
  | succ n ih =>
      intro l hl
      match l with
      | [] => simp [dedupByPath]
      | s :: rest =>
          have hrest : rest.length ≤ n := Nat.succ_le_succ_iff.1 hl
          rw [dedupByPath]
          refine List.Sublist.cons₂ s ?_
          exact (ih _ (le_trans (rest.length_filter_le _) hrest)).trans
            rest.filter_sublist

theorem dedupByPath_pairwise (l : List Skill) :
    (dedupByPath l).Pairwise (fun s t => s.path ≠ t.path) := by
  suffices h : ∀ n (l : List Skill), l.length ≤ n →
      (dedupByPath l).Pairwise (fun s t => s.path ≠ t.path) from
    h l.length l le_rfl
  intro n
  induction n with
  | zero =>
      intro l hl
      have hnil : l = [] := by
        cases l with
        | nil => rfl
        | cons a t => simp at hl
      subst hnil
      simp [dedupByPath]
  | succ n ih =>
      intro l hl
      match l with
      | [] => simp [dedupByPath]
      | s :: rest =>
          have hrest : rest.length ≤ n := Nat.succ_le_succ_iff.1 hl
          rw [dedupByPath]
          refine List.Pairwise.cons ?_
            (ih _ (le_trans (rest.length_filter_le _) hrest))
          intro t ht
          have hmem : t ∈ rest.filter (fun t => t.path ≠ s.path) :=
            (dedupByPath_sublist _).mem ht
          have hne := List.of_mem_filter hmem
          simp only [decide_eq_true_eq] at hne
          exact fun hst => hne hst.symm

theorem dedupByPath_of_pairwise (l : List Skill)
    (hp : l.Pairwise (fun s t => s.path ≠ t.path)) :
    dedupByPath l = l := by
  induction l with
  | nil => simp [dedupByPath]
  | cons s rest ih =>
      rw [List.pairwise_cons] at hp
      rw [dedupByPath]
      have hfilter : rest.filter (fun t => t.path ≠ s.path) = rest := by
        refine List.filter_eq_self.2 (fun t ht => ?_)
        simpa using (hp.1 t ht).symm
      rw [hfilter, ih hp.2]

/-- C10: `combineSkills` deduplicates by path with first-occurrence-wins
semantics: it equals the concatenation
`defaultSkills ++ frameworkSkills ++ additionalSkills` with every skill
whose path equals that of an earlier skill removed; consequently the
result's paths are pairwise distinct, the result is a sublist of the
concatenation (so every element occurs in the inputs and relative order
is preserved), and `combineSkills` applied to its own output with empty
other lists returns it unchanged. -/
theorem claim_C10_combineSkills (d f a : List Skill) :
    combineSkills d f a = dedupByPath (d ++ f ++ a) ∧
    (combineSkills d f a).Pairwise (fun s t => s.path ≠ t.path) ∧
    (combineSkills d f a).Sublist (d ++ f ++ a) ∧
    combineSkills (combineSkills d f a) [] [] = combineSkills d f a := by
  have h := combineSkills_eq_dedupByPath d f a
  refine ⟨h, ?_, ?_, ?_⟩
  · rw [h]
    exact dedupByPath_pairwise _
  · rw [h]
    exact dedupByPath_sublist _
  · rw [combineSkills_eq_dedupByPath, List.append_nil, List.append_nil, h]
    exact dedupByPath_of_pairwise _ (dedupByPath_pairwise _)

/-- C9: the process exit code is 0 on successful completion and on user
cancellation (the distinguished `User force closed the prompt` error),
and 1 on every other error caught during the creation flow, and 1 for
uncaught exceptions. -/
theorem claim_C9_exit_codes :
    mainExitCode FlowOutcome.success = 0 ∧
    mainExitCode (FlowOutcome.errored cancelMessage) = 0 ∧
    (∀ m : String, m ≠ cancelMessage → mainExitCode (FlowOutcome.errored m) = 1) ∧
    (∀ m : String, uncaughtExceptionExitCode m = 1) := by
  refine ⟨rfl, by simp [mainExitCode], fun m hm => ?_, fun m => rfl⟩
  simp [mainExitCode, hm]

theorem claim_C9_exit_codes_witness :
    mainExitCode (FlowOutcome.errored "ENOENT") = 1 :=
  claim_C9_exit_codes.2.2.1 "ENOENT" (by decide)

/-- C2 counterexample: for (frontend, component-based) the Skeleton
Builder also creates a `public` directory at the project root, which the
§4.1 table row does not list, so the created set is not exactly the
listed set. -/
theorem claim_C2_counterexample :
    ["public"] ∈ frontendStructureDirs "component-based" ∧
    ["public"] ∉ specFrontendDirs "component-based" ∧
    ["tests"] ∈ backendStructureDirs Language.typescript "express" "hexagonal" ∧
    ["tests"] ∉ specBackendDirs Language.typescript "hexagonal" := by
  decide

/-- C2 (amended): for every (kind, language, architecture) combination
accepted by the prompt layer, the Skeleton Builder creates exactly the
directory set of the §4.1 table row, plus a `tests` directory at the
project root for the backend architectures other than mvc (where the
table already lists it) and a `public` directory at the project root for
the frontend architectures. -/
theorem claim_C2_skeleton_dirs :
    (∀ lang ∈ [Language.typescript, Language.javascript, Language.python],
      ∀ arch ∈ backendArchitectures, ∀ fw : String, fw ≠ "django" →
        (backendStructureDirs lang fw arch).toFinset =
          (specBackendDirs lang arch).toFinset ∪
            (if arch = "mvc" then ∅ else {(["tests"] : Path)})) ∧
    (∀ arch ∈ frontendArchitectures,
      (frontendStructureDirs arch).toFinset =
        (specFrontendDirs arch).toFinset ∪ {(["public"] : Path)}) := by
  constructor
  · intro lang hlang arch harch fw hfw
    fin_cases hlang <;> fin_cases harch <;>
      (simp only [backendStructureDirs, hfw, if_false]) <;> decide
  · intro arch harch
    fin_cases harch <;> decide

theorem claim_C2_skeleton_dirs_witness :
    (backendStructureDirs Language.typescript "express" "mvc").toFinset =
      (specBackendDirs Language.typescript "mvc").toFinset ∪
        (if "mvc" = "mvc" then ∅ else {(["tests"] : Path)}) :=
  claim_C2_skeleton_dirs.1 Language.typescript (by decide) "mvc" (by decide)
    "express" (by decide)

/-- C8 counterexample: the go builders also create a `pkg` directory at
the project root, which is rooted at neither `cmd` nor `internal`, so
the go table is not rooted only at `cmd/api` and `internal/...`. -/
theorem claim_C8_counterexample :
    ["pkg"] ∈ goStructureDirs "layered" ∧
    (["pkg"] : Path).head? ≠ some "cmd" ∧
    (["pkg"] : Path).head? ≠ some "internal" := by
  decide

/-- C8 (amended): for python every skeleton directory of every backend
architecture sits directly under the project root (never under `src`);
for typescript/javascript every directory other than `tests` sits under
`src`; for go the builder dispatches to a distinct table rooted at
`cmd/api`, `internal/...` and `pkg` — never under `src` — with
Go-specific folder names (`handler`, `usecase`, `repository`). -/
theorem claim_C8_source_roots :
    (∀ arch ∈ backendArchitectures, ∀ fw : String, fw ≠ "django" →
      (∀ d ∈ backendStructureDirs Language.python fw arch,
        d.head? ≠ some "src") ∧
      (∀ d ∈ backendStructureDirs Language.typescript fw arch,
        d = ["tests"] ∨ d.head? = some "src") ∧
      (∀ d ∈ backendStructureDirs Language.javascript fw arch,
        d = ["tests"] ∨ d.head? = some "src") ∧
      backendStructureDirs Language.go fw arch = goStructureDirs arch) ∧
    (∀ arch ∈ backendArchitectures,
      (∀ d ∈ goStructureDirs arch,
        d.head? ≠ some "src" ∧
          (d.head? = some "cmd" ∨ d.head? = some "internal" ∨
            d.head? = some "pkg")) ∧
      ["cmd", "api"] ∈ goStructureDirs arch) ∧
    ["internal", "delivery", "http", "handler"] ∈ goStructureDirs "layered" ∧
    ["internal", "usecase"] ∈ goStructureDirs "hexagonal" ∧
    ["internal", "domain", "repository"] ∈ goStructureDirs "hexagonal" := by
  refine ⟨?_, ?_, by decide, by decide, by decide⟩
  · intro arch harch fw hfw
    fin_cases harch <;>
      (simp only [backendStructureDirs, hfw, if_false]) <;> decide
  · intro arch harch
    fin_cases harch <;> decide

theorem claim_C8_source_roots_witness :
    ∀ d ∈ backendStructureDirs Language.python "flask" "mvc",
      d.head? ≠ some "src" :=
  (claim_C8_source_roots.1 "mvc" (by decide) "flask" (by decide)).1

/-- C7 counterexample: django is not in the CLI registry, yet the
Initialization Writer writes neither a `pyproject.toml` (or
`package.json`) manifest nor a greeting entry file for it — it writes
`.python-version`, `.gitignore`, `requirements.txt` and `README.md`
instead, so the claim's description of the non-skipped branch fails. -/
theorem claim_C7_counterexample :
    let acts := initializeProject
      { projectName := "blog", projectType := Project.backend,
        language := Language.python, framework := "django",
        architecture := "layered", projectPath := ["home", "blog"] }
    acts =
      [InitAction.write ["home", "blog", ".python-version"]
         InitContent.pythonVersionFile,
       InitAction.write ["home", "blog", ".gitignore"] InitContent.djangoGitignore,
       InitAction.write ["home", "blog", "requirements.txt"]
         InitContent.djangoRequirements,
       InitAction.write ["home", "blog", "README.md"]
         (InitContent.djangoReadme "blog")] ∧
    acts.all
      (fun a =>
        match a with
        | InitAction.write p _ =>
            decide (p ≠ ["home", "blog", "pyproject.toml"] ∧
              p ≠ ["home", "blog", "package.json"] ∧
              p ≠ ["home", "blog", "main.py"])
        | _ => true) = true := by
  decide

/-- C7 (amended): the Initialization Writer performs no action at all
exactly when the framework is in the external-generator registry;
otherwise it performs the language-specific starter writes — manifest,
tsconfig for typescript, greeting entry file, `go mod init` for go —
except that for django it writes `.python-version`, `.gitignore`,
`requirements.txt` and a setup README instead of a manifest and entry
file. -/
theorem claim_C7_init_writer (cfg : ProjectConfig) :
    (cfg.framework ∈ FRAMEWORK_CLIS → initializeProject cfg = []) ∧
    (cfg.framework ∉ FRAMEWORK_CLIS →
      initializeProject cfg ≠ [] ∧
      (cfg.language = Language.typescript → initializeProject cfg =
        [InitAction.write (cfg.projectPath ++ ["package.json"])
           (InitContent.packageJsonManifest (baseNameD cfg.projectPath)
             Language.typescript cfg.framework),
         InitAction.write (cfg.projectPath ++ ["tsconfig.json"])
           InitContent.tsconfigJson,
         InitAction.mkdir (cfg.projectPath ++ ["src"]),
         InitAction.write (cfg.projectPath ++ ["src", "index.ts"])
           (InitContent.nodeIndexFile Language.typescript cfg.framework)]) ∧
      (cfg.language = Language.javascript → initializeProject cfg =
        [InitAction.write (cfg.projectPath ++ ["package.json"])
           (InitContent.packageJsonManifest (baseNameD cfg.projectPath)
             Language.javascript cfg.framework),
         InitAction.mkdir (cfg.projectPath ++ ["src"]),
         InitAction.write (cfg.projectPath ++ ["src", "index.js"])
           (InitContent.nodeIndexFile Language.javascript cfg.framework)]) ∧
      (cfg.language = Language.python → cfg.framework ≠ "django" →
        initializeProject cfg =
        [InitAction.write (cfg.projectPath ++ ["pyproject.toml"])
           (InitContent.pyproject (baseNameD cfg.projectPath) cfg.framework),
         InitAction.write (cfg.projectPath ++ ["main.py"])
           (InitContent.pythonMain cfg.framework),
         InitAction.write (cfg.projectPath ++ [".python-version"])
           InitContent.pythonVersionFile]) ∧
      (cfg.language = Language.python → cfg.framework = "django" →
        initializeProject cfg =
        [InitAction.write (cfg.projectPath ++ [".python-version"])
           InitContent.pythonVersionFile,
         InitAction.write (cfg.projectPath ++ [".gitignore"])
           InitContent.djangoGitignore,
         InitAction.write (cfg.projectPath ++ ["requirements.txt"])
           InitContent.djangoRequirements,
         InitAction.write (cfg.projectPath ++ ["README.md"])
           (InitContent.djangoReadme (baseNameD cfg.projectPath))]) ∧
      (cfg.language = Language.go → initializeProject cfg =
        [InitAction.goModInit (baseNameD cfg.projectPath) cfg.projectPath,
         InitAction.write (cfg.projectPath ++ ["cmd", "api", "main.go"])
           (InitContent.goMainFile (baseNameD cfg.projectPath) cfg.framework)])) := by
  constructor
  · intro hmem
    have hc : FRAMEWORK_CLIS.contains cfg.framework = true := by simpa using hmem
    rw [initializeProject, if_pos hc]
  · intro hmem
    rw [initializeProject, if_neg (by simpa using hmem)]
    refine ⟨?_, ?_, ?_, ?_, ?_, ?_⟩
    · cases hl : cfg.language <;>
        simp [initializeNodeActions, initializePythonActions,
          initializeGoActions]
      by_cases hdj : cfg.framework = "django" <;> simp [hdj]
    · intro hl
      rw [hl]
      simp [initializeNodeActions]
    · intro hl
      rw [hl]
      simp [initializeNodeActions]
    · intro hl hdj
      rw [hl]
      simp [initializePythonActions, hdj]
    · intro hl hdj
      rw [hl]
      simp [initializePythonActions, hdj]
    · intro hl
      rw [hl]
      simp [initializeGoActions]

/-- C1: for nestjs and angular, `normalizeProjectName` lower-cases the
name and replaces every character outside `[a-z0-9-]` with a hyphen
(`"My Project"` gives `"my-project"`, `"My_App"` gives `"my-app"`); it
is the identity for every other framework; when the generator path is
taken the returned actual path is the parent of the requested path
joined with the normalized name, and every subsequent step of the main
flow — initialization, dependency install, skill install, MCP config,
python setup, next-step messages — uses the returned path and its
basename, never the original target path or the entered name. -/
theorem claim_C1_normalization_propagation :
    (∀ s, normalizeProjectName "nestjs" s = specNormalize s) ∧
    (∀ s, normalizeProjectName "angular" s = specNormalize s) ∧
    normalizeProjectName "nestjs" "My Project" = "my-project" ∧
    normalizeProjectName "angular" "My_App" = "my-app" ∧
    (∀ fw s, fw ≠ "nestjs" → fw ≠ "angular" → normalizeProjectName fw s = s) ∧
    (∀ cfg : ProjectConfig, cfg.framework ∈ FRAMEWORK_CLIS →
      createProjectWithCLIResult cfg true =
        some (joinPath (dirname cfg.projectPath)
          (normalizeProjectName cfg.framework cfg.projectName))) ∧
    (∀ cfg : ProjectConfig,
      basename (cliProjectPath cfg) =
        some (normalizeProjectName cfg.framework cfg.projectName)) ∧
    (∀ cwd projectName projectType language framework architecture p,
      (mainFlowSteps cwd projectName projectType language framework
        architecture (some p)).initializeConfig.projectPath = p ∧
      (mainFlowSteps cwd projectName projectType language framework
        architecture (some p)).initializeConfig.projectName = baseNameD p ∧
      (mainFlowSteps cwd projectName projectType language framework
        architecture (some p)).dependencyInstallCwd = p ∧
      (mainFlowSteps cwd projectName projectType language framework
        architecture (some p)).skillsInstallPath = p ∧
      (mainFlowSteps cwd projectName projectType language framework
        architecture (some p)).mcpConfigPath = p ∧
      (mainFlowSteps cwd projectName projectType language framework
        architecture (some p)).pythonSetupCwd = p ∧
      (mainFlowSteps cwd projectName projectType language framework
        architecture (some p)).nextStepsCd = baseNameD p) ∧
    (∀ (cwd : Path) (name : String) projectType language (fw arch : String) p,
      normalizeProjectName fw name ≠ name →
      createProjectWithCLIResult
          { projectName := name, projectType := projectType,
            language := language, framework := fw, architecture := arch,
            projectPath := joinPath cwd name } true = some p →
      (mainFlowSteps cwd name projectType language fw arch
          (some p)).skillsInstallPath ≠ joinPath cwd name ∧
      (mainFlowSteps cwd name projectType language fw arch
          (some p)).nextStepsCd ≠ name) := by
  refine ⟨?_, ?_, by decide, by decide, ?_, ?_, ?_, ?_, ?_⟩
  · intro s
    show String.mk _ = String.mk _
    rw [List.map_map]
    rfl
  · intro s
    show String.mk _ = String.mk _
    rw [List.map_map]
    rfl
  · intro fw s h1 h2
    rw [normalizeProjectName.eq_def]
    split
    · exact absurd rfl h1
    · exact absurd rfl h2
    · rfl
  · intro cfg h
    rw [createProjectWithCLIResult, if_pos (by simpa using h)]
    rfl
  · intro cfg
    exact basename_joinPath _ _
  · intro cwd projectName projectType language framework architecture p
    exact ⟨rfl, rfl, rfl, rfl, rfl, rfl, rfl⟩
  · intro cwd name projectType language fw arch p hnorm hres
    by_cases hmem : fw ∈ FRAMEWORK_CLIS
    · rw [createProjectWithCLIResult, if_pos (by simpa using hmem)] at hres
      have hp : p = joinPath cwd (normalizeProjectName fw name) := by
        have := Option.some.inj hres
        rw [← this, cliProjectPath]
        simp [dirname_joinPath, joinPath, dirname]
      subst hp
      constructor
      · show joinPath cwd (normalizeProjectName fw name) ≠ joinPath cwd name
        intro heq
        exact hnorm (by simpa [joinPath] using heq)
      · show baseNameD (joinPath cwd (normalizeProjectName fw name)) ≠ name
        have : baseNameD (joinPath cwd (normalizeProjectName fw name)) =
            normalizeProjectName fw name := by
          simp [baseNameD, basename, joinPath]
        rw [this]
        exact hnorm
    · rw [createProjectWithCLIResult, if_neg (by simpa using hmem)] at hres
      exact absurd hres (by simp)

theorem claim_C1_normalization_propagation_witness :
    normalizeProjectName "vue" "My_App" = "My_App" ∧
    createProjectWithCLIResult
        { projectName := "My_App", projectType := Project.backend,
          language := Language.typescript, framework := "nestjs",
          architecture := "layered", projectPath := ["home", "My_App"] } true =
      some ["home", "my-app"] ∧
    (mainFlowSteps ["home"] "My_App" Project.backend Language.typescript
        "nestjs" "layered" (some ["home", "my-app"])).skillsInstallPath ≠
      ["home", "My_App"] ∧
    (mainFlowSteps ["home"] "My_App" Project.backend Language.typescript
        "nestjs" "layered" (some ["home", "my-app"])).nextStepsCd ≠ "My_App" := by
  refine ⟨claim_C1_normalization_propagation.2.2.2.2.1 "vue" "My_App"
      (by decide) (by decide), ?_, ?_, ?_⟩
  · have h := claim_C1_normalization_propagation.2.2.2.2.2.1
      { projectName := "My_App", projectType := Project.backend,
        language := Language.typescript, framework := "nestjs",
        architecture := "layered", projectPath := ["home", "My_App"] }
      (by decide)
    rw [h]
    decide
  · exact (claim_C1_normalization_propagation.2.2.2.2.2.2.2.2 ["home"] "My_App"
      Project.backend Language.typescript "nestjs" "layered" ["home", "my-app"]
      (by decide) (by decide)).1
  · exact (claim_C1_normalization_propagation.2.2.2.2.2.2.2.2 ["home"] "My_App"
      Project.backend Language.typescript "nestjs" "layered" ["home", "my-app"]
      (by decide) (by decide)).2

theorem claim_C7_init_writer_witness :
    initializeProject
      { projectName := "app", projectType := Project.frontend,
        language := Language.typescript, framework := "react",
        architecture := "component-based", projectPath := ["home", "app"] } = [] ∧
    initializeProject
      { projectName := "api", projectType := Project.backend,
        language := Language.typescript, framework := "express",
        architecture := "layered", projectPath := ["home", "api"] } ≠ [] :=
  ⟨(claim_C7_init_writer _).1 (by decide),
   ((claim_C7_init_writer _).2 (by decide)).1⟩

/-! ## Segment-occurrence lemmas -/

theorem occursIn_middle (u s v : List Char) : OccursIn s (u ++ s ++ v) :=
  ⟨u, v, rfl⟩

theorem OccursIn.append_left {s l : List Char} (w : List Char)
    (h : OccursIn s l) : OccursIn s (w ++ l) := by
  obtain ⟨u, v, rfl⟩ := h
  exact ⟨w ++ u, v, by simp⟩

theorem OccursIn.append_right {s l : List Char} (w : List Char)
    (h : OccursIn s l) : OccursIn s (l ++ w) := by
  obtain ⟨u, v, rfl⟩ := h
  exact ⟨u, v ++ w, by simp⟩

theorem OccursIn.cons {s l : List Char} (c : Char) (h : OccursIn s l) :
    OccursIn s (c :: l) := by
  simpa using h.append_left [c]

theorem startsWithSeg_iff {s l : List Char} :
    startsWithSeg s l = true ↔ ∃ r, l = s ++ r := by
  constructor
  · intro h
    have ht : l.take s.length = s := by simpa [startsWithSeg] using h
    have hsplit := List.take_append_drop s.length l
    rw [ht] at hsplit
    exact ⟨l.drop s.length, hsplit.symm⟩
  · rintro ⟨r, rfl⟩
    simp [startsWithSeg, List.take_left]

theorem hasSeg_iff {s l : List Char} : hasSeg s l = true ↔ OccursIn s l := by
  constructor
  · intro h
    rw [hasSeg, List.any_eq_true] at h
    obtain ⟨t, ht, hs⟩ := h
    obtain ⟨r, rfl⟩ := startsWithSeg_iff.1 hs
    obtain ⟨u, hu⟩ := (List.mem_tails _ _).1 ht
    exact ⟨u, r, by rw [← hu, List.append_assoc]⟩
  · rintro ⟨u, v, rfl⟩
    rw [hasSeg, List.any_eq_true]
    exact ⟨s ++ v, (List.mem_tails _ _).2 ⟨u, by simp⟩,
      startsWithSeg_iff.2 ⟨v, rfl⟩⟩

theorem hasSeg_eq_false_iff {s l : List Char} :
    hasSeg s l = false ↔ ¬ OccursIn s l := by
  rw [← hasSeg_iff]
  cases h : hasSeg s l <;> simp

/-! ## Matcher lemmas (C4 support) -/

theorem litP_eq_some {lit l c r : List Char} :
    litP lit l = some (c, r) ↔ c = lit ∧ l = lit ++ r := by
  rw [litP]
  by_cases h : l.take lit.length = lit
  · rw [if_pos h]
    constructor
    · intro he
      obtain ⟨hc, hr⟩ := Prod.mk.injEq .. ▸ Option.some.inj he
      refine ⟨hc.symm, ?_⟩
      rw [← h, ← hr, List.take_append_drop]
    · rintro ⟨rfl, rfl⟩
      rw [List.drop_left]
  · rw [if_neg h]
    constructor
    · intro he
      exact absurd he (by simp)
    · rintro ⟨rfl, rfl⟩
      exact absurd (List.take_left _ _) h

theorem takeWhile_append_stop {p : Char → Bool} (a : List Char) (b : Char)
    (t : List Char) (ha : ∀ x ∈ a, p x = true) (hb : p b = false) :
    (a ++ b :: t).takeWhile p = a ∧ (a ++ b :: t).dropWhile p = b :: t := by
  induction a with
  | nil =>
      simp only [List.nil_append, List.takeWhile_cons, List.dropWhile_cons, hb]
      exact ⟨rfl, rfl⟩
  | cons x xs ih =>
      have hx : p x = true := ha x (by simp)
      have ih' := ih (fun y hy => ha y (by simp [hy]))
      simp only [List.cons_append, List.takeWhile_cons, List.dropWhile_cons, hx,
        ih'.1, ih'.2]
      exact ⟨rfl, rfl⟩

theorem classP_eq_some_of {p : Char → Bool} {a : List Char} {b : Char}
    {t : List Char} (ha : ∀ x ∈ a, p x = true) (hne : a ≠ [])
    (hb : p b = false) : classP p (a ++ b :: t) = some (a, b :: t) := by
  obtain ⟨h1, h2⟩ := takeWhile_append_stop a b t ha hb
  rw [classP]
  simp only [h1, h2]
  rw [if_neg (by simpa using hne)]

theorem classP_sound {p : Char → Bool} {l c r : List Char}
    (h : classP p l = some (c, r)) :
    l = c ++ r ∧ (∀ x ∈ c, p x = true) ∧ c ≠ [] := by
  rw [classP] at h
  by_cases he : (l.takeWhile p).isEmpty
  · rw [if_pos he] at h
    exact absurd h (by simp)
  · rw [if_neg he] at h
    obtain ⟨hc, hr⟩ := Prod.mk.injEq .. ▸ Option.some.inj h
    subst hc
    subst hr
    refine ⟨(List.takeWhile_append_dropWhile ..).symm, ?_, ?_⟩
    · intro x hx
      exact List.mem_takeWhile_imp hx
    · intro hnil
      rw [hnil] at he
      exact he (by simp)

theorem quoteP_eq_some {l c r : List Char} :
    quoteP l = some (c, r) ↔
      ∃ q, (q = '\'' ∨ q = '"') ∧ c = [q] ∧ l = q :: r := by
  cases l with
  | nil => simp [quoteP]
  | cons x t =>
      simp only [quoteP]
      by_cases hx : (x = '\'' || x = '"') = true
      · rw [if_pos hx]
        constructor
        · intro he
          obtain ⟨hc, hr⟩ := Prod.mk.injEq .. ▸ Option.some.inj he
          exact ⟨x, by simpa using hx, hc.symm, by rw [hr]⟩
        · rintro ⟨q, hq, rfl, he⟩
          obtain ⟨rfl, rfl⟩ := List.cons.injEq .. ▸ he
          rfl
      · rw [if_neg hx]
        constructor
        · intro he
          exact absurd he (by simp)
        · rintro ⟨q, hq, rfl, he⟩
          obtain ⟨rfl, rfl⟩ := List.cons.injEq .. ▸ he
          exact absurd (by simpa using hq) hx

theorem seqM_eq_some {f g : Matcher} {l c r : List Char} :
    seqM f g l = some (c, r) ↔
      ∃ c₁ r₁ c₂, f l = some (c₁, r₁) ∧ g r₁ = some (c₂, r) ∧
        c = c₁ ++ c₂ := by
  rw [seqM]
  cases hf : f l with
  | none => simp
  | some v =>
      obtain ⟨c₁, r₁⟩ := v
      show (match g r₁ with
        | none => none
        | some (c₂, r₂) => some (c₁ ++ c₂, r₂)) = some (c, r) ↔ _
      cases hg : g r₁ with
      | none =>
          show (none : Option (List Char × List Char)) = some (c, r) ↔ _
          constructor
          · intro he
            exact absurd he (by simp)
          · rintro ⟨c₁', r₁', c₂', h₁, h₂, _⟩
            obtain ⟨hc₁, hr₁⟩ := Prod.mk.injEq .. ▸ Option.some.inj h₁
            subst hc₁
            subst hr₁
            rw [hg] at h₂
            exact absurd h₂ (by simp)
      | some w =>
          obtain ⟨c₂, r₂⟩ := w
          show some (c₁ ++ c₂, r₂) = some (c, r) ↔ _
          constructor
          · intro he
            obtain ⟨hc, hr⟩ := Prod.mk.injEq .. ▸ Option.some.inj he
            exact ⟨c₁, r₁, c₂, rfl, by rw [hg, hr], hc.symm⟩
          · rintro ⟨c₁', r₁', c₂', h₁, h₂, rfl⟩
            obtain ⟨hc₁, hr₁⟩ := Prod.mk.injEq .. ▸ Option.some.inj h₁
            subst hc₁
            subst hr₁
            rw [hg] at h₂
            obtain ⟨hc₂, hr₂⟩ := Prod.mk.injEq .. ▸ Option.some.inj h₂
            subst hc₂
            subst hr₂
            rfl

theorem wsStarP_eq_some {l c r : List Char} :
    wsStarP l = some (c, r) ↔
      c = l.takeWhile isWsChar ∧ r = l.dropWhile isWsChar := by
  rw [wsStarP]
  constructor
  · intro he
    obtain ⟨hc, hr⟩ := Prod.mk.injEq .. ▸ Option.some.inj he
    exact ⟨hc.symm, hr.symm⟩
  · rintro ⟨rfl, rfl⟩
    rfl

theorem matchPluginsArray_sound {l c r : List Char}
    (h : matchPluginsArray l = some (c, r)) :
    l = c ++ r ∧ ShapePlugins c := by
  rw [matchPluginsArray] at h
  obtain ⟨c₁, r₁, c₂, h₁, h₂, rfl⟩ := seqM_eq_some.1 h
  obtain ⟨rfl, rfl⟩ := litP_eq_some.1 h₁
  obtain ⟨c₃, r₃, c₄, h₃, h₄, rfl⟩ := seqM_eq_some.1 h₂
  obtain ⟨rfl, rfl⟩ := wsStarP_eq_some.1 h₃
  obtain ⟨rfl, hdrop⟩ := litP_eq_some.1 h₄
  constructor
  · have htd : List.takeWhile isWsChar r₁ ++ List.dropWhile isWsChar r₁ =
        r₁ := List.takeWhile_append_dropWhile ..
    conv_lhs => rw [← htd]
    rw [hdrop]
    simp
  · exact ⟨List.takeWhile isWsChar r₁,
      fun x hx => List.mem_takeWhile_imp hx, by simp⟩

theorem matchVitePluginImport_sound {l c r : List Char}
    (h : matchVitePluginImport l = some (c, r)) :
    l = c ++ r ∧ ShapeVite c := by
  rw [matchVitePluginImport] at h
  obtain ⟨a₁, b₁, a₂, h₁, h₂, rfl⟩ := seqM_eq_some.1 h
  obtain ⟨rfl, rfl⟩ := litP_eq_some.1 h₁
  obtain ⟨a₃, b₃, a₄, h₃, h₄, rfl⟩ := seqM_eq_some.1 h₂
  obtain ⟨hb₃, hw₁, hw₁ne⟩ := classP_sound h₃
  obtain ⟨a₅, b₅, a₆, h₅, h₆, rfl⟩ := seqM_eq_some.1 h₄
  obtain ⟨rfl, rfl⟩ := litP_eq_some.1 h₅
  obtain ⟨a₇, b₇, a₈, h₇, h₈, rfl⟩ := seqM_eq_some.1 h₆
  obtain ⟨hb₇, hinner, hinnerne⟩ := classP_sound h₇
  obtain ⟨a₉, b₉, a₁₀, h₉, h₁₀, rfl⟩ := seqM_eq_some.1 h₈
  obtain ⟨rfl, rfl⟩ := litP_eq_some.1 h₉
  obtain ⟨a₁₁, b₁₁, a₁₂, h₁₁, h₁₂, rfl⟩ := seqM_eq_some.1 h₁₀
  obtain ⟨hb₁₁, hw₂, hw₂ne⟩ := classP_sound h₁₁
  obtain ⟨a₁₃, b₁₃, a₁₄, h₁₃, h₁₄, rfl⟩ := seqM_eq_some.1 h₁₂
  obtain ⟨rfl, rfl⟩ := litP_eq_some.1 h₁₃
  obtain ⟨a₁₅, b₁₅, a₁₆, h₁₅, h₁₆, rfl⟩ := seqM_eq_some.1 h₁₄
  obtain ⟨hb₁₅, hw₃, hw₃ne⟩ := classP_sound h₁₅
  obtain ⟨a₁₇, b₁₇, a₁₈, h₁₇, h₁₈, rfl⟩ := seqM_eq_some.1 h₁₆
  obtain ⟨q₁, hq₁, rfl, hb₁₇⟩ := quoteP_eq_some.1 h₁₇
  obtain ⟨a₁₉, b₁₉, a₂₀, h₁₉, h₂₀, rfl⟩ := seqM_eq_some.1 h₁₈
  obtain ⟨rfl, rfl⟩ := litP_eq_some.1 h₁₉
  obtain ⟨q₂, hq₂, rfl, hb₁₉⟩ := quoteP_eq_some.1 h₂₀
  constructor
  · rw [hb₃, hb₇, hb₁₁, hb₁₅, hb₁₇, hb₁₉]
    simp
  · refine ⟨a₃, a₇, a₁₁, a₁₅, q₁, q₂, hw₁, hw₁ne, ?_, hinnerne, hw₂, hw₂ne,
      hw₃, hw₃ne, hq₁, hq₂, by simp⟩
    intro x hx
    have := hinner x hx
    simpa using this

theorem matchVitePluginImport_complete {c : List Char} (h : ShapeVite c) :
    ∀ rest, matchVitePluginImport (c ++ rest) = some (c, rest) := by
  obtain ⟨w₁, inner, w₂, w₃, q₁, q₂, hw₁, hw₁ne, hinner, hinnerne, hw₂, hw₂ne,
    hw₃, hw₃ne, hq₁, hq₂, rfl⟩ := h
  intro rest
  have hs₁ : litP impLit (impLit ++ (w₁ ++ ([openBrace] ++ (inner ++
      ([closeBrace] ++ (w₂ ++ (fromLit ++ (w₃ ++ ([q₁] ++ (svLit ++
      ([q₂] ++ rest))))))))))) = some (impLit, w₁ ++ ([openBrace] ++ (inner ++
      ([closeBrace] ++ (w₂ ++ (fromLit ++ (w₃ ++ ([q₁] ++ (svLit ++
      ([q₂] ++ rest)))))))))) :=
    litP_eq_some.2 ⟨rfl, rfl⟩
  have hs₂ : wsP (w₁ ++ ([openBrace] ++ (inner ++ ([closeBrace] ++ (w₂ ++
      (fromLit ++ (w₃ ++ ([q₁] ++ (svLit ++ ([q₂] ++ rest)))))))))) =
      some (w₁, openBrace :: (inner ++ ([closeBrace] ++ (w₂ ++ (fromLit ++
        (w₃ ++ ([q₁] ++ (svLit ++ ([q₂] ++ rest))))))))) := by
    rw [wsP]
    exact classP_eq_some_of hw₁ hw₁ne (by decide)
  have hs₃ : litP [openBrace] (openBrace :: (inner ++ ([closeBrace] ++ (w₂ ++
      (fromLit ++ (w₃ ++ ([q₁] ++ (svLit ++ ([q₂] ++ rest))))))))) =
      some ([openBrace], inner ++ ([closeBrace] ++ (w₂ ++ (fromLit ++
        (w₃ ++ ([q₁] ++ (svLit ++ ([q₂] ++ rest)))))))) :=
    litP_eq_some.2 ⟨rfl, rfl⟩
  have hs₄ : classP (fun x => x ≠ closeBrace) (inner ++ ([closeBrace] ++ (w₂ ++
      (fromLit ++ (w₃ ++ ([q₁] ++ (svLit ++ ([q₂] ++ rest)))))))) =
      some (inner, closeBrace :: (w₂ ++ (fromLit ++ (w₃ ++ ([q₁] ++
        (svLit ++ ([q₂] ++ rest))))))) :=
    classP_eq_some_of (fun x hx => by simpa using hinner x hx) hinnerne
      (by simp)
  have hs₅ : litP [closeBrace] (closeBrace :: (w₂ ++ (fromLit ++ (w₃ ++
      ([q₁] ++ (svLit ++ ([q₂] ++ rest))))))) =
      some ([closeBrace], w₂ ++ (fromLit ++ (w₃ ++ ([q₁] ++ (svLit ++
        ([q₂] ++ rest)))))) :=
    litP_eq_some.2 ⟨rfl, rfl⟩
  have hs₆ : wsP (w₂ ++ (fromLit ++ (w₃ ++ ([q₁] ++ (svLit ++
      ([q₂] ++ rest)))))) =
      some (w₂, 'f' :: ("rom".data ++ (w₃ ++ ([q₁] ++ (svLit ++
        ([q₂] ++ rest)))))) := by
    rw [wsP]
    have : fromLit ++ (w₃ ++ ([q₁] ++ (svLit ++ ([q₂] ++ rest)))) =
        'f' :: ("rom".data ++ (w₃ ++ ([q₁] ++ (svLit ++ ([q₂] ++ rest))))) :=
      rfl
    rw [this]
    exact classP_eq_some_of hw₂ hw₂ne (by decide)
  have hs₇ : litP fromLit ('f' :: ("rom".data ++ (w₃ ++ ([q₁] ++ (svLit ++
      ([q₂] ++ rest)))))) =
      some (fromLit, w₃ ++ ([q₁] ++ (svLit ++ ([q₂] ++ rest)))) :=
    litP_eq_some.2 ⟨rfl, rfl⟩
  have hs₈ : wsP (w₃ ++ ([q₁] ++ (svLit ++ ([q₂] ++ rest)))) =
      some (w₃, q₁ :: (svLit ++ ([q₂] ++ rest))) := by
    rw [wsP]
    refine classP_eq_some_of hw₃ hw₃ne ?_
    rcases hq₁ with rfl | rfl <;> decide
  have hs₉ : quoteP (q₁ :: (svLit ++ ([q₂] ++ rest))) =
      some ([q₁], svLit ++ ([q₂] ++ rest)) := by
    simp only [quoteP]
    rw [if_pos (by simpa using hq₁)]
  have hs₁₀ : litP svLit (svLit ++ ([q₂] ++ rest)) =
      some (svLit, q₂ :: rest) :=
    litP_eq_some.2 ⟨rfl, rfl⟩
  have hs₁₁ : quoteP (q₂ :: rest) = some ([q₂], rest) := by
    simp only [quoteP]
    rw [if_pos (by simpa using hq₂)]
  rw [matchVitePluginImport]
  rw [show impLit ++ w₁ ++ [openBrace] ++ inner ++ [closeBrace] ++ w₂ ++
      fromLit ++ w₃ ++ [q₁] ++ svLit ++ [q₂] ++ rest =
      impLit ++ (w₁ ++ ([openBrace] ++ (inner ++ ([closeBrace] ++ (w₂ ++
      (fromLit ++ (w₃ ++ ([q₁] ++ (svLit ++ ([q₂] ++ rest)))))))))) by
    simp [List.append_assoc]]
  refine seqM_eq_some.2 ⟨_, _, _, hs₁, seqM_eq_some.2 ⟨_, _, _, hs₂,
    seqM_eq_some.2 ⟨_, _, _, hs₃, seqM_eq_some.2 ⟨_, _, _, hs₄,
    seqM_eq_some.2 ⟨_, _, _, hs₅, seqM_eq_some.2 ⟨_, _, _, hs₆,
    seqM_eq_some.2 ⟨_, _, _, hs₇, seqM_eq_some.2 ⟨_, _, _, hs₈,
    seqM_eq_some.2 ⟨_, _, _, hs₉, seqM_eq_some.2 ⟨_, _, _, hs₁₀, hs₁₁,
    rfl⟩, rfl⟩, rfl⟩, rfl⟩, rfl⟩, rfl⟩, rfl⟩, rfl⟩, rfl⟩, ?_⟩
  simp [List.append_assoc]

theorem findPat_sound {m : Matcher} :
    ∀ {l p c r : List Char}, findPat m l = some (p, c, r) →
      ∃ t, l = p ++ t ∧ m t = some (c, r) := by
  intro l
  induction l with
  | nil =>
      intro p c r h
      rw [findPat] at h
      cases hm : m [] with
      | none =>
          rw [hm] at h
          exact absurd h (by simp)
      | some v =>
          obtain ⟨c', r'⟩ := v
          rw [hm] at h
          simp only [Option.some.injEq, Prod.mk.injEq] at h
          obtain ⟨hp, hc, hr⟩ := h
          exact ⟨[], by rw [← hp]; rfl, by rw [← hc, ← hr]; exact hm⟩
  | cons x xs ih =>
      intro p c r h
      rw [findPat] at h
      cases hm : m (x :: xs) with
      | some v =>
          obtain ⟨c', r'⟩ := v
          rw [hm] at h
          simp only [Option.some.injEq, Prod.mk.injEq] at h
          obtain ⟨hp, hc, hr⟩ := h
          exact ⟨x :: xs, by rw [← hp]; rfl, by rw [← hc, ← hr]; exact hm⟩
      | none =>
          rw [hm] at h
          cases hf : findPat m xs with
          | none =>
              rw [hf] at h
              exact absurd h (by simp)
          | some w =>
              obtain ⟨p', c', r'⟩ := w
              rw [hf] at h
              simp only [Option.some.injEq, Prod.mk.injEq] at h
              obtain ⟨hp, hc, hr⟩ := h
              obtain ⟨t, ht, hmt⟩ := ih hf
              refine ⟨t, ?_, by rw [← hc, ← hr]; exact hmt⟩
              rw [← hp, ht]
              rfl

theorem findPat_none_iff {m : Matcher} :
    ∀ {l : List Char}, findPat m l = none ↔ ∀ t, t <:+ l → m t = none := by
  intro l
  induction l with
  | nil =>
      rw [findPat]
      cases hm : m [] with
      | some v =>
          obtain ⟨c, r⟩ := v
          constructor
          · intro h
            exact absurd h (by simp)
          · intro h
            rw [h [] (by simp)] at hm
            exact absurd hm (by simp)
      | none =>
          constructor
          · intro _ t ht
            rw [List.suffix_nil] at ht
            rw [ht]
            exact hm
          · intro _
            rfl
  | cons x xs ih =>
      rw [findPat]
      cases hm : m (x :: xs) with
      | some v =>
          obtain ⟨c, r⟩ := v
          constructor
          · intro h
            exact absurd h (by simp)
          · intro h
            rw [h (x :: xs) (List.suffix_refl _)] at hm
            exact absurd hm (by simp)
      | none =>
          cases hf : findPat m xs with
          | some w =>
              obtain ⟨p, c, r⟩ := w
              constructor
              · intro h
                exact absurd h (by simp)
              · intro h
                have : findPat m xs = none :=
                  ih.2 (fun t ht => h t (ht.trans (List.suffix_cons _ _)))
                rw [this] at hf
                exact absurd hf (by simp)
          | none =>
              constructor
              · intro _ t ht
                rcases List.suffix_cons_iff.1 ht with rfl | ht'
                · exact hm
                · exact ih.1 hf t ht'
              · intro _
                rfl

theorem suffix_append_cases {t a b : List Char} (h : t <:+ a ++ b) :
    t <:+ b ∨ ∃ sa, sa <:+ a ∧ t = sa ++ b := by
  obtain ⟨u, hu⟩ := h
  rcases List.append_eq_append_iff.1 hu with ⟨w, hw₁, hw₂⟩ | ⟨w, hw₁, hw₂⟩
  · exact Or.inr ⟨w, ⟨u, hw₁.symm⟩, hw₂⟩
  · exact Or.inl ⟨w, hw₂.symm⟩

theorem suffix_of_suffix_length_le {s₁ s₂ l : List Char} (h₁ : s₁ <:+ l)
    (h₂ : s₂ <:+ l) (hlen : s₁.length ≤ s₂.length) : s₁ <:+ s₂ := by
  obtain ⟨u₁, hu₁⟩ := h₁
  obtain ⟨u₂, hu₂⟩ := h₂
  have he : u₁ ++ s₁ = u₂ ++ s₂ := by rw [hu₁, hu₂]
  rcases List.append_eq_append_iff.1 he with ⟨w, hw₁, hw₂⟩ | ⟨w, hw₁, hw₂⟩
  · have hlen₂ : s₁.length = w.length + s₂.length := by rw [hw₂]; simp
    have hw0 : w = [] := List.eq_nil_of_length_eq_zero (by omega)
    subst hw0
    rw [hw₂]
    simp
  · exact ⟨w, hw₂.symm⟩

theorem suffix_append_same {sa p : List Char} (h : sa <:+ p)
    (x : List Char) : sa ++ x <:+ p ++ x := by
  obtain ⟨u, rfl⟩ := h
  exact ⟨u, by simp⟩

theorem shapePlugins_no_m {m : List Char} (h : ShapePlugins m) : 'm' ∉ m := by
  obtain ⟨w, hw, rfl⟩ := h
  intro hmem
  rcases List.mem_append.1 hmem with hmem | hmem
  · rcases List.mem_append.1 hmem with hmem | hmem
    · exact absurd hmem (by decide)
    · exact absurd (hw _ hmem) (by decide)
  · exact absurd hmem (by decide)

theorem shapePlugins_has_u {m : List Char} (h : ShapePlugins m) : 'u' ∈ m := by
  obtain ⟨w, hw, rfl⟩ := h
  exact List.mem_append.2 (Or.inl (List.mem_append.2 (Or.inl (by decide))))

theorem shapePlugins_concat {m : List Char} (h : ShapePlugins m) :
    ∃ m', m = m' ++ [','] := by
  obtain ⟨w, hw, rfl⟩ := h
  refine ⟨plugLit ++ w ++ "[svelte()]".data, ?_⟩
  rw [show brackLit = "[svelte()]".data ++ [','] by decide]
  simp [List.append_assoc]

theorem marker_preserved_subst {p m r : List Char} (repl : List Char)
    (hm : ShapePlugins m)
    (hocc : OccursIn pathImportMarker (p ++ m ++ r)) :
    OccursIn pathImportMarker (p ++ repl ++ r) := by
  have hnom : 'm' ∉ m := shapePlugins_no_m hm
  have hasu : 'u' ∈ m := shapePlugins_has_u hm
  obtain ⟨m', hm'⟩ := shapePlugins_concat hm
  obtain ⟨u, v, huv⟩ := hocc
  have huv' : p ++ (m ++ r) = u ++ (pathImportMarker ++ v) := by
    simpa [List.append_assoc] using huv
  suffices h : OccursIn pathImportMarker p ∨ OccursIn pathImportMarker r by
    rcases h with h | h
    · obtain ⟨a, b, rfl⟩ := h
      exact ⟨a, b ++ repl ++ r, by simp [List.append_assoc]⟩
    · obtain ⟨a, b, rfl⟩ := h
      exact ⟨p ++ repl ++ a, b, by simp [List.append_assoc]⟩
  rcases List.append_eq_append_iff.1 huv' with ⟨a, ha₁, ha₂⟩ | ⟨a, ha₁, ha₂⟩
  · -- u = p ++ a, m ++ r = a ++ (marker ++ v)
    rcases List.append_eq_append_iff.1 ha₂ with ⟨w, hw₁, hw₂⟩ | ⟨w, hw₁, hw₂⟩
    · -- a = m ++ w, r = w ++ (marker ++ v)
      exact Or.inr ⟨w, v, by rw [hw₂]; simp [List.append_assoc]⟩
    · -- m = a ++ w, marker ++ v = w ++ r
      rcases List.append_eq_append_iff.1 hw₂ with ⟨t, ht₁, ht₂⟩ | ⟨t, ht₁, ht₂⟩
      · -- w = marker ++ t: the marker sits inside m, but 'm' ∈ marker ∉ m
        have hmem : 'm' ∈ m := by
          rw [hw₁, ht₁]
          exact List.mem_append.2 (Or.inr (List.mem_append.2 (Or.inl
            (by decide))))
        exact absurd hmem hnom
      · -- marker = w ++ t, r = t ++ v: w is a prefix of the marker and a
        -- suffix of m
        rcases w with _ | ⟨c₀, w'⟩
        · exact Or.inr ⟨[], v, by simp [ht₂, ht₁]⟩
        · rcases w' with _ | ⟨c₁, w''⟩
          · -- w = [c₀]: c₀ = 'i', yet m ends in a comma
            have hc₀ : c₀ = 'i' := by
              have := ht₁
              rw [show pathImportMarker =
                'i' :: "mport path from".data by decide] at this
              simp only [List.cons_append, List.cons.injEq] at this
              exact this.1.symm
            subst hc₀
            rw [hm'] at hw₁
            obtain ⟨_, he⟩ := List.append_inj' hw₁.symm (by decide)
            exact absurd (List.cons.injEq .. ▸ he).1 (by decide)
          · -- w has two or more characters, so it contains the marker's 'm'
            have hc₁ : c₁ = 'm' := by
              have := ht₁
              rw [show pathImportMarker =
                'i' :: 'm' :: "port path from".data by decide] at this
              simp only [List.cons_append, List.cons.injEq] at this
              exact this.2.1.symm
            have hmem : 'm' ∈ m := by
              rw [hw₁, hc₁]
              exact List.mem_append.2 (Or.inr (by simp))
            exact absurd hmem hnom
  · -- p = u ++ a, marker ++ v = a ++ (m ++ r)
    rcases List.append_eq_append_iff.1 ha₂ with ⟨w, hw₁, hw₂⟩ | ⟨w, hw₁, hw₂⟩
    · -- a = marker ++ w
      exact Or.inl ⟨u, w, by rw [ha₁, hw₁]; simp [List.append_assoc]⟩
    · -- marker = a ++ w, m ++ r = w ++ v
      rcases List.append_eq_append_iff.1 hw₂ with ⟨t, ht₁, ht₂⟩ | ⟨t, ht₁, ht₂⟩
      · -- w = m ++ t: m sits inside the marker, but 'u' ∈ m ∉ marker
        have hmem : 'u' ∈ pathImportMarker := by
          rw [hw₁, ht₁]
          exact List.mem_append.2 (Or.inr (List.mem_append.2 (Or.inl hasu)))
        exact absurd hmem (by decide)
      · -- m = w ++ t, v = t ++ r: w is a suffix of the marker and a prefix
        -- of m
        rcases List.eq_nil_or_concat w with rfl | ⟨w₀, wl, rfl⟩
        · -- w = []: marker = a, a suffix of p
          exact Or.inl ⟨u, [], by simp [ha₁, hw₁]⟩
        · -- w ends in the marker's last character 'm', yet 'm' ∉ m
          rw [List.concat_eq_append] at hw₁ ht₁
          have hwl : wl = 'm' := by
            have := hw₁
            rw [show pathImportMarker =
              "import path fro".data ++ ['m'] by decide] at this
            rw [← List.append_assoc] at this
            obtain ⟨_, he⟩ := List.append_inj' this rfl
            exact (List.cons.injEq .. ▸ he.symm).1
          have hmem : 'm' ∈ m := by
            rw [ht₁, ← hwl]
            exact List.mem_append.2 (Or.inl (by simp))
          exact absurd hmem hnom

theorem shapeVite_cons {c : List Char} (h : ShapeVite c) :
    ∃ crest, c = 'i' :: 'm' :: crest := by
  obtain ⟨w₁, inner, w₂, w₃, q₁, q₂, _, _, _, _, _, _, _, _, _, _, rfl⟩ := h
  refine ⟨"port".data ++ (w₁ ++ ([openBrace] ++ (inner ++ ([closeBrace] ++
    (w₂ ++ (fromLit ++ (w₃ ++ ([q₁] ++ (svLit ++ [q₂]))))))))), ?_⟩
  rw [show impLit = 'i' :: 'm' :: "port".data by decide]
  simp [List.append_assoc]

theorem shapeVite_concat {c : List Char} (h : ShapeVite c) :
    ∃ c'' q, (q = '\'' ∨ q = '"') ∧ c = c'' ++ [q] := by
  obtain ⟨w₁, inner, w₂, w₃, q₁, q₂, _, _, _, _, _, _, _, _, _, hq₂, rfl⟩ := h
  exact ⟨_, q₂, hq₂, rfl⟩

theorem shapeVite_tail {c : List Char} (h : ShapeVite c) :
    ∃ q₁ q₂, [q₁] ++ svLit ++ [q₂] <:+ c := by
  obtain ⟨w₁, inner, w₂, w₃, q₁, q₂, _, _, _, _, _, _, _, _, _, _, rfl⟩ := h
  exact ⟨q₁, q₂, ⟨impLit ++ w₁ ++ [openBrace] ++ inner ++ [closeBrace] ++
    w₂ ++ fromLit ++ w₃, by simp [List.append_assoc]⟩⟩

theorem shapeVite_count {c : List Char} (h : ShapeVite c) :
    List.count closeBrace c = 1 := by
  obtain ⟨w₁, inner, w₂, w₃, q₁, q₂, hw₁, _, hinner, _, hw₂, _, hw₃, _, hq₁,
    hq₂, rfl⟩ := h
  have hz₁ : List.count closeBrace w₁ = 0 :=
    List.count_eq_zero.2 (fun hmem => absurd (hw₁ _ hmem) (by decide))
  have hz₂ : List.count closeBrace w₂ = 0 :=
    List.count_eq_zero.2 (fun hmem => absurd (hw₂ _ hmem) (by decide))
  have hz₃ : List.count closeBrace w₃ = 0 :=
    List.count_eq_zero.2 (fun hmem => absurd (hw₃ _ hmem) (by decide))
  have hzin : List.count closeBrace inner = 0 :=
    List.count_eq_zero.2 (fun hmem => (hinner _ hmem) rfl)
  have hzq₁ : List.count closeBrace [q₁] = 0 :=
    List.count_eq_zero.2 (by rcases hq₁ with rfl | rfl <;> decide)
  have hzq₂ : List.count closeBrace [q₂] = 0 :=
    List.count_eq_zero.2 (by rcases hq₂ with rfl | rfl <;> decide)
  simp only [List.count_append, hz₁, hz₂, hz₃, hzin, hzq₁, hzq₂]
  decide

theorem no_vite_match_subst {p₂ m₂ r₂ : List Char}
    (hnone : findPat matchVitePluginImport (p₂ ++ m₂ ++ r₂) = none) :
    findPat matchVitePluginImport (p₂ ++ viteResolveRepl ++ r₂) = none := by
  rw [findPat_none_iff] at hnone ⊢
  intro t' ht'
  cases hmt : matchVitePluginImport t' with
  | none => rfl
  | some v =>
      obtain ⟨c, rest⟩ := v
      exfalso
      obtain ⟨hdec0, hshape⟩ := matchVitePluginImport_sound hmt
      have ht'' : t' <:+ p₂ ++ (viteResolveRepl ++ r₂) := by
        simpa [List.append_assoc] using ht'
      rcases suffix_append_cases ht'' with hB | ⟨sa, hsa, rfl⟩
      · rcases suffix_append_cases hB with hC | ⟨sb, hsb, htsb⟩
        · have hl₀ : t' <:+ p₂ ++ m₂ ++ r₂ :=
            hC.trans ⟨p₂ ++ m₂, by simp [List.append_assoc]⟩
          have hn := hnone t' hl₀
          rw [hmt] at hn
          exact absurd hn (by simp)
        · rcases sb with _ | ⟨c₀, sb'⟩
          · have hl₀ : t' <:+ p₂ ++ m₂ ++ r₂ := by
              rw [htsb]
              exact ⟨p₂ ++ m₂, by simp [List.append_assoc]⟩
            have hn := hnone t' hl₀
            rw [hmt] at hn
            exact absurd hn (by simp)
          · rcases sb' with _ | ⟨c₁, sb''⟩
            · obtain ⟨crest, hcr⟩ := shapeVite_cons hshape
              have hc₀i : c₀ = 'i' := by
                rw [htsb, hcr] at hdec0
                simp only [List.cons_append, List.nil_append,
                  List.cons.injEq] at hdec0
                exact hdec0.1
              have hrc : viteResolveRepl =
                  "plugins: [svelte()],\n  resolve: \x7b\n    alias: \x7b\n      $lib: path.resolve(\"src/lib/\"),\n    \x7d,\n  \x7d".data ++
                  [','] := by decide
              obtain ⟨z, hz⟩ := hsb
              rw [hrc] at hz
              obtain ⟨_, he⟩ := List.append_inj' hz rfl
              rw [hc₀i] at he
              exact absurd (List.cons.injEq .. ▸ he).1 (by decide)
            · obtain ⟨crest, hcr⟩ := shapeVite_cons hshape
              have hc₁m : c₁ = 'm' := by
                rw [htsb, hcr] at hdec0
                simp only [List.cons_append, List.cons.injEq] at hdec0
                exact hdec0.2.1
              have hmm : 'm' ∈ viteResolveRepl := by
                rw [← hc₁m]
                exact hsb.subset (by simp)
              exact absurd hmm (by decide)
      · have ht₀ : sa ++ (m₂ ++ r₂) <:+ p₂ ++ m₂ ++ r₂ := by
          have := suffix_append_same hsa (m₂ ++ r₂)
          simpa [List.append_assoc] using this
        rcases List.append_eq_append_iff.1 hdec0 with ⟨d, hd₁, hd₂⟩ |
          ⟨d, hd₁, hd₂⟩
        · rcases List.append_eq_append_iff.1 hd₂ with ⟨e, he₁, he₂⟩ |
            ⟨e, he₁, he₂⟩
          · have hcnt := shapeVite_count hshape
            rw [hd₁, he₁] at hcnt
            rw [List.count_append, List.count_append] at hcnt
            have h2 : List.count closeBrace viteResolveRepl = 2 := by decide
            omega
          · by_cases hd0 : d = []
            · subst hd0
              have hc : c = sa := by simpa using hd₁
              have hmatch := matchVitePluginImport_complete hshape (m₂ ++ r₂)
              have hn := hnone _ ht₀
              rw [hc] at hmatch
              rw [hn] at hmatch
              exact absurd hmatch (by simp)
            · by_cases hlen : d.length ≤ 29
              · obtain ⟨c'', q, hq, hcq⟩ := shapeVite_concat hshape
                obtain ⟨d₀, dl, rfl⟩ := (List.eq_nil_or_concat d).resolve_left
                  hd0
                rw [List.concat_eq_append] at hd₁ he₁ hlen
                have hdl : dl = q := by
                  rw [hcq] at hd₁
                  rw [← List.append_assoc] at hd₁
                  obtain ⟨_, he⟩ := List.append_inj' hd₁ rfl
                  exact (List.cons.injEq .. ▸ he.symm).1
                have hq29 : q ∈ viteResolveRepl.take 29 := by
                  have ht29 : viteResolveRepl.take 29 =
                      (d₀ ++ [dl]) ++
                        (List.take (29 - (d₀ ++ [dl]).length) e) := by
                    rw [he₁, List.take_append_eq_append_take,
                      List.take_of_length_le hlen]
                  rw [ht29]
                  exact List.mem_append.2 (Or.inl (by rw [← hdl]; simp))
                rcases hq with rfl | rfl
                · exact absurd hq29 (by decide)
                · exact absurd hq29 (by decide)
              · obtain ⟨q₁, q₂, htseg⟩ := shapeVite_tail hshape
                have hdc : d <:+ c := ⟨sa, hd₁.symm⟩
                have htl : ([q₁] ++ svLit ++ [q₂]).length ≤ d.length := by
                  have h30 : ([q₁] ++ svLit ++ [q₂]).length = 30 := by
                    simp [show svLit.length = 28 from by decide]
                  omega
                have hsub := suffix_of_suffix_length_le htseg hdc htl
                have hat : '@' ∈ d := hsub.subset
                  (List.mem_append.2 (Or.inl (List.mem_append.2 (Or.inr
                    (by decide)))))
                have hat2 : '@' ∈ viteResolveRepl := by
                  rw [he₁]
                  exact List.mem_append.2 (Or.inl hat)
                exact absurd hat2 (by decide)
        · have hmatch := matchVitePluginImport_complete hshape (d ++ (m₂ ++ r₂))
          have hn := hnone _ ht₀
          rw [show sa ++ (m₂ ++ r₂) = c ++ (d ++ (m₂ ++ r₂)) by
            rw [hd₁]; simp [List.append_assoc]] at hn
          rw [hn] at hmatch
          exact absurd hmatch (by simp)

theorem vitePatchResolve_cases (l : List Char) :
    hasSeg resolveMarker (vitePatchResolve l) = true ∨
    (vitePatchResolve l = l ∧ findPat matchPluginsArray l = none) := by
  rw [vitePatchResolve]
  by_cases hg : hasSeg resolveMarker l = true
  · rw [if_pos hg]
    exact Or.inl hg
  · rw [if_neg hg]
    rw [replaceFirstM]
    cases hf : findPat matchPluginsArray l with
    | none => exact Or.inr ⟨rfl, rfl⟩
    | some v =>
        obtain ⟨p, c, r⟩ := v
        left
        rw [hasSeg_iff]
        obtain ⟨a, b, hab⟩ := hasSeg_iff.1
          (show hasSeg resolveMarker viteResolveRepl = true by decide)
        exact ⟨p ++ a, b ++ r, by rw [hab]; simp [List.append_assoc]⟩

theorem vitePatchResolve_idem (l : List Char) :
    vitePatchResolve (vitePatchResolve l) = vitePatchResolve l := by
  rcases vitePatchResolve_cases l with h | ⟨h, _⟩
  · conv_lhs => rw [vitePatchResolve]
    rw [if_pos h]
  · rw [h]
    exact h

theorem vitePatchImport_cases (l : List Char) :
    hasSeg pathImportMarker (vitePatchImport l) = true ∨
    (vitePatchImport l = l ∧ findPat matchVitePluginImport l = none) := by
  rw [vitePatchImport]
  by_cases hg : hasSeg pathImportMarker l = true
  · rw [if_pos hg]
    exact Or.inl hg
  · rw [if_neg hg]
    rw [replaceFirstM]
    cases hf : findPat matchVitePluginImport l with
    | none => exact Or.inr ⟨rfl, rfl⟩
    | some v =>
        obtain ⟨p, c, r⟩ := v
        left
        rw [hasSeg_iff]
        obtain ⟨a, b, hab⟩ := hasSeg_iff.1
          (show hasSeg pathImportMarker viteImportRepl = true by decide)
        exact ⟨p ++ a, b ++ r, by rw [hab]; simp [List.append_assoc]⟩

theorem vitePatchImport_fixed_of_marker {l : List Char}
    (h : hasSeg pathImportMarker l = true) : vitePatchImport l = l := by
  rw [vitePatchImport, if_pos h]

theorem vitePatchImport_fixed_of_none {l : List Char}
    (h : findPat matchVitePluginImport l = none) : vitePatchImport l = l := by
  rw [vitePatchImport]
  by_cases hg : hasSeg pathImportMarker l = true
  · rw [if_pos hg]
  · rw [if_neg hg, replaceFirstM, h]

theorem marker1_through_resolve {l : List Char}
    (h : hasSeg pathImportMarker l = true) :
    hasSeg pathImportMarker (vitePatchResolve l) = true := by
  rw [vitePatchResolve]
  by_cases hg : hasSeg resolveMarker l = true
  · rw [if_pos hg]
    exact h
  · rw [if_neg hg, replaceFirstM]
    cases hf : findPat matchPluginsArray l with
    | none => exact h
    | some v =>
        obtain ⟨p, c, r⟩ := v
        obtain ⟨t, hl, hmc⟩ := findPat_sound hf
        obtain ⟨hct, hshape⟩ := matchPluginsArray_sound hmc
        have hl' : l = p ++ c ++ r := by rw [hl, hct, ← List.append_assoc]
        rw [hasSeg_iff] at h ⊢
        refine marker_preserved_subst viteResolveRepl hshape ?_
        rw [← hl']
        exact h

theorem pat1_none_through_resolve {l : List Char}
    (h : findPat matchVitePluginImport l = none) :
    findPat matchVitePluginImport (vitePatchResolve l) = none := by
  rw [vitePatchResolve]
  by_cases hg : hasSeg resolveMarker l = true
  · rw [if_pos hg]
    exact h
  · rw [if_neg hg, replaceFirstM]
    cases hf : findPat matchPluginsArray l with
    | none => exact h
    | some v =>
        obtain ⟨p, c, r⟩ := v
        obtain ⟨t, hl, hmc⟩ := findPat_sound hf
        obtain ⟨hct, hshape⟩ := matchPluginsArray_sound hmc
        have hl' : l = p ++ c ++ r := by rw [hl, hct, ← List.append_assoc]
        rw [hl'] at h
        exact no_vite_match_subst h

theorem vitePatchImport_idem_after (l : List Char) :
    vitePatchImport (vitePatchResolve (vitePatchImport l)) =
      vitePatchResolve (vitePatchImport l) := by
  rcases vitePatchImport_cases l with h | ⟨heq, hnone⟩
  · exact vitePatchImport_fixed_of_marker (marker1_through_resolve h)
  · rw [heq]
    exact vitePatchImport_fixed_of_none (pat1_none_through_resolve hnone)

theorem configureViteConfig_idem (s : String) :
    configureViteConfig (configureViteConfig s) = configureViteConfig s := by
  show (⟨vitePatchResolve (vitePatchImport
      (vitePatchResolve (vitePatchImport s.data)))⟩ : String) =
    ⟨vitePatchResolve (vitePatchImport s.data)⟩
  rw [vitePatchImport_idem_after, vitePatchResolve_idem]

theorem configureTsconfigApp_idem (s : String) :
    configureTsconfigApp (configureTsconfigApp s) = configureTsconfigApp s := by
  by_cases hg : hasSeg pathsMarker s.data = true
  · have h1 : configureTsconfigApp s = s := by
      rw [configureTsconfigApp, if_pos hg]
    rw [h1]
    exact h1
  · have h1 : configureTsconfigApp s =
        ⟨replaceFirstM matchCompilerOptions tsconfigPathsRepl s.data⟩ := by
      rw [configureTsconfigApp, if_neg hg]
    cases hf : findPat matchCompilerOptions s.data with
    | none =>
        have h2 : configureTsconfigApp s = s := by
          rw [h1, replaceFirstM, hf]
        rw [h2]
        exact h2
    | some v =>
        obtain ⟨p, c, r⟩ := v
        have h2 : configureTsconfigApp s =
            ⟨p ++ tsconfigPathsRepl ++ r⟩ := by
          rw [h1, replaceFirstM, hf]
        rw [h2]
        have hocc : OccursIn pathsMarker (p ++ tsconfigPathsRepl ++ r) := by
          obtain ⟨a, b, hab⟩ := hasSeg_iff.1
            (show hasSeg pathsMarker tsconfigPathsRepl = true by decide)
          exact ⟨p ++ a, b ++ r, by rw [hab]; simp [List.append_assoc]⟩
        rw [configureTsconfigApp, if_pos (hasSeg_iff.2 hocc)]

/-! ## The global import-pattern replace (C5 support) -/

theorem isImportPatAt_decomp {mid l : List Char}
    (h : isImportPatAt mid l = true) :
    ∃ q₁ q₂, q₁ ∈ quoteChars ∧ q₂ ∈ quoteChars ∧
      l = importPat mid q₁ q₂ ++ l.drop (mid.length + 9) := by
  rw [isImportPatAt, Bool.and_eq_true] at h
  obtain ⟨h1, h2⟩ := h
  obtain ⟨r1, hl⟩ := startsWithSeg_iff.1 h1
  have h7 : ("import ".data).length = 7 := by decide
  have hdrop7 : l.drop 7 = r1 := by rw [hl, ← h7, List.drop_left]
  rw [hdrop7] at h2
  cases r1 with
  | nil => exact absurd h2 (by simp)
  | cons q₁ r =>
      simp only [Bool.and_eq_true] at h2
      obtain ⟨⟨hq₁, hmid⟩, h3⟩ := h2
      obtain ⟨r2, hr⟩ := startsWithSeg_iff.1 hmid
      have hdropm : r.drop mid.length = r2 := by rw [hr, List.drop_left]
      rw [hdropm] at h3
      cases r2 with
      | nil => exact absurd h3 (by simp)
      | cons q₂ r3 =>
          have hq₂ : (q₂ = '\'' || q₂ = '"') = true := by simpa using h3
          have hlpat : l = importPat mid q₁ q₂ ++ r3 := by
            rw [hl, hr]
            simp [importPat]
          have hlen : (importPat mid q₁ q₂).length = mid.length + 9 := by
            simp [importPat]
          refine ⟨q₁, q₂, by simpa [quoteChars] using hq₁,
            by simpa [quoteChars] using hq₂, ?_⟩
          rw [hlpat, ← hlen, List.drop_left]

theorem replaceImportPatFuel_rewrites (mid repl : List Char) :
    ∀ (fuel : Nat) (l : List Char), l.length ≤ fuel →
      ImportRewrite mid repl l (replaceImportPatFuel mid repl fuel l) := by
  intro fuel
  induction fuel with
  | zero =>
      intro l hl
      have hnil : l = [] := by
        cases l with
        | nil => rfl
        | cons a t => simp at hl
      subst hnil
      exact ImportRewrite.nil
  | succ n ih =>
      intro l hl
      match l with
      | [] => exact ImportRewrite.nil
      | c :: rest =>
          by_cases hpat : isImportPatAt mid (c :: rest) = true
          · rw [replaceImportPatFuel, if_pos hpat]
            obtain ⟨q₁, q₂, hq₁, hq₂, hdec⟩ := isImportPatAt_decomp hpat
            have hlen : ((c :: rest).drop (mid.length + 9)).length ≤ n := by
              have := List.length_drop (mid.length + 9) (c :: rest)
              simp only [List.length_cons] at this hl
              omega
            have hrw := ih _ hlen
            have hsub := @ImportRewrite.subst mid repl
              q₁ q₂ _ _ hq₁ hq₂ hrw
            rw [← hdec] at hsub
            exact hsub
          · rw [replaceImportPatFuel, if_neg hpat]
            exact ImportRewrite.keep c rest _ (by simpa using hpat)
              (ih rest (Nat.succ_le_succ_iff.1 hl))

theorem replaceImportPat_rewrites (mid repl l : List Char) :
    ImportRewrite mid repl l (replaceImportPat mid repl l) :=
  replaceImportPatFuel_rewrites mid repl l.length l le_rfl

theorem replaceImportPatFuel_no_match (mid repl : List Char) :
    ∀ (fuel : Nat) (l : List Char), hasImportPat mid l = false →
      replaceImportPatFuel mid repl fuel l = l := by
  intro fuel
  induction fuel with
  | zero => intro l _; rfl
  | succ n ih =>
      intro l h
      match l with
      | [] => rfl
      | c :: rest =>
          simp only [hasImportPat, List.tails_cons, List.any_cons,
            Bool.or_eq_false_iff] at h
          rw [replaceImportPatFuel, if_neg (by simp [h.1])]
          rw [ih rest (by simp [hasImportPat, h.2])]

theorem replaceImportPat_no_match (mid repl l : List Char)
    (h : hasImportPat mid l = false) :
    replaceImportPat mid repl l = l :=
  replaceImportPatFuel_no_match mid repl l.length l h

theorem replaceImportPatFuel_contains (mid repl : List Char) :
    ∀ (fuel : Nat) (l : List Char), l.length ≤ fuel →
      hasImportPat mid l = true →
      OccursIn repl (replaceImportPatFuel mid repl fuel l) := by
  intro fuel
  induction fuel with
  | zero =>
      intro l hl hocc
      have hnil : l = [] := by
        cases l with
        | nil => rfl
        | cons a t => simp at hl
      subst hnil
      simp [hasImportPat, isImportPatAt, startsWithSeg] at hocc
  | succ n ih =>
      intro l hl hocc
      match l with
      | [] => simp [hasImportPat, isImportPatAt, startsWithSeg] at hocc
      | c :: rest =>
          by_cases hpat : isImportPatAt mid (c :: rest) = true
          · rw [replaceImportPatFuel, if_pos hpat]
            exact occursIn_middle [] repl _
          · rw [replaceImportPatFuel, if_neg hpat]
            simp only [hasImportPat, List.tails_cons, List.any_cons] at hocc
            rw [Bool.or_eq_true] at hocc
            rcases hocc with hocc | hocc
            · exact absurd hocc hpat
            · exact OccursIn.cons c
                (ih rest (Nat.succ_le_succ_iff.1 hl)
                  (by simpa [hasImportPat] using hocc))

theorem replaceImportPat_contains (mid repl l : List Char)
    (h : hasImportPat mid l = true) :
    OccursIn repl (replaceImportPat mid repl l) :=
  replaceImportPatFuel_contains mid repl l.length l le_rfl h

/-! ## Filesystem lemmas (C6 support) -/

theorem fileAt_createDirectoryFS (fs : FS) (p q : Path) :
    fileAt (createDirectoryFS fs p) q = fileAt fs q := rfl

theorem fileAt_createDirsFS (fs : FS) (ps : List Path) (q : Path) :
    fileAt (createDirsFS fs ps) q = fileAt fs q := by
  induction ps generalizing fs with
  | nil => rfl
  | cons p rest ih =>
      rw [createDirsFS, List.foldl_cons, ← createDirsFS, ih]
      rfl

theorem dirs_createDirectoryFS (fs : FS) (p q : Path) :
    (createDirectoryFS fs p).dirs.contains q = true ↔
      (fs.dirs.contains q = true ∨ q = p) := by
  rw [createDirectoryFS]
  by_cases h : fs.dirs.contains p = true
  · rw [if_pos h]
    constructor
    · exact Or.inl
    · rintro (hq | rfl)
      · exact hq
      · exact h
  · rw [if_neg h]
    show (fs.dirs ++ [p]).contains q = true ↔ _
    constructor
    · intro hc
      have hm : q ∈ fs.dirs ++ [p] := by simpa using hc
      rcases List.mem_append.1 hm with h1 | h1
      · exact Or.inl (by simpa using h1)
      · exact Or.inr (by simpa using h1)
    · rintro (hc | rfl)
      · have hm : q ∈ fs.dirs ++ [p] :=
          List.mem_append.2 (Or.inl (by simpa using hc))
        simpa using hm
      · have hm : q ∈ fs.dirs ++ [q] := List.mem_append.2 (Or.inr (by simp))
        simp

theorem find?_path_filter₂ (files : List (Path × String)) (src dst q : Path)
    (hq₁ : q ≠ src) (hq₂ : q ≠ dst) :
    (files.filter (fun x => x.1 ≠ src && x.1 ≠ dst)).find?
        (fun e => e.1 = q) =
      files.find? (fun e => e.1 = q) := by
  induction files with
  | nil => rfl
  | cons e rest ih =>
      by_cases he : e.1 = q
      · rw [List.filter_cons, if_pos (by simp [he, hq₁, hq₂]),
          List.find?_cons_of_pos _ (by simp [he]),
          List.find?_cons_of_pos _ (by simp [he])]
      · by_cases hkeep : (e.1 ≠ src ∧ e.1 ≠ dst)
        · rw [List.filter_cons, if_pos (by simp [hkeep.1, hkeep.2]),
            List.find?_cons_of_neg _ (by simp [he]),
            List.find?_cons_of_neg _ (by simp [he]), ih]
        · rw [List.filter_cons, if_neg (by simpa using hkeep),
            List.find?_cons_of_neg _ (by simp [he]), ih]

theorem find?_path_filter₂_dropped (files : List (Path × String))
    (src dst q : Path) (hq : q = src ∨ q = dst) :
    (files.filter (fun x => x.1 ≠ src && x.1 ≠ dst)).find?
        (fun e => e.1 = q) = none := by
  rw [List.find?_eq_none]
  intro e he
  have := List.of_mem_filter he
  simp only [Bool.and_eq_true, decide_eq_true_eq] at this
  rcases hq with rfl | rfl
  · simp [this.1]
  · simp [this.2]

theorem find?_path_filter₁ (files : List (Path × String)) (p q : Path)
    (hq : q ≠ p) :
    (files.filter (fun e => e.1 ≠ p)).find? (fun e => e.1 = q) =
      files.find? (fun e => e.1 = q) := by
  induction files with
  | nil => rfl
  | cons e rest ih =>
      by_cases he : e.1 = q
      · rw [List.filter_cons, if_pos (by simp [he, hq]),
          List.find?_cons_of_pos _ (by simp [he]),
          List.find?_cons_of_pos _ (by simp [he])]
      · by_cases hkeep : e.1 ≠ p
        · rw [List.filter_cons, if_pos (by simpa using hkeep),
            List.find?_cons_of_neg _ (by simp [he]),
            List.find?_cons_of_neg _ (by simp [he]), ih]
        · rw [List.filter_cons, if_neg (by simpa using hkeep),
            List.find?_cons_of_neg _ (by simp [he]), ih]

theorem fileAt_writeFileFS (fs : FS) (p : Path) (content : String) (q : Path) :
    fileAt (writeFileFS fs p content) q =
      if q = p then some content else fileAt fs q := by
  rw [writeFileFS]
  by_cases hq : q = p
  · subst hq
    rw [if_pos rfl]
    show ((fs.files.filter _ ++ [(q, content)]).find? _).map _ = _
    rw [List.find?_append, List.find?_eq_none.2 ?hnone]
    · simp
    · intro e he
      have := List.of_mem_filter he
      simpa using this
  · rw [if_neg hq]
    show ((fs.files.filter _ ++ [(p, content)]).find? _).map _ = _
    rw [List.find?_append, find?_path_filter₁ _ _ _ hq]
    cases hf : fs.files.find? (fun e => e.1 = q) with
    | none => simp [fileAt, hf, Ne.symm hq]
    | some e => simp [fileAt, hf]

theorem moveFileFS_ok_iff (fs : FS) (src dst : Path) :
    (∃ fs', moveFileFS fs src dst = .ok fs') ↔
      (fs.files.find? (fun e => e.1 = src)).isSome := by
  rw [moveFileFS]
  cases h : fs.files.find? (fun e => e.1 = src) <;> simp

theorem moveFileFS_spec (fs : FS) (src dst : Path) (fs' : FS)
    (h : moveFileFS fs src dst = .ok fs') :
    (∀ q, q ≠ src → q ≠ dst → fileAt fs' q = fileAt fs q) ∧
    fileAt fs' dst = fileAt fs src ∧
    (src ≠ dst → fileAt fs' src = none) ∧
    fs'.dirs = (createDirectoryFS fs (dirname dst)).dirs := by
  rw [moveFileFS] at h
  cases hf : fs.files.find? (fun e => e.1 = src) with
  | none => rw [hf] at h; exact absurd h (by simp)
  | some e =>
      rw [hf] at h
      have hfs' : fs' = { createDirectoryFS fs (dirname dst) with
          files := (createDirectoryFS fs (dirname dst)).files.filter
            (fun x => x.1 ≠ src && x.1 ≠ dst) ++ [(dst, e.2)] } := by
        cases h
        rfl
      have hfiles : (createDirectoryFS fs (dirname dst)).files = fs.files := rfl
      refine ⟨?_, ?_, ?_, by rw [hfs']⟩
      · intro q hq₁ hq₂
        rw [hfs']
        show ((_ ++ [(dst, e.2)]).find? _).map _ = _
        rw [List.find?_append, hfiles, find?_path_filter₂ _ _ _ _ hq₁ hq₂]
        cases hg : fs.files.find? (fun x => x.1 = q) with
        | none => simp [fileAt, hg, Ne.symm hq₂]
        | some e' => simp [fileAt, hg]
      · rw [hfs']
        show ((_ ++ [(dst, e.2)]).find? _).map _ = _
        rw [List.find?_append, hfiles,
          find?_path_filter₂_dropped _ _ _ _ (Or.inr rfl)]
        have he : e.1 = src := by
          have := List.find?_some hf
          simpa using this
        simp [fileAt, hf]
      · intro hne
        rw [hfs']
        show ((_ ++ [(dst, e.2)]).find? _).map _ = _
        rw [List.find?_append, hfiles,
          find?_path_filter₂_dropped _ _ _ _ (Or.inl rfl)]
        simp [Ne.symm hne]

theorem append_singleton_ne (p q : Path) (a b : String) (h : a ≠ b) :
    p ++ [a] ≠ q ++ [b] := by
  intro he
  have := congrArg List.getLast? he
  simp at this
  exact h this

theorem dirs_createDirsFS (fs : FS) (ps : List Path) (q : Path) :
    (createDirsFS fs ps).dirs.contains q = true ↔
      (fs.dirs.contains q = true ∨ q ∈ ps) := by
  induction ps generalizing fs with
  | nil => simp [createDirsFS]
  | cons p rest ih =>
      rw [createDirsFS, List.foldl_cons, ← createDirsFS, ih,
        dirs_createDirectoryFS]
      simp [or_assoc]

theorem reactMoveStep_spec (srcPath d1 d2 : Path) (fs : FS) (file : String)
    (hA1 : d1 ≠ srcPath ++ ["App.css"]) (hA2 : d1 ≠ srcPath ++ ["index.css"])
    (hB1 : d2 ≠ srcPath ++ ["App.css"]) (hB2 : d2 ≠ srcPath ++ ["index.css"])
    (hiA : fs.dirs.contains (srcPath ++ ["App.css"]) = false)
    (hiI : fs.dirs.contains (srcPath ++ ["index.css"]) = false) :
    ∃ fs', reactMoveStep srcPath d1 d2 fs file = .ok fs' ∧
      fs'.dirs.contains (srcPath ++ ["App.css"]) = false ∧
      fs'.dirs.contains (srcPath ++ ["index.css"]) = false ∧
      (∀ q, q ≠ srcPath ++ ["App.css"] → q ≠ srcPath ++ ["index.css"] →
        q ≠ d1 ++ ["App.css"] → q ≠ d2 ++ ["index.css"] →
        fileAt fs' q = fileAt fs q) ∧
      (fileAt fs (srcPath ++ ["index.css"]) = none →
        fileAt fs' (srcPath ++ ["index.css"]) = none ∧
        fileAt fs' (d2 ++ ["index.css"]) = fileAt fs (d2 ++ ["index.css"])) ∧
      (fileAt fs (srcPath ++ ["App.css"]) = none →
        fileAt fs' (srcPath ++ ["App.css"]) = none ∧
        fileAt fs' (d1 ++ ["App.css"]) = fileAt fs (d1 ++ ["App.css"])) := by
  rw [reactMoveStep]
  by_cases hskip : !(pathExistsFS fs (srcPath ++ [file])) || file = "assets"
  · rw [if_pos hskip]
    exact ⟨fs, rfl, hiA, hiI, fun q _ _ _ _ => rfl, fun h => ⟨h, rfl⟩,
      fun h => ⟨h, rfl⟩⟩
  · rw [if_neg hskip]
    have hex : pathExistsFS fs (srcPath ++ [file]) = true := by
      rcases Bool.or_eq_false_iff.1 (Bool.not_eq_true _ ▸ (by simpa using hskip :
        ¬ (!(pathExistsFS fs (srcPath ++ [file])) || file = "assets") = true))
        with ⟨h1, _⟩
      simpa using h1
    by_cases hApp : file = "App.css"
    · rw [if_pos hApp]
      subst hApp
      have hfind : (fs.files.find? (fun e => e.1 = srcPath ++ ["App.css"])).isSome := by
        rw [pathExistsFS, Bool.or_eq_true] at hex
        rcases hex with hex | hex
        · obtain ⟨e, he, hp⟩ := List.any_eq_true.1 hex
          cases hf : fs.files.find? (fun e => e.1 = srcPath ++ ["App.css"]) with
          | some _ => rfl
          | none =>
              rw [List.find?_eq_none] at hf
              exact absurd hp (by simpa using hf e he)
        · rw [hiA] at hex
          exact absurd hex (by simp)
      obtain ⟨fs', hok⟩ := (moveFileFS_ok_iff fs _ _).2 hfind
      obtain ⟨hframe, hdst, hsrc, hdirs⟩ := moveFileFS_spec _ _ _ _ hok
      refine ⟨fs', hok, ?_, ?_, ?_, ?_, ?_⟩
      · rw [hdirs]
        rcases (Decidable.em ((createDirectoryFS fs
          (dirname (d1 ++ ["App.css"]))).dirs.contains
            (srcPath ++ ["App.css"]) = true)) with hc | hc
        · rcases (dirs_createDirectoryFS _ _ _).1 hc with hc' | hc'
          · rw [hiA] at hc'; exact absurd hc' (by simp)
          · rw [dirname, List.dropLast_concat] at hc'
            exact absurd hc'.symm hA1
        · simpa using hc
      · rw [hdirs]
        rcases (Decidable.em ((createDirectoryFS fs
          (dirname (d1 ++ ["App.css"]))).dirs.contains
            (srcPath ++ ["index.css"]) = true)) with hc | hc
        · rcases (dirs_createDirectoryFS _ _ _).1 hc with hc' | hc'
          · rw [hiI] at hc'; exact absurd hc' (by simp)
          · rw [dirname, List.dropLast_concat] at hc'
            exact absurd hc'.symm hA2
        · simpa using hc
      · intro q hq1 hq2 hq3 _
        exact hframe q hq1 hq3
      · intro hnone
        refine ⟨?_, ?_⟩
        · rw [hframe _ (append_singleton_ne _ _ _ _ (by decide))
            (append_singleton_ne _ _ _ _ (by decide))]
          exact hnone
        · exact hframe _ (append_singleton_ne _ _ _ _ (by decide))
            (append_singleton_ne _ _ _ _ (by decide))
      · intro hnone
        rw [List.find?_isSome] at hfind
        obtain ⟨e, he, hp⟩ := hfind
        have hne : fileAt fs (srcPath ++ ["App.css"]) ≠ none := by
          rw [fileAt]
          cases hf : fs.files.find? (fun e => e.1 = srcPath ++ ["App.css"]) with
          | none =>
              rw [List.find?_eq_none] at hf
              exact absurd hp (by simpa using hf e he)
          | some _ => simp
        exact absurd hnone hne
    · rw [if_neg hApp]
      by_cases hIdx : file = "index.css"
      · rw [if_pos hIdx]
        subst hIdx
        have hfind : (fs.files.find?
            (fun e => e.1 = srcPath ++ ["index.css"])).isSome := by
          rw [pathExistsFS, Bool.or_eq_true] at hex
          rcases hex with hex | hex
          · obtain ⟨e, he, hp⟩ := List.any_eq_true.1 hex
            cases hf : fs.files.find? (fun e => e.1 = srcPath ++ ["index.css"]) with
            | some _ => rfl
            | none =>
                rw [List.find?_eq_none] at hf
                exact absurd hp (by simpa using hf e he)
          · rw [hiI] at hex
            exact absurd hex (by simp)
        obtain ⟨fs', hok⟩ := (moveFileFS_ok_iff fs _ _).2 hfind
        obtain ⟨hframe, hdst, hsrc, hdirs⟩ := moveFileFS_spec _ _ _ _ hok
        refine ⟨fs', hok, ?_, ?_, ?_, ?_, ?_⟩
        · rw [hdirs]
          rcases (Decidable.em ((createDirectoryFS fs
            (dirname (d2 ++ ["index.css"]))).dirs.contains
              (srcPath ++ ["App.css"]) = true)) with hc | hc
          · rcases (dirs_createDirectoryFS _ _ _).1 hc with hc' | hc'
            · rw [hiA] at hc'; exact absurd hc' (by simp)
            · rw [dirname, List.dropLast_concat] at hc'
              exact absurd hc'.symm hB1
          · simpa using hc
        · rw [hdirs]
          rcases (Decidable.em ((createDirectoryFS fs
            (dirname (d2 ++ ["index.css"]))).dirs.contains
              (srcPath ++ ["index.css"]) = true)) with hc | hc
          · rcases (dirs_createDirectoryFS _ _ _).1 hc with hc' | hc'
            · rw [hiI] at hc'; exact absurd hc' (by simp)
            · rw [dirname, List.dropLast_concat] at hc'
              exact absurd hc'.symm hB2
          · simpa using hc
        · intro q hq1 hq2 _ hq4
          exact hframe q hq2 hq4
        · intro hnone
          rw [List.find?_isSome] at hfind
          obtain ⟨e, he, hp⟩ := hfind
          have : fileAt fs (srcPath ++ ["index.css"]) ≠ none := by
            rw [fileAt]
            cases hf : fs.files.find? (fun e => e.1 = srcPath ++ ["index.css"]) with
            | none =>
                rw [List.find?_eq_none] at hf
                exact absurd hp (by simpa using hf e he)
            | some _ => simp
          exact absurd hnone this
        · intro hnone
          refine ⟨?_, ?_⟩
          · rw [hframe _ (append_singleton_ne _ _ _ _ (by decide))
              (append_singleton_ne _ _ _ _ (by decide))]
            exact hnone
          · exact hframe _ (append_singleton_ne _ _ _ _ (by decide))
              (append_singleton_ne _ _ _ _ (by decide))
      · rw [if_neg hIdx]
        exact ⟨fs, rfl, hiA, hiI, fun q _ _ _ _ => rfl, fun h => ⟨h, rfl⟩,
          fun h => ⟨h, rfl⟩⟩

theorem reactMoveLoop_spec (srcPath d1 d2 : Path)
    (hA1 : d1 ≠ srcPath ++ ["App.css"]) (hA2 : d1 ≠ srcPath ++ ["index.css"])
    (hB1 : d2 ≠ srcPath ++ ["App.css"]) (hB2 : d2 ≠ srcPath ++ ["index.css"]) :
    ∀ (names : List String) (fs : FS),
      fs.dirs.contains (srcPath ++ ["App.css"]) = false →
      fs.dirs.contains (srcPath ++ ["index.css"]) = false →
      ∃ fs', names.foldlM (reactMoveStep srcPath d1 d2) fs = .ok fs' ∧
        (∀ q, q ≠ srcPath ++ ["App.css"] → q ≠ srcPath ++ ["index.css"] →
          q ≠ d1 ++ ["App.css"] → q ≠ d2 ++ ["index.css"] →
          fileAt fs' q = fileAt fs q) ∧
        (fileAt fs (srcPath ++ ["index.css"]) = none →
          fileAt fs' (d2 ++ ["index.css"]) = fileAt fs (d2 ++ ["index.css"])) ∧
        (fileAt fs (srcPath ++ ["App.css"]) = none →
          fileAt fs' (d1 ++ ["App.css"]) = fileAt fs (d1 ++ ["App.css"])) := by
  intro names
  induction names with
  | nil =>
      intro fs hiA hiI
      exact ⟨fs, rfl, fun q _ _ _ _ => rfl, fun _ => rfl, fun _ => rfl⟩
  | cons n rest ih =>
      intro fs hiA hiI
      obtain ⟨fs₁, hok₁, hiA₁, hiI₁, hframe₁, hnoneI₁, hnoneA₁⟩ :=
        reactMoveStep_spec srcPath d1 d2 fs n hA1 hA2 hB1 hB2 hiA hiI
      obtain ⟨fs₂, hok₂, hframe₂, hnoneI₂, hnoneA₂⟩ := ih fs₁ hiA₁ hiI₁
      refine ⟨fs₂, ?_, ?_, ?_, ?_⟩
      · rw [List.foldlM_cons, hok₁]
        exact hok₂
      · intro q h1 h2 h3 h4
        rw [hframe₂ q h1 h2 h3 h4, hframe₁ q h1 h2 h3 h4]
      · intro hnone
        obtain ⟨hsrc₁, hdst₁⟩ := hnoneI₁ hnone
        rw [hnoneI₂ hsrc₁, hdst₁]
      · intro hnone
        obtain ⟨hsrc₁, hdst₁⟩ := hnoneA₁ hnone
        rw [hnoneA₂ hsrc₁, hdst₁]

theorem updateAppCssImportsFS_frame (srcPath : Path) (cssPath arch : String)
    (fs : FS) (q : Path)
    (h1 : q ≠ srcPath ++ ["App.tsx"]) (h2 : q ≠ srcPath ++ ["App.jsx"])
    (h3 : q ≠ srcPath ++ ["App.svelte"]) :
    fileAt (updateAppCssImportsFS srcPath cssPath arch fs) q = fileAt fs q := by
  rw [updateAppCssImportsFS]
  cases fileAt fs (srcPath ++ ["App.tsx"]) with
  | some c => rw [fileAt_writeFileFS, if_neg h1]
  | none =>
      cases fileAt fs (srcPath ++ ["App.jsx"]) with
      | some c => rw [fileAt_writeFileFS, if_neg h2]
      | none =>
          cases fileAt fs (srcPath ++ ["App.svelte"]) with
          | some c => rw [fileAt_writeFileFS, if_neg h3]
          | none => rfl

theorem updateMainCssImportsFS_frame (srcPath : Path) (arch : String)
    (fs : FS) (q : Path)
    (h1 : q ≠ srcPath ++ ["main.tsx"]) (h2 : q ≠ srcPath ++ ["main.jsx"]) :
    fileAt (updateMainCssImportsFS srcPath arch fs) q = fileAt fs q := by
  rw [updateMainCssImportsFS]
  cases fileAt fs (srcPath ++ ["main.tsx"]) with
  | some c => rw [fileAt_writeFileFS, if_neg h1]
  | none =>
      cases fileAt fs (srcPath ++ ["main.jsx"]) with
      | some c => rw [fileAt_writeFileFS, if_neg h2]
      | none => rfl

theorem ne_append_singleton_self (p : Path) (a : String) : p ≠ p ++ [a] := by
  intro he
  have := congrArg List.length he
  simp at this

theorem updateSvelteAppImportsFS_frame (srcPath : Path) (rel : String)
    (fs : FS) (q : Path) (h1 : q ≠ srcPath ++ ["App.svelte"]) :
    fileAt (updateSvelteAppImportsFS srcPath rel fs) q = fileAt fs q := by
  rw [updateSvelteAppImportsFS]
  cases fileAt fs (srcPath ++ ["App.svelte"]) with
  | some c => rw [fileAt_writeFileFS, if_neg h1]
  | none => rfl

theorem updateSvelteCssImportFS_frame (srcPath : Path) (arch : String)
    (fs : FS) (q : Path) (h1 : q ≠ srcPath ++ ["main.ts"]) :
    fileAt (updateSvelteCssImportFS srcPath arch fs) q = fileAt fs q := by
  rw [updateSvelteCssImportFS]
  cases fileAt fs (srcPath ++ ["main.ts"]) with
  | some c => rw [fileAt_writeFileFS, if_neg h1]
  | none => rfl

theorem updateSvelteCssImportFS_dirs (srcPath : Path) (arch : String)
    (fs : FS) (q : Path) (h : fs.dirs.contains q = false) (hq : q ≠ srcPath) :
    (updateSvelteCssImportFS srcPath arch fs).dirs.contains q = false := by
  rw [updateSvelteCssImportFS]
  cases fileAt fs (srcPath ++ ["main.ts"]) with
  | some c =>
      show (createDirectoryFS fs (dirname (srcPath ++ ["main.ts"]))).dirs.contains
        q = false
      rcases Decidable.em ((createDirectoryFS fs
        (dirname (srcPath ++ ["main.ts"]))).dirs.contains q = true) with hc | hc
      · rcases (dirs_createDirectoryFS _ _ _).1 hc with hc' | hc'
        · rw [h] at hc'; exact absurd hc' (by simp)
        · rw [dirname, List.dropLast_concat] at hc'
          exact absurd hc' hq
      · simpa using hc
  | none => exact h

theorem contains_append_singleton (l : List Path) (p q : Path) (hq : q ≠ p) :
    (l ++ [p]).contains q = l.contains q := by
  rcases Decidable.em (l.contains q = true) with h | h
  · rw [h]
    have hm : q ∈ l ++ [p] := List.mem_append.2 (Or.inl (by simpa using h))
    simpa using hm
  · have h' : l.contains q = false := by simpa using h
    rw [h']
    rcases Decidable.em ((l ++ [p]).contains q = true) with h2 | h2
    · rcases List.mem_append.1 (by simpa using h2 : q ∈ l ++ [p]) with h3 | h3
      · exact absurd (by simpa using h3 : l.contains q = true) h
      · simp only [List.mem_singleton] at h3
        exact absurd h3 hq
    · simpa using h2

theorem dirs_createDirectoryFS_ne (fs : FS) (p q : Path) (hq : q ≠ p) :
    (createDirectoryFS fs p).dirs.contains q = fs.dirs.contains q := by
  rw [createDirectoryFS]
  by_cases h : fs.dirs.contains p = true
  · rw [if_pos h]
  · rw [if_neg h]
    exact contains_append_singleton _ _ _ hq

theorem svelteCounterMoveStep_spec (libPath dest : Path) (fs : FS)
    (file : String) (hd : dest ≠ libPath ++ ["Counter.svelte"])
    (hi : fs.dirs.contains (libPath ++ ["Counter.svelte"]) = false) :
    ∃ fs', svelteCounterMoveStep libPath dest fs file = .ok fs' ∧
      fs'.dirs.contains (libPath ++ ["Counter.svelte"]) = false ∧
      (∀ q, q ≠ libPath ++ ["Counter.svelte"] →
        q ≠ dest ++ ["Counter.svelte"] → fileAt fs' q = fileAt fs q) ∧
      (∀ q, q ≠ dest → fs'.dirs.contains q = fs.dirs.contains q) ∧
      (fileAt fs (libPath ++ ["Counter.svelte"]) = none →
        fileAt fs' (libPath ++ ["Counter.svelte"]) = none ∧
        fileAt fs' (dest ++ ["Counter.svelte"]) =
          fileAt fs (dest ++ ["Counter.svelte"])) := by
  rw [svelteCounterMoveStep]
  by_cases hskip : (!pathExistsFS fs (libPath ++ [file])) = true
  · rw [if_pos hskip]
    exact ⟨fs, rfl, hi, fun q _ _ => rfl, fun q _ => rfl, fun h => ⟨h, rfl⟩⟩
  · rw [if_neg hskip]
    have hex : pathExistsFS fs (libPath ++ [file]) = true := by
      simpa using hskip
    by_cases hC : file = "Counter.svelte"
    · rw [if_pos hC]
      subst hC
      have hfind : (fs.files.find?
          (fun e => e.1 = libPath ++ ["Counter.svelte"])).isSome := by
        rw [pathExistsFS, Bool.or_eq_true] at hex
        rcases hex with hex | hex
        · obtain ⟨e, he, hp⟩ := List.any_eq_true.1 hex
          cases hf : fs.files.find?
              (fun e => e.1 = libPath ++ ["Counter.svelte"]) with
          | some _ => rfl
          | none =>
              rw [List.find?_eq_none] at hf
              exact absurd hp (by simpa using hf e he)
        · rw [hi] at hex
          exact absurd hex (by simp)
      obtain ⟨fs', hok⟩ := (moveFileFS_ok_iff fs _ _).2 hfind
      obtain ⟨hframe, hdst, hsrc, hdirs⟩ := moveFileFS_spec _ _ _ _ hok
      refine ⟨fs', hok, ?_, ?_, ?_, ?_⟩
      · rw [hdirs]
        rcases Decidable.em ((createDirectoryFS fs
          (dirname (dest ++ ["Counter.svelte"]))).dirs.contains
            (libPath ++ ["Counter.svelte"]) = true) with hc | hc
        · rcases (dirs_createDirectoryFS _ _ _).1 hc with hc' | hc'
          · rw [hi] at hc'; exact absurd hc' (by simp)
          · rw [dirname, List.dropLast_concat] at hc'
            exact absurd hc'.symm hd
        · simpa using hc
      · intro q hq1 hq2
        exact hframe q hq1 hq2
      · intro q hq
        rw [hdirs]
        have hdd : dirname (dest ++ ["Counter.svelte"]) = dest := by
          rw [dirname, List.dropLast_concat]
        rw [hdd]
        exact dirs_createDirectoryFS_ne _ _ _ hq
      · intro hnone
        rw [List.find?_isSome] at hfind
        obtain ⟨e, he, hp⟩ := hfind
        have hcontra : fileAt fs (libPath ++ ["Counter.svelte"]) ≠ none := by
          rw [fileAt]
          cases hf : fs.files.find?
              (fun e => e.1 = libPath ++ ["Counter.svelte"]) with
          | none =>
              rw [List.find?_eq_none] at hf
              exact absurd hp (by simpa using hf e he)
          | some _ => simp
        exact absurd hnone hcontra
    · rw [if_neg hC]
      exact ⟨fs, rfl, hi, fun q _ _ => rfl, fun q _ => rfl, fun h => ⟨h, rfl⟩⟩

theorem svelteCounterMoveLoop_spec (libPath dest : Path)
    (hd : dest ≠ libPath ++ ["Counter.svelte"]) :
    ∀ (names : List String) (fs : FS),
      fs.dirs.contains (libPath ++ ["Counter.svelte"]) = false →
      ∃ fs', names.foldlM (svelteCounterMoveStep libPath dest) fs = .ok fs' ∧
        (∀ q, q ≠ libPath ++ ["Counter.svelte"] →
          q ≠ dest ++ ["Counter.svelte"] → fileAt fs' q = fileAt fs q) ∧
        (∀ q, q ≠ dest → fs'.dirs.contains q = fs.dirs.contains q) ∧
        (fileAt fs (libPath ++ ["Counter.svelte"]) = none →
          fileAt fs' (dest ++ ["Counter.svelte"]) =
            fileAt fs (dest ++ ["Counter.svelte"])) := by
  intro names
  induction names with
  | nil =>
      intro fs hi
      exact ⟨fs, rfl, fun q _ _ => rfl, fun q _ => rfl, fun _ => rfl⟩
  | cons n rest ih =>
      intro fs hi
      obtain ⟨fs₁, hok₁, hi₁, hframe₁, hdirs₁, hnone₁⟩ :=
        svelteCounterMoveStep_spec libPath dest fs n hd hi
      obtain ⟨fs₂, hok₂, hframe₂, hdirs₂, hnone₂⟩ := ih fs₁ hi₁
      refine ⟨fs₂, ?_, ?_, ?_, ?_⟩
      · rw [List.foldlM_cons, hok₁]
        exact hok₂
      · intro q h1 h2
        rw [hframe₂ q h1 h2, hframe₁ q h1 h2]
      · intro q hq
        rw [hdirs₂ q hq, hdirs₁ q hq]
      · intro hnone
        obtain ⟨hsrc₁, hdst₁⟩ := hnone₁ hnone
        rw [hnone₂ hsrc₁, hdst₁]

theorem svelteCssMoveStep_spec (srcPath libPath : Path) (arch : String)
    (fs : FS) (file : String)
    (hd : libPath ++ ["shared", "styles"] ≠ srcPath ++ ["app.css"])
    (hm : srcPath ≠ srcPath ++ ["app.css"])
    (hi : fs.dirs.contains (srcPath ++ ["app.css"]) = false) :
    ∃ fs', svelteCssMoveStep srcPath libPath arch fs file = .ok fs' ∧
      fs'.dirs.contains (srcPath ++ ["app.css"]) = false ∧
      (∀ q, q ≠ srcPath ++ ["app.css"] →
        q ≠ libPath ++ ["shared", "styles", "app.css"] →
        q ≠ srcPath ++ ["main.ts"] → fileAt fs' q = fileAt fs q) ∧
      (fileAt fs (srcPath ++ ["app.css"]) = none →
        fileAt fs' (srcPath ++ ["app.css"]) = none ∧
        fileAt fs' (libPath ++ ["shared", "styles", "app.css"]) =
          fileAt fs (libPath ++ ["shared", "styles", "app.css"])) := by
  rw [svelteCssMoveStep]
  by_cases hskip : !(pathExistsFS fs (srcPath ++ [file])) || file = "assets" ||
      file = "lib" || file = "features"
  · rw [if_pos hskip]
    exact ⟨fs, rfl, hi, fun q _ _ _ => rfl, fun h => ⟨h, rfl⟩⟩
  · rw [if_neg hskip]
    have hex : pathExistsFS fs (srcPath ++ [file]) = true := by
      have hbig : (!pathExistsFS fs (srcPath ++ [file]) || file = "assets" ||
          file = "lib" || file = "features") = false := by
        simpa using hskip
      simp only [Bool.or_eq_false_iff] at hbig
      simpa using hbig.1.1.1
    by_cases hA : file = "app.css"
    · rw [if_pos hA]
      subst hA
      have hfind : (fs.files.find?
          (fun e => e.1 = srcPath ++ ["app.css"])).isSome := by
        rw [pathExistsFS, Bool.or_eq_true] at hex
        rcases hex with hex | hex
        · obtain ⟨e, he, hp⟩ := List.any_eq_true.1 hex
          cases hf : fs.files.find? (fun e => e.1 = srcPath ++ ["app.css"]) with
          | some _ => rfl
          | none =>
              rw [List.find?_eq_none] at hf
              exact absurd hp (by simpa using hf e he)
        · rw [hi] at hex
          exact absurd hex (by simp)
      obtain ⟨fs₁, hok⟩ := (moveFileFS_ok_iff fs _ _).2 hfind
      obtain ⟨hframe, hdst, hsrc, hdirs⟩ := moveFileFS_spec _ _ _ _ hok
      have hbind : (do
          let fsx ← moveFileFS fs (srcPath ++ ["app.css"])
            (libPath ++ ["shared", "styles", "app.css"])
          Except.ok (updateSvelteCssImportFS srcPath arch fsx) :
            Except String FS) =
          Except.ok (updateSvelteCssImportFS srcPath arch fs₁) := by
        rw [hok]
        rfl
      refine ⟨updateSvelteCssImportFS srcPath arch fs₁, hbind, ?_, ?_, ?_⟩
      · refine updateSvelteCssImportFS_dirs _ _ _ _ ?_ (Ne.symm hm)
        rw [hdirs]
        rcases Decidable.em ((createDirectoryFS fs
          (dirname (libPath ++ ["shared", "styles", "app.css"]))).dirs.contains
            (srcPath ++ ["app.css"]) = true) with hc | hc
        · rcases (dirs_createDirectoryFS _ _ _).1 hc with hc' | hc'
          · rw [hi] at hc'; exact absurd hc' (by simp)
          · have hdd : dirname (libPath ++ ["shared", "styles", "app.css"]) =
                libPath ++ ["shared", "styles"] := by
              simp [dirname]
            rw [hdd] at hc'
            exact absurd hc'.symm hd
        · simpa using hc
      · intro q hq1 hq2 hq3
        rw [updateSvelteCssImportFS_frame _ _ _ _ hq3]
        exact hframe q hq1 hq2
      · intro hnone
        rw [List.find?_isSome] at hfind
        obtain ⟨e, he, hp⟩ := hfind
        have hcontra : fileAt fs (srcPath ++ ["app.css"]) ≠ none := by
          rw [fileAt]
          cases hf : fs.files.find? (fun e => e.1 = srcPath ++ ["app.css"]) with
          | none =>
              rw [List.find?_eq_none] at hf
              exact absurd hp (by simpa using hf e he)
          | some _ => simp
        exact absurd hnone hcontra
    · rw [if_neg hA]
      exact ⟨fs, rfl, hi, fun q _ _ _ => rfl, fun h => ⟨h, rfl⟩⟩

theorem svelteCssMoveLoop_spec (srcPath libPath : Path) (arch : String)
    (hd : libPath ++ ["shared", "styles"] ≠ srcPath ++ ["app.css"])
    (hm : srcPath ≠ srcPath ++ ["app.css"]) :
    ∀ (names : List String) (fs : FS),
      fs.dirs.contains (srcPath ++ ["app.css"]) = false →
      ∃ fs', names.foldlM (svelteCssMoveStep srcPath libPath arch) fs = .ok fs' ∧
        (∀ q, q ≠ srcPath ++ ["app.css"] →
          q ≠ libPath ++ ["shared", "styles", "app.css"] →
          q ≠ srcPath ++ ["main.ts"] → fileAt fs' q = fileAt fs q) ∧
        (fileAt fs (srcPath ++ ["app.css"]) = none →
          fileAt fs' (libPath ++ ["shared", "styles", "app.css"]) =
            fileAt fs (libPath ++ ["shared", "styles", "app.css"])) := by
  intro names
  induction names with
  | nil =>
      intro fs hi
      exact ⟨fs, rfl, fun q _ _ _ => rfl, fun _ => rfl⟩
  | cons n rest ih =>
      intro fs hi
      obtain ⟨fs₁, hok₁, hi₁, hframe₁, hnone₁⟩ :=
        svelteCssMoveStep_spec srcPath libPath arch fs n hd hm hi
      obtain ⟨fs₂, hok₂, hframe₂, hnone₂⟩ := ih fs₁ hi₁
      refine ⟨fs₂, ?_, ?_, ?_⟩
      · rw [List.foldlM_cons, hok₁]
        exact hok₂
      · intro q h1 h2 h3
        rw [hframe₂ q h1 h2 h3, hframe₁ q h1 h2 h3]
      · intro hnone
        obtain ⟨hsrc₁, hdst₁⟩ := hnone₁ hnone
        rw [hnone₂ hsrc₁, hdst₁]

theorem append_suffix_ne (base : Path) (u v : List String) (h : u ≠ v) :
    base ++ u ≠ base ++ v :=
  fun he => h (List.append_cancel_left he)

theorem reorganizeReact_spec (srcPath : Path) (architecture : String) (fs : FS)
    (hiA : fs.dirs.contains (srcPath ++ ["App.css"]) = false)
    (hiI : fs.dirs.contains (srcPath ++ ["index.css"]) = false) :
    ∃ fs', reorganizeReactProjectFS srcPath architecture fs = .ok fs' ∧
      (fileAt fs (srcPath ++ ["index.css"]) = none →
        fileAt fs' (srcPath ++ ["shared", "styles", "index.css"]) =
          fileAt fs (srcPath ++ ["shared", "styles", "index.css"]) ∧
        fileAt fs' (srcPath ++ ["styles", "index.css"]) =
          fileAt fs (srcPath ++ ["styles", "index.css"])) ∧
      (fileAt fs (srcPath ++ ["App.css"]) = none →
        fileAt fs' (srcPath ++ ["features", "example", "styles", "App.css"]) =
          fileAt fs (srcPath ++ ["features", "example", "styles", "App.css"]) ∧
        fileAt fs' (srcPath ++ ["styles", "App.css"]) =
          fileAt fs (srcPath ++ ["styles", "App.css"])) ∧
      (∀ q, q ∉ [srcPath ++ ["App.css"], srcPath ++ ["index.css"],
          srcPath ++ ["features", "example", "styles", "App.css"],
          srcPath ++ ["shared", "styles", "index.css"],
          srcPath ++ ["styles", "App.css"], srcPath ++ ["styles", "index.css"],
          srcPath ++ ["App.tsx"], srcPath ++ ["App.jsx"],
          srcPath ++ ["App.svelte"], srcPath ++ ["main.tsx"],
          srcPath ++ ["main.jsx"]] →
        fileAt fs' q = fileAt fs q) := by
  by_cases harch : architecture = "feature-based"
  · subst harch
    set fs₁ := createDirsFS fs
      [srcPath ++ ["features", "example", "components"],
       srcPath ++ ["features", "example", "hooks"],
       srcPath ++ ["features", "example", "utils"],
       srcPath ++ ["features", "example", "styles"],
       srcPath ++ ["shared", "components"], srcPath ++ ["shared", "hooks"],
       srcPath ++ ["shared", "utils"], srcPath ++ ["shared", "styles"]] with hfs₁
    have hiA₁ : fs₁.dirs.contains (srcPath ++ ["App.css"]) = false := by
      rcases Decidable.em (fs₁.dirs.contains (srcPath ++ ["App.css"]) = true)
        with hc | hc
      · rw [hfs₁] at hc
        rcases (dirs_createDirsFS _ _ _).1 hc with hc' | hc'
        · rw [hiA] at hc'; exact absurd hc' (by simp)
        · simp only [List.mem_cons, List.not_mem_nil, or_false] at hc'
          rcases hc' with h|h|h|h|h|h|h|h <;>
            exact absurd (List.append_cancel_left h) (by decide)
      · simpa using hc
    have hiI₁ : fs₁.dirs.contains (srcPath ++ ["index.css"]) = false := by
      rcases Decidable.em (fs₁.dirs.contains (srcPath ++ ["index.css"]) = true)
        with hc | hc
      · rw [hfs₁] at hc
        rcases (dirs_createDirsFS _ _ _).1 hc with hc' | hc'
        · rw [hiI] at hc'; exact absurd hc' (by simp)
        · simp only [List.mem_cons, List.not_mem_nil, or_false] at hc'
          rcases hc' with h|h|h|h|h|h|h|h <;>
            exact absurd (List.append_cancel_left h) (by decide)
      · simpa using hc
    obtain ⟨fs₂, hok₂, hframe₂, hnoneI₂, hnoneA₂⟩ := reactMoveLoop_spec srcPath
      (srcPath ++ ["features", "example", "styles"])
      (srcPath ++ ["shared", "styles"])
      (append_suffix_ne _ _ _ (by decide)) (append_suffix_ne _ _ _ (by decide))
      (append_suffix_ne _ _ _ (by decide)) (append_suffix_ne _ _ _ (by decide))
      (childNames fs srcPath) fs₁ hiA₁ hiI₁
    simp only [List.append_assoc, List.cons_append, List.nil_append]
      at hframe₂ hnoneI₂ hnoneA₂
    have hfile₁ : ∀ q, fileAt fs₁ q = fileAt fs q := by
      intro q
      rw [hfs₁, fileAt_createDirsFS]
    have hrun : reorganizeReactProjectFS srcPath "feature-based" fs =
        Except.ok (updateMainCssImportsFS srcPath "feature-based"
          (updateAppCssImportsFS srcPath "features/example/styles"
            "feature-based" fs₂)) := by
      simp only [reorganizeReactProjectFS]
      rw [if_pos trivial, ← hfs₁, hok₂]
      rfl
    refine ⟨_, hrun, ?_, ?_, ?_⟩
    · intro hnone
      have hd := hnoneI₂ (by rw [hfile₁]; exact hnone)
      constructor
      · rw [updateMainCssImportsFS_frame _ _ _ _
            (append_suffix_ne _ _ _ (by decide))
            (append_suffix_ne _ _ _ (by decide)),
          updateAppCssImportsFS_frame _ _ _ _ _
            (append_suffix_ne _ _ _ (by decide))
            (append_suffix_ne _ _ _ (by decide))
            (append_suffix_ne _ _ _ (by decide)),
          hd, hfile₁]
      · rw [updateMainCssImportsFS_frame _ _ _ _
            (append_suffix_ne _ _ _ (by decide))
            (append_suffix_ne _ _ _ (by decide)),
          updateAppCssImportsFS_frame _ _ _ _ _
            (append_suffix_ne _ _ _ (by decide))
            (append_suffix_ne _ _ _ (by decide))
            (append_suffix_ne _ _ _ (by decide)),
          hframe₂ _ (append_suffix_ne _ _ _ (by decide))
            (append_suffix_ne _ _ _ (by decide))
            (append_suffix_ne _ _ _ (by decide))
            (append_suffix_ne _ _ _ (by decide)),
          hfile₁]
    · intro hnone
      have hd := hnoneA₂ (by rw [hfile₁]; exact hnone)
      constructor
      · rw [updateMainCssImportsFS_frame _ _ _ _
            (append_suffix_ne _ _ _ (by decide))
            (append_suffix_ne _ _ _ (by decide)),
          updateAppCssImportsFS_frame _ _ _ _ _
            (append_suffix_ne _ _ _ (by decide))
            (append_suffix_ne _ _ _ (by decide))
            (append_suffix_ne _ _ _ (by decide)),
          hd, hfile₁]
      · rw [updateMainCssImportsFS_frame _ _ _ _
            (append_suffix_ne _ _ _ (by decide))
            (append_suffix_ne _ _ _ (by decide)),
          updateAppCssImportsFS_frame _ _ _ _ _
            (append_suffix_ne _ _ _ (by decide))
            (append_suffix_ne _ _ _ (by decide))
            (append_suffix_ne _ _ _ (by decide)),
          hframe₂ _ (append_suffix_ne _ _ _ (by decide))
            (append_suffix_ne _ _ _ (by decide))
            (append_suffix_ne _ _ _ (by decide))
            (append_suffix_ne _ _ _ (by decide)),
          hfile₁]
    · intro q hq
      simp only [List.mem_cons, List.not_mem_nil, or_false] at hq
      push_neg at hq
      obtain ⟨n₁, n₂, n₃, n₄, n₅, n₆, n₇, n₈, n₉, n₁₀, n₁₁⟩ := hq
      rw [updateMainCssImportsFS_frame _ _ _ _ n₁₀ n₁₁,
        updateAppCssImportsFS_frame _ _ _ _ _ n₇ n₈ n₉,
        hframe₂ _ n₁ n₂ n₃ n₄, hfile₁]
  · set fs₁ := createDirsFS fs
      [srcPath ++ ["components", "common"], srcPath ++ ["components", "layout"],
       srcPath ++ ["hooks"], srcPath ++ ["utils"], srcPath ++ ["styles"]]
      with hfs₁
    have hiA₁ : fs₁.dirs.contains (srcPath ++ ["App.css"]) = false := by
      rcases Decidable.em (fs₁.dirs.contains (srcPath ++ ["App.css"]) = true)
        with hc | hc
      · rw [hfs₁] at hc
        rcases (dirs_createDirsFS _ _ _).1 hc with hc' | hc'
        · rw [hiA] at hc'; exact absurd hc' (by simp)
        · simp only [List.mem_cons, List.not_mem_nil, or_false] at hc'
          rcases hc' with h|h|h|h|h <;>
            exact absurd (List.append_cancel_left h) (by decide)
      · simpa using hc
    have hiI₁ : fs₁.dirs.contains (srcPath ++ ["index.css"]) = false := by
      rcases Decidable.em (fs₁.dirs.contains (srcPath ++ ["index.css"]) = true)
        with hc | hc
      · rw [hfs₁] at hc
        rcases (dirs_createDirsFS _ _ _).1 hc with hc' | hc'
        · rw [hiI] at hc'; exact absurd hc' (by simp)
        · simp only [List.mem_cons, List.not_mem_nil, or_false] at hc'
          rcases hc' with h|h|h|h|h <;>
            exact absurd (List.append_cancel_left h) (by decide)
      · simpa using hc
    obtain ⟨fs₂, hok₂, hframe₂, hnoneI₂, hnoneA₂⟩ := reactMoveLoop_spec srcPath
      (srcPath ++ ["styles"]) (srcPath ++ ["styles"])
      (append_suffix_ne _ _ _ (by decide)) (append_suffix_ne _ _ _ (by decide))
      (append_suffix_ne _ _ _ (by decide)) (append_suffix_ne _ _ _ (by decide))
      (childNames fs srcPath) fs₁ hiA₁ hiI₁
    simp only [List.append_assoc, List.cons_append, List.nil_append]
      at hframe₂ hnoneI₂ hnoneA₂
    have hfile₁ : ∀ q, fileAt fs₁ q = fileAt fs q := by
      intro q
      rw [hfs₁, fileAt_createDirsFS]
    have hrun : reorganizeReactProjectFS srcPath architecture fs =
        Except.ok (updateMainCssImportsFS srcPath architecture
          (updateAppCssImportsFS srcPath "styles" architecture fs₂)) := by
      simp only [reorganizeReactProjectFS]
      rw [if_neg harch, ← hfs₁, hok₂]
      rfl
    refine ⟨_, hrun, ?_, ?_, ?_⟩
    · intro hnone
      have hd := hnoneI₂ (by rw [hfile₁]; exact hnone)
      constructor
      · rw [updateMainCssImportsFS_frame _ _ _ _
            (append_suffix_ne _ _ _ (by decide))
            (append_suffix_ne _ _ _ (by decide)),
          updateAppCssImportsFS_frame _ _ _ _ _
            (append_suffix_ne _ _ _ (by decide))
            (append_suffix_ne _ _ _ (by decide))
            (append_suffix_ne _ _ _ (by decide)),
          hframe₂ _ (append_suffix_ne _ _ _ (by decide))
            (append_suffix_ne _ _ _ (by decide))
            (append_suffix_ne _ _ _ (by decide))
            (append_suffix_ne _ _ _ (by decide)),
          hfile₁]
      · rw [updateMainCssImportsFS_frame _ _ _ _
            (append_suffix_ne _ _ _ (by decide))
            (append_suffix_ne _ _ _ (by decide)),
          updateAppCssImportsFS_frame _ _ _ _ _
            (append_suffix_ne _ _ _ (by decide))
            (append_suffix_ne _ _ _ (by decide))
            (append_suffix_ne _ _ _ (by decide)),
          hd, hfile₁]
    · intro hnone
      have hd := hnoneA₂ (by rw [hfile₁]; exact hnone)
      constructor
      · rw [updateMainCssImportsFS_frame _ _ _ _
            (append_suffix_ne _ _ _ (by decide))
            (append_suffix_ne _ _ _ (by decide)),
          updateAppCssImportsFS_frame _ _ _ _ _
            (append_suffix_ne _ _ _ (by decide))
            (append_suffix_ne _ _ _ (by decide))
            (append_suffix_ne _ _ _ (by decide)),
          hframe₂ _ (append_suffix_ne _ _ _ (by decide))
            (append_suffix_ne _ _ _ (by decide))
            (append_suffix_ne _ _ _ (by decide))
            (append_suffix_ne _ _ _ (by decide)),
          hfile₁]
      · rw [updateMainCssImportsFS_frame _ _ _ _
            (append_suffix_ne _ _ _ (by decide))
            (append_suffix_ne _ _ _ (by decide)),
          updateAppCssImportsFS_frame _ _ _ _ _
            (append_suffix_ne _ _ _ (by decide))
            (append_suffix_ne _ _ _ (by decide))
            (append_suffix_ne _ _ _ (by decide)),
          hd, hfile₁]
    · intro q hq
      simp only [List.mem_cons, List.not_mem_nil, or_false] at hq
      push_neg at hq
      obtain ⟨n₁, n₂, n₃, n₄, n₅, n₆, n₇, n₈, n₉, n₁₀, n₁₁⟩ := hq
      rw [updateMainCssImportsFS_frame _ _ _ _ n₁₀ n₁₁,
        updateAppCssImportsFS_frame _ _ _ _ _ n₇ n₈ n₉,
        hframe₂ _ n₁ n₂ n₅ n₆, hfile₁]

theorem updateSvelteAppImportsFS_dirs (srcPath : Path) (rel : String)
    (fs : FS) (q : Path) (h : fs.dirs.contains q = false) (hq : q ≠ srcPath) :
    (updateSvelteAppImportsFS srcPath rel fs).dirs.contains q = false := by
  rw [updateSvelteAppImportsFS]
  cases fileAt fs (srcPath ++ ["App.svelte"]) with
  | some c =>
      show (createDirectoryFS fs (dirname (srcPath ++ ["App.svelte"]))).dirs.contains
        q = false
      rcases Decidable.em ((createDirectoryFS fs
        (dirname (srcPath ++ ["App.svelte"]))).dirs.contains q = true) with hc | hc
      · rcases (dirs_createDirectoryFS _ _ _).1 hc with hc' | hc'
        · rw [h] at hc'; exact absurd hc' (by simp)
        · rw [dirname, List.dropLast_concat] at hc'
          exact absurd hc' hq
      · simpa using hc
  | none => exact h

theorem reorganizeSvelte_spec (srcPath : Path) (architecture : String) (fs : FS)
    (hiC : fs.dirs.contains (srcPath ++ ["lib", "Counter.svelte"]) = false)
    (hiA : fs.dirs.contains (srcPath ++ ["app.css"]) = false) :
    ∃ fs', reorganizeSvelteProjectFS srcPath architecture fs = .ok fs' ∧
      (fileAt fs (srcPath ++ ["lib", "Counter.svelte"]) = none →
        fileAt fs' (srcPath ++ ["lib", "shared", "components", "Counter.svelte"]) =
          fileAt fs (srcPath ++ ["lib", "shared", "components", "Counter.svelte"]) ∧
        fileAt fs' (srcPath ++ ["lib", "components", "common", "Counter.svelte"]) =
          fileAt fs (srcPath ++ ["lib", "components", "common", "Counter.svelte"])) ∧
      (fileAt fs (srcPath ++ ["app.css"]) = none →
        fileAt fs' (srcPath ++ ["lib", "shared", "styles", "app.css"]) =
          fileAt fs (srcPath ++ ["lib", "shared", "styles", "app.css"])) ∧
      (∀ q, q ∉ [srcPath ++ ["lib", "Counter.svelte"],
          srcPath ++ ["lib", "shared", "components", "Counter.svelte"],
          srcPath ++ ["lib", "components", "common", "Counter.svelte"],
          srcPath ++ ["App.svelte"], srcPath ++ ["app.css"],
          srcPath ++ ["lib", "shared", "styles", "app.css"],
          srcPath ++ ["main.ts"]] →
        fileAt fs' q = fileAt fs q) := by
  have hdA : (srcPath ++ ["lib"]) ++ ["shared", "components"] ≠
      (srcPath ++ ["lib"]) ++ ["Counter.svelte"] :=
    append_suffix_ne _ _ _ (by decide)
  have hdB : (srcPath ++ ["lib"]) ++ ["components", "common"] ≠
      (srcPath ++ ["lib"]) ++ ["Counter.svelte"] :=
    append_suffix_ne _ _ _ (by decide)
  have hcv : ∀ u : List String, (srcPath ++ ["lib"]) ++ u =
      srcPath ++ ("lib" :: u) := by
    intro u
    simp
  by_cases harch : architecture = "feature-based"
  · subst harch
    set fs₁ := createDirsFS fs
      [srcPath ++ ["features", "example", "components"],
       srcPath ++ ["features", "example", "stores"],
       srcPath ++ ["features", "example", "utils"],
       (srcPath ++ ["lib"]) ++ ["shared", "components"],
       (srcPath ++ ["lib"]) ++ ["shared", "stores"],
       (srcPath ++ ["lib"]) ++ ["shared", "utils"],
       (srcPath ++ ["lib"]) ++ ["shared", "styles"]] with hfs₁
    have hiC₁ : fs₁.dirs.contains ((srcPath ++ ["lib"]) ++
        ["Counter.svelte"]) = false := by
      rw [hcv]
      rcases Decidable.em (fs₁.dirs.contains
        (srcPath ++ ["lib", "Counter.svelte"]) = true) with hc | hc
      · rw [hfs₁] at hc
        rcases (dirs_createDirsFS _ _ _).1 hc with hc' | hc'
        · rw [hiC] at hc'; exact absurd hc' (by simp)
        · simp only [List.mem_cons, List.not_mem_nil, or_false,
            List.append_assoc, List.cons_append, List.nil_append] at hc'
          rcases hc' with h|h|h|h|h|h|h <;>
            exact absurd (List.append_cancel_left h) (by decide)
      · simpa using hc
    have hiA₁ : fs₁.dirs.contains (srcPath ++ ["app.css"]) = false := by
      rcases Decidable.em (fs₁.dirs.contains
        (srcPath ++ ["app.css"]) = true) with hc | hc
      · rw [hfs₁] at hc
        rcases (dirs_createDirsFS _ _ _).1 hc with hc' | hc'
        · rw [hiA] at hc'; exact absurd hc' (by simp)
        · simp only [List.mem_cons, List.not_mem_nil, or_false,
            List.append_assoc, List.cons_append, List.nil_append] at hc'
          rcases hc' with h|h|h|h|h|h|h <;>
            exact absurd (List.append_cancel_left h) (by decide)
      · simpa using hc
    obtain ⟨fs₂, hok₂, hframe₂, hdirs₂, hnone₂⟩ := svelteCounterMoveLoop_spec
      (srcPath ++ ["lib"]) ((srcPath ++ ["lib"]) ++ ["shared", "components"])
      hdA (childNames fs (srcPath ++ ["lib"])) fs₁ hiC₁
    simp only [List.append_assoc, List.cons_append, List.nil_append]
      at hframe₂ hnone₂
    have hfile₁ : ∀ q, fileAt fs₁ q = fileAt fs q := by
      intro q
      rw [hfs₁, fileAt_createDirsFS]
    set fs₃ := updateSvelteAppImportsFS srcPath "lib/shared/components" fs₂
      with hfs₃
    have hiA₂ : fs₂.dirs.contains (srcPath ++ ["app.css"]) = false := by
      rw [hdirs₂ _ (by rw [hcv]; exact append_suffix_ne _ _ _ (by decide))]
      exact hiA₁
    have hiA₃ : fs₃.dirs.contains (srcPath ++ ["app.css"]) = false := by
      rw [hfs₃]
      exact updateSvelteAppImportsFS_dirs _ _ _ _ hiA₂
        (Ne.symm (ne_append_singleton_self _ _))
    obtain ⟨fs₄, hok₄, hframe₄, hnone₄⟩ := svelteCssMoveLoop_spec srcPath
      (srcPath ++ ["lib"]) "feature-based"
      (by rw [hcv]; exact append_suffix_ne _ _ _ (by decide))
      (ne_append_singleton_self _ _) (childNames fs₃ srcPath) fs₃ hiA₃
    simp only [List.append_assoc, List.cons_append, List.nil_append]
      at hframe₄ hnone₄
    have hrun : reorganizeSvelteProjectFS srcPath "feature-based" fs =
        Except.ok fs₄ := by
      simp only [reorganizeSvelteProjectFS]
      rw [if_pos trivial, ← hfs₁, hok₂]
      exact hok₄
    refine ⟨fs₄, hrun, ?_, ?_, ?_⟩
    · intro hnone
      have hd := hnone₂ (by rw [hfile₁]; exact hnone)
      constructor
      · rw [hframe₄ _ (append_suffix_ne _ _ _ (by decide))
            (append_suffix_ne _ _ _ (by decide))
            (append_suffix_ne _ _ _ (by decide)),
          hfs₃, updateSvelteAppImportsFS_frame _ _ _ _
            (append_suffix_ne _ _ _ (by decide)),
          hd, hfile₁]
      · rw [hframe₄ _ (append_suffix_ne _ _ _ (by decide))
            (append_suffix_ne _ _ _ (by decide))
            (append_suffix_ne _ _ _ (by decide)),
          hfs₃, updateSvelteAppImportsFS_frame _ _ _ _
            (append_suffix_ne _ _ _ (by decide)),
          hframe₂ _ (append_suffix_ne _ _ _ (by decide))
            (append_suffix_ne _ _ _ (by decide)),
          hfile₁]
    · intro hnone
      have hA₃ : fileAt fs₃ (srcPath ++ ["app.css"]) = none := by
        rw [hfs₃, updateSvelteAppImportsFS_frame _ _ _ _
            (append_suffix_ne _ _ _ (by decide)),
          hframe₂ _ (append_suffix_ne _ _ _ (by decide))
            (append_suffix_ne _ _ _ (by decide)),
          hfile₁]
        exact hnone
      rw [hnone₄ hA₃, hfs₃, updateSvelteAppImportsFS_frame _ _ _ _
          (append_suffix_ne _ _ _ (by decide)),
        hframe₂ _ (append_suffix_ne _ _ _ (by decide))
          (append_suffix_ne _ _ _ (by decide)),
        hfile₁]
    · intro q hq
      simp only [List.mem_cons, List.not_mem_nil, or_false] at hq
      push_neg at hq
      obtain ⟨n₁, n₂, n₃, n₄, n₅, n₆, n₇⟩ := hq
      rw [hframe₄ _ n₅ n₆ n₇, hfs₃,
        updateSvelteAppImportsFS_frame _ _ _ _ n₄, hframe₂ _ n₁ n₂, hfile₁]
  · set fs₁ := createDirsFS fs
      [(srcPath ++ ["lib"]) ++ ["components", "common"],
       (srcPath ++ ["lib"]) ++ ["components", "layout"],
       (srcPath ++ ["lib"]) ++ ["stores"], (srcPath ++ ["lib"]) ++ ["utils"],
       (srcPath ++ ["lib"]) ++ ["styles"]] with hfs₁
    have hiC₁ : fs₁.dirs.contains ((srcPath ++ ["lib"]) ++
        ["Counter.svelte"]) = false := by
      rw [hcv]
      rcases Decidable.em (fs₁.dirs.contains
        (srcPath ++ ["lib", "Counter.svelte"]) = true) with hc | hc
      · rw [hfs₁] at hc
        rcases (dirs_createDirsFS _ _ _).1 hc with hc' | hc'
        · rw [hiC] at hc'; exact absurd hc' (by simp)
        · simp only [List.mem_cons, List.not_mem_nil, or_false,
            List.append_assoc, List.cons_append, List.nil_append] at hc'
          rcases hc' with h|h|h|h|h <;>
            exact absurd (List.append_cancel_left h) (by decide)
      · simpa using hc
    have hiA₁ : fs₁.dirs.contains (srcPath ++ ["app.css"]) = false := by
      rcases Decidable.em (fs₁.dirs.contains
        (srcPath ++ ["app.css"]) = true) with hc | hc
      · rw [hfs₁] at hc
        rcases (dirs_createDirsFS _ _ _).1 hc with hc' | hc'
        · rw [hiA] at hc'; exact absurd hc' (by simp)
        · simp only [List.mem_cons, List.not_mem_nil, or_false,
            List.append_assoc, List.cons_append, List.nil_append] at hc'
          rcases hc' with h|h|h|h|h <;>
            exact absurd (List.append_cancel_left h) (by decide)
      · simpa using hc
    obtain ⟨fs₂, hok₂, hframe₂, hdirs₂, hnone₂⟩ := svelteCounterMoveLoop_spec
      (srcPath ++ ["lib"]) ((srcPath ++ ["lib"]) ++ ["components", "common"])
      hdB (childNames fs (srcPath ++ ["lib"])) fs₁ hiC₁
    simp only [List.append_assoc, List.cons_append, List.nil_append]
      at hframe₂ hnone₂
    have hfile₁ : ∀ q, fileAt fs₁ q = fileAt fs q := by
      intro q
      rw [hfs₁, fileAt_createDirsFS]
    set fs₃ := updateSvelteAppImportsFS srcPath "lib/components/common" fs₂
      with hfs₃
    have hiA₂ : fs₂.dirs.contains (srcPath ++ ["app.css"]) = false := by
      rw [hdirs₂ _ (by rw [hcv]; exact append_suffix_ne _ _ _ (by decide))]
      exact hiA₁
    have hiA₃ : fs₃.dirs.contains (srcPath ++ ["app.css"]) = false := by
      rw [hfs₃]
      exact updateSvelteAppImportsFS_dirs _ _ _ _ hiA₂
        (Ne.symm (ne_append_singleton_self _ _))
    obtain ⟨fs₄, hok₄, hframe₄, hnone₄⟩ := svelteCssMoveLoop_spec srcPath
      (srcPath ++ ["lib"]) architecture
      (by rw [hcv]; exact append_suffix_ne _ _ _ (by decide))
      (ne_append_singleton_self _ _) (childNames fs₃ srcPath) fs₃ hiA₃
    simp only [List.append_assoc, List.cons_append, List.nil_append]
      at hframe₄ hnone₄
    have hrun : reorganizeSvelteProjectFS srcPath architecture fs =
        Except.ok fs₄ := by
      simp only [reorganizeSvelteProjectFS]
      rw [if_neg harch, ← hfs₁, hok₂]
      exact hok₄
    refine ⟨fs₄, hrun, ?_, ?_, ?_⟩
    · intro hnone
      have hd := hnone₂ (by rw [hfile₁]; exact hnone)
      constructor
      · rw [hframe₄ _ (append_suffix_ne _ _ _ (by decide))
            (append_suffix_ne _ _ _ (by decide))
            (append_suffix_ne _ _ _ (by decide)),
          hfs₃, updateSvelteAppImportsFS_frame _ _ _ _
            (append_suffix_ne _ _ _ (by decide)),
          hframe₂ _ (append_suffix_ne _ _ _ (by decide))
            (append_suffix_ne _ _ _ (by decide)),
          hfile₁]
      · rw [hframe₄ _ (append_suffix_ne _ _ _ (by decide))
            (append_suffix_ne _ _ _ (by decide))
            (append_suffix_ne _ _ _ (by decide)),
          hfs₃, updateSvelteAppImportsFS_frame _ _ _ _
            (append_suffix_ne _ _ _ (by decide)),
          hd, hfile₁]
    · intro hnone
      have hA₃ : fileAt fs₃ (srcPath ++ ["app.css"]) = none := by
        rw [hfs₃, updateSvelteAppImportsFS_frame _ _ _ _
            (append_suffix_ne _ _ _ (by decide)),
          hframe₂ _ (append_suffix_ne _ _ _ (by decide))
            (append_suffix_ne _ _ _ (by decide)),
          hfile₁]
        exact hnone
      rw [hnone₄ hA₃, hfs₃, updateSvelteAppImportsFS_frame _ _ _ _
          (append_suffix_ne _ _ _ (by decide)),
        hframe₂ _ (append_suffix_ne _ _ _ (by decide))
          (append_suffix_ne _ _ _ (by decide)),
        hfile₁]
    · intro q hq
      simp only [List.mem_cons, List.not_mem_nil, or_false] at hq
      push_neg at hq
      obtain ⟨n₁, n₂, n₃, n₄, n₅, n₆, n₇⟩ := hq
      rw [hframe₄ _ n₅ n₆ n₇, hfs₃,
        updateSvelteAppImportsFS_frame _ _ _ _ n₄, hframe₂ _ n₁ n₃, hfile₁]

/-- C6: the Structure Reconciler (`reorganizeViteProject`) is total — it
always completes with `.ok` — and a no-op for absent files: when an expected
relocatable file (Counter.svelte / app.css for svelte, App.css / index.css
for react) is missing, no file is created at either architecture's
destination for it, and only paths in the fixed relocation table are ever
modified. The `dirs.contains … = false`
hypotheses say no *directory* sits at the relocatable files' paths, which
holds for any generator output (they are files, not directories). -/
theorem claim_C6_reconciler_no_op (projectPath : Path)
    (architecture framework : String) (fs : FS)
    (hiA : fs.dirs.contains (projectPath ++ ["src", "App.css"]) = false)
    (hiI : fs.dirs.contains (projectPath ++ ["src", "index.css"]) = false)
    (hiC : fs.dirs.contains
      (projectPath ++ ["src", "lib", "Counter.svelte"]) = false)
    (hia : fs.dirs.contains (projectPath ++ ["src", "app.css"]) = false) :
    ∃ fs', reorganizeViteProjectFS projectPath architecture framework fs =
        .ok fs' ∧
      (framework = "svelte" →
        (fileAt fs (projectPath ++ ["src", "lib", "Counter.svelte"]) = none →
          fileAt fs' (projectPath ++
              ["src", "lib", "shared", "components", "Counter.svelte"]) =
            fileAt fs (projectPath ++
              ["src", "lib", "shared", "components", "Counter.svelte"]) ∧
          fileAt fs' (projectPath ++
              ["src", "lib", "components", "common", "Counter.svelte"]) =
            fileAt fs (projectPath ++
              ["src", "lib", "components", "common", "Counter.svelte"])) ∧
        (fileAt fs (projectPath ++ ["src", "app.css"]) = none →
          fileAt fs' (projectPath ++
              ["src", "lib", "shared", "styles", "app.css"]) =
            fileAt fs (projectPath ++
              ["src", "lib", "shared", "styles", "app.css"])) ∧
        (∀ q, q ∉ [projectPath ++ ["src", "lib", "Counter.svelte"],
            projectPath ++ ["src", "lib", "shared", "components",
              "Counter.svelte"],
            projectPath ++ ["src", "lib", "components", "common",
              "Counter.svelte"],
            projectPath ++ ["src", "App.svelte"],
            projectPath ++ ["src", "app.css"],
            projectPath ++ ["src", "lib", "shared", "styles", "app.css"],
            projectPath ++ ["src", "main.ts"]] →
          fileAt fs' q = fileAt fs q)) ∧
      (framework ≠ "svelte" →
        (fileAt fs (projectPath ++ ["src", "index.css"]) = none →
          fileAt fs' (projectPath ++ ["src", "shared", "styles", "index.css"]) =
            fileAt fs (projectPath ++ ["src", "shared", "styles", "index.css"]) ∧
          fileAt fs' (projectPath ++ ["src", "styles", "index.css"]) =
            fileAt fs (projectPath ++ ["src", "styles", "index.css"])) ∧
        (fileAt fs (projectPath ++ ["src", "App.css"]) = none →
          fileAt fs' (projectPath ++
              ["src", "features", "example", "styles", "App.css"]) =
            fileAt fs (projectPath ++
              ["src", "features", "example", "styles", "App.css"]) ∧
          fileAt fs' (projectPath ++ ["src", "styles", "App.css"]) =
            fileAt fs (projectPath ++ ["src", "styles", "App.css"])) ∧
        (∀ q, q ∉ [projectPath ++ ["src", "App.css"],
            projectPath ++ ["src", "index.css"],
            projectPath ++ ["src", "features", "example", "styles", "App.css"],
            projectPath ++ ["src", "shared", "styles", "index.css"],
            projectPath ++ ["src", "styles", "App.css"],
            projectPath ++ ["src", "styles", "index.css"],
            projectPath ++ ["src", "App.tsx"], projectPath ++ ["src", "App.jsx"],
            projectPath ++ ["src", "App.svelte"],
            projectPath ++ ["src", "main.tsx"],
            projectPath ++ ["src", "main.jsx"]] →
          fileAt fs' q = fileAt fs q)) := by
  by_cases hfw : framework = "svelte"
  · obtain ⟨fs', hrun, h1, h2, h3⟩ := reorganizeSvelte_spec
      (projectPath ++ ["src"]) architecture fs
      (by simp only [List.append_assoc, List.cons_append, List.nil_append]
          exact hiC)
      (by simp only [List.append_assoc, List.cons_append, List.nil_append]
          exact hia)
    simp only [List.append_assoc, List.cons_append, List.nil_append]
      at h1 h2 h3
    refine ⟨fs', ?_, ?_, ?_⟩
    · simp only [reorganizeViteProjectFS]
      rw [if_pos hfw]
      exact hrun
    · intro _
      exact ⟨h1, h2, h3⟩
    · intro hne
      exact absurd hfw hne
  · obtain ⟨fs', hrun, h1, h1a, h2⟩ := reorganizeReact_spec
      (projectPath ++ ["src"]) architecture fs
      (by simp only [List.append_assoc, List.cons_append, List.nil_append]
          exact hiA)
      (by simp only [List.append_assoc, List.cons_append, List.nil_append]
          exact hiI)
    simp only [List.append_assoc, List.cons_append, List.nil_append]
      at h1 h1a h2
    refine ⟨fs', ?_, ?_, ?_⟩
    · simp only [reorganizeViteProjectFS]
      rw [if_neg hfw]
      exact hrun
    · intro hf
      exact absurd hf hfw
    · intro _
      exact ⟨h1, h1a, h2⟩

theorem claim_C6_reconciler_no_op_witness :
    ((FS.mk [] []).dirs.contains (["p"] ++ ["src", "App.css"]) = false ∧
     (FS.mk [] []).dirs.contains (["p"] ++ ["src", "index.css"]) = false ∧
     (FS.mk [] []).dirs.contains
       (["p"] ++ ["src", "lib", "Counter.svelte"]) = false ∧
     (FS.mk [] []).dirs.contains (["p"] ++ ["src", "app.css"]) = false) ∧
    (∃ fs', reorganizeViteProjectFS ["p"] "feature-based" "svelte"
        (FS.mk [] []) = .ok fs' ∧
      ("svelte" = "svelte" →
        (fileAt (FS.mk [] [])
            (["p"] ++ ["src", "lib", "Counter.svelte"]) = none →
          fileAt fs' (["p"] ++
              ["src", "lib", "shared", "components", "Counter.svelte"]) =
            fileAt (FS.mk [] []) (["p"] ++
              ["src", "lib", "shared", "components", "Counter.svelte"]) ∧
          fileAt fs' (["p"] ++
              ["src", "lib", "components", "common", "Counter.svelte"]) =
            fileAt (FS.mk [] []) (["p"] ++
              ["src", "lib", "components", "common", "Counter.svelte"])) ∧
        (fileAt (FS.mk [] []) (["p"] ++ ["src", "app.css"]) = none →
          fileAt fs' (["p"] ++
              ["src", "lib", "shared", "styles", "app.css"]) =
            fileAt (FS.mk [] []) (["p"] ++
              ["src", "lib", "shared", "styles", "app.css"])) ∧
        (∀ q, q ∉ [["p"] ++ ["src", "lib", "Counter.svelte"],
            ["p"] ++ ["src", "lib", "shared", "components", "Counter.svelte"],
            ["p"] ++ ["src", "lib", "components", "common", "Counter.svelte"],
            ["p"] ++ ["src", "App.svelte"],
            ["p"] ++ ["src", "app.css"],
            ["p"] ++ ["src", "lib", "shared", "styles", "app.css"],
            ["p"] ++ ["src", "main.ts"]] →
          fileAt fs' q = fileAt (FS.mk [] []) q)) ∧
      ("svelte" ≠ "svelte" →
        (fileAt (FS.mk [] []) (["p"] ++ ["src", "index.css"]) = none →
          fileAt fs' (["p"] ++ ["src", "shared", "styles", "index.css"]) =
            fileAt (FS.mk [] [])
              (["p"] ++ ["src", "shared", "styles", "index.css"]) ∧
          fileAt fs' (["p"] ++ ["src", "styles", "index.css"]) =
            fileAt (FS.mk [] []) (["p"] ++ ["src", "styles", "index.css"])) ∧
        (fileAt (FS.mk [] []) (["p"] ++ ["src", "App.css"]) = none →
          fileAt fs' (["p"] ++
              ["src", "features", "example", "styles", "App.css"]) =
            fileAt (FS.mk [] []) (["p"] ++
              ["src", "features", "example", "styles", "App.css"]) ∧
          fileAt fs' (["p"] ++ ["src", "styles", "App.css"]) =
            fileAt (FS.mk [] []) (["p"] ++ ["src", "styles", "App.css"])) ∧
        (∀ q, q ∉ [["p"] ++ ["src", "App.css"],
            ["p"] ++ ["src", "index.css"],
            ["p"] ++ ["src", "features", "example", "styles", "App.css"],
            ["p"] ++ ["src", "shared", "styles", "index.css"],
            ["p"] ++ ["src", "styles", "App.css"],
            ["p"] ++ ["src", "styles", "index.css"],
            ["p"] ++ ["src", "App.tsx"], ["p"] ++ ["src", "App.jsx"],
            ["p"] ++ ["src", "App.svelte"],
            ["p"] ++ ["src", "main.tsx"],
            ["p"] ++ ["src", "main.jsx"]] →
          fileAt fs' q = fileAt (FS.mk [] []) q))) :=
  ⟨⟨by decide, by decide, by decide, by decide⟩,
    claim_C6_reconciler_no_op ["p"] "feature-based" "svelte" (FS.mk [] [])
      (by decide) (by decide) (by decide) (by decide)⟩

/-- C3 counterexample: when the registered react generator throws after
writing a partial file, the fallback skeleton runs at the requested path
but the residual file is still present afterwards — the catch branch
performs no cleanup (`removeDirectory` is imported but never called), so
the claim's "no residual partial files" clause fails. -/
theorem claim_C3_counterexample :
    ∃ fs', createProjectStructureFS
        { projectName := "my-app", projectType := Project.frontend,
          language := Language.typescript, framework := "react",
          architecture := "component-based", projectPath := ["home", "my-app"] }
        (fun fs =>
          (writeFileFS fs ["home", "my-app", "partial.txt"] "partial", true))
        (FS.mk [] []) = .ok (fs', ["home", "my-app"]) ∧
      fileAt fs' ["home", "my-app", "partial.txt"] = some "partial" :=
  ⟨_, rfl, rfl⟩

/-- C3 (amended): for every configuration whose framework has a registered
external generator, if the generator throws then the error is caught and
the adapter returns null, and `createProjectStructure` falls back to the
from-scratch skeleton: it succeeds, returns the originally requested
`cfg.projectPath`, and creates every skeleton directory of the
configuration's table there.  Contrary to the claim, residual files left
by the failed generator attempt are retained unchanged — the fallback
only adds directories. -/
theorem claim_C3_generator_failure_fallback (cfg : ProjectConfig)
    (eff : FS → FS × Bool) (fs : FS)
    (hreg : FRAMEWORK_CLIS.contains cfg.framework = true)
    (hthrew : (eff fs).2 = true) :
    (createProjectWithCLIFS cfg eff fs).2 = none ∧
    ∃ fs', createProjectStructureFS cfg eff fs = .ok (fs', cfg.projectPath) ∧
      (∀ q, fileAt fs' q = fileAt (eff fs).1 q) ∧
      (∀ d ∈ structureDirsFor cfg,
        fs'.dirs.contains (cfg.projectPath ++ d) = true) := by
  obtain ⟨fs₁, heff⟩ : ∃ f, eff fs = (f, true) :=
    ⟨(eff fs).1, by rw [← hthrew]⟩
  have hcli : createProjectWithCLIFS cfg eff fs = (fs₁, none) := by
    rw [createProjectWithCLIFS, if_pos hreg, heff]
    rfl
  set fsF := createDirsFS (createDirectoryFS fs₁ cfg.projectPath)
    ((structureDirsFor cfg).map (fun d => cfg.projectPath ++ d)) with hfsF
  have hrun : createProjectStructureFS cfg eff fs = .ok (fsF, cfg.projectPath) := by
    simp only [createProjectStructureFS]
    rw [hcli]
  refine ⟨by rw [hcli], fsF, hrun, ?_, ?_⟩
  · intro q
    rw [hfsF, fileAt_createDirsFS, fileAt_createDirectoryFS, heff]
  · intro d hd
    rw [hfsF]
    exact (dirs_createDirsFS _ _ _).2 (Or.inr (List.mem_map.2 ⟨d, hd, rfl⟩))

theorem claim_C3_generator_failure_fallback_witness :
    (createProjectWithCLIFS
      { projectName := "my-app", projectType := Project.frontend,
        language := Language.typescript, framework := "react",
        architecture := "component-based", projectPath := ["home", "my-app"] }
      (fun fs => (fs, true)) (FS.mk [] [])).2 = none :=
  (claim_C3_generator_failure_fallback _ _ _ (by decide) rfl).1

/-- C4: the alias-configuration step is idempotent on file content — for
every pair of config-file contents, applying `configureSvelteAliases`
to its own output returns that output unchanged, because each textual
patch is guarded by a marker contained in its own replacement text
(`import path from`, `resolve:`, `"paths"`). -/
theorem claim_C4_alias_idempotence (viteConfig tsconfigApp : Option String) :
    configureSvelteAliases (configureSvelteAliases viteConfig tsconfigApp).1
      (configureSvelteAliases viteConfig tsconfigApp).2 =
    configureSvelteAliases viteConfig tsconfigApp := by
  cases viteConfig with
  | none =>
      cases tsconfigApp with
      | none => rfl
      | some t => simp [configureSvelteAliases, configureTsconfigApp_idem t]
  | some v =>
      cases tsconfigApp with
      | none => simp [configureSvelteAliases, configureViteConfig_idem v]
      | some t =>
          simp [configureSvelteAliases, configureViteConfig_idem v,
            configureTsconfigApp_idem t]

/-- C5 counterexample: when both main.tsx and main.jsx exist and contain
the literal import, only main.tsx is rewritten — the loop stops at the
first existing entry file — so the claim's "for every entry file" form
fails on main.jsx. -/
theorem claim_C5_counterexample :
    updateMainCssImports "feature-based"
        (some "import './index.css'") (some "import './index.css'") =
      (some "import './shared/styles/index.css'",
       some "import './index.css'") ∧
    hasImportPat "./index.css".data "import './index.css'".data = true ∧
    ("import './index.css'" : String) ≠ "import './shared/styles/index.css'" := by
  refine ⟨by decide, by decide, by decide⟩

/-- C5 (amended): the reference rewrite is pattern-exact for the first
existing entry file (main.tsx, else main.jsx): the rewrite of a file's
content replaces exactly the occurrences of the literal pattern
`import ['"]./index.css['"]` — by `import './shared/styles/index.css'`
for feature-based and `import './styles/index.css'` for component-based
— and leaves every other character in place; when the pattern occurs the
rewritten file contains the new import; when the pattern is absent the
content is unchanged and no error is raised; when both entry files exist
only main.tsx is processed. -/
theorem claim_C5_css_rewrite :
    (∀ (architecture : String) (content : String),
      ImportRewrite "./index.css".data (mainCssRepl architecture)
        content.data (rewriteMainCss architecture content).data) ∧
    (∀ content : String,
      hasImportPat "./index.css".data content.data = true →
      OccursIn "import './shared/styles/index.css'".data
        (rewriteMainCss "feature-based" content).data ∧
      OccursIn "import './styles/index.css'".data
        (rewriteMainCss "component-based" content).data) ∧
    (∀ (architecture : String) (content : String),
      hasImportPat "./index.css".data content.data = false →
      rewriteMainCss architecture content = content) ∧
    (∀ (architecture : String) (tsx : String) (jsx : Option String),
      updateMainCssImports architecture (some tsx) jsx =
        (some (rewriteMainCss architecture tsx), jsx)) ∧
    (∀ (architecture : String) (jsx : String),
      updateMainCssImports architecture none (some jsx) =
        (none, some (rewriteMainCss architecture jsx))) := by
  refine ⟨?_, ?_, ?_, ?_, ?_⟩
  · intro architecture content
    exact replaceImportPat_rewrites _ _ _
  · intro content h
    constructor
    · exact replaceImportPat_contains _ _ _ h
    · exact replaceImportPat_contains _ _ _ h
  · intro architecture content h
    show String.mk _ = content
    rw [replaceImportPat_no_match _ _ _ h]
  · intro architecture tsx jsx
    rfl
  · intro architecture jsx
    rfl

theorem claim_C5_css_rewrite_witness :
    OccursIn "import './shared/styles/index.css'".data
      (rewriteMainCss "feature-based"
        "import \"./index.css\"\nconsole.log(1)").data ∧
    rewriteMainCss "feature-based" "const x = 1" = "const x = 1" :=
  ⟨(claim_C5_css_rewrite.2.1 "import \"./index.css\"\nconsole.log(1)"
      (by decide)).1,
   claim_C5_css_rewrite.2.2.1 "feature-based" "const x = 1" (by decide)⟩

end Builder
